import Mathlib

/-! Shallow embedding of the TranslateEngine core: the per-format extraction
functions, the reinjection applier `applyTranslations`, the import dispatch
and the batch-translation fan-out from `src/services/parserService.ts` and the
server/app component files, together with theorems settling the claims about
them.

Modelling conventions (JavaScript semantics in a tree model):
* Text is modelled as `List Char`; `String` values are thin wrappers. The
  JavaScript regular-expression splits and matches used by the code are
  implemented as explicit character-list scanners.
* JSON numbers are modelled as exact integers; fractional or exponent literals
  and float rounding are outside the scope of the model (the model parser
  rejects them, and integers print in plain decimal).
* JS objects are plain key/value trees: prototype-chain lookups (for example
  "toString") and string index properties are not modelled and read as
  undefined; assigning a property on a truthy primitive models the
  strict-mode TypeError as an aborting failure that is caught by the
  surrounding try/catch, exactly as in the source. Assigning a non-index key
  on an array (invisible to JSON.stringify) is modelled as a no-op. -/

namespace TE

/-- Push a character onto the first component of a split result. -/
def consHead (c : Char) : List (List Char) → List (List Char)
  | [] => [[c]]
  | h :: t => (c :: h) :: t

/-- Split on a single newline character (exact separator "\n"). -/
def splitNl : List Char → List (List Char)
  | [] => [[]]
  | '\n' :: rest => [] :: splitNl rest
  | c :: rest => consHead c (splitNl rest)

/-- Model of the JavaScript `content.split(/\r?\n/)`: "\r\n" and "\n" are
separators, a lone "\r" is ordinary text. -/
def splitRN : List Char → List (List Char)
  | [] => [[]]
  | '\r' :: '\n' :: rest => [] :: splitRN rest
  | '\n' :: rest => [] :: splitRN rest
  | c :: rest => consHead c (splitRN rest)

/-- Split on the exact two-character separator "\n\n", leftmost first. -/
def splitB2 : List Char → List (List Char)
  | [] => [[]]
  | '\n' :: '\n' :: rest => [] :: splitB2 rest
  | c :: rest => consHead c (splitB2 rest)

/-- Model of the JavaScript `content.split(/\r?\n\r?\n/)`; each half of the
separator greedily takes a preceding "\r". -/
def splitBRN : List Char → List (List Char)
  | [] => [[]]
  | '\r' :: '\n' :: '\r' :: '\n' :: rest => [] :: splitBRN rest
  | '\r' :: '\n' :: '\n' :: rest => [] :: splitBRN rest
  | '\n' :: '\r' :: '\n' :: rest => [] :: splitBRN rest
  | '\n' :: '\n' :: rest => [] :: splitBRN rest
  | c :: rest => consHead c (splitBRN rest)

/-- Join pieces with a separator, the inverse of the split functions; models
`Array.prototype.join`. -/
def joinSep (sep : List Char) : List (List Char) → List Char
  | [] => []
  | [x] => x
  | x :: y :: ys => x ++ sep ++ joinSep sep (y :: ys)

/-- JavaScript whitespace test covering the ASCII whitespace characters used
by `trim` and the `\s` regex class (unicode space variants are out of scope). -/
def isWS (c : Char) : Bool :=
  c == ' ' || c == '\t' || c == '\r' || c == '\n' || c == '\x0b' || c == '\x0c'

/-- Model of `String.prototype.trim` on character lists. -/
def trimL (cs : List Char) : List Char :=
  ((cs.dropWhile isWS).reverse.dropWhile isWS).reverse

/-- Does `cs` start with the pattern `pre`? -/
def leadsWith : List Char → List Char → Bool
  | [], _ => true
  | _ :: _, [] => false
  | p :: ps, c :: cs => p == c && leadsWith ps cs

/-- Does `cs` contain `pat` as a contiguous substring? -/
def containsSub (pat : List Char) : List Char → Bool
  | [] => pat.isEmpty
  | c :: rest => leadsWith pat (c :: rest) || containsSub pat rest

/-- Does `cs` end with the pattern `suf`? -/
def endsW (suf cs : List Char) : Bool :=
  leadsWith suf.reverse cs.reverse

/-- The decimal digit characters. -/
def digitCh : Nat → Char
  | 0 => '0'
  | 1 => '1'
  | 2 => '2'
  | 3 => '3'
  | 4 => '4'
  | 5 => '5'
  | 6 => '6'
  | 7 => '7'
  | 8 => '8'
  | _ => '9'

/-- Decimal digits of `n`, most significant first; the first argument is
structural fuel (any value above `n` works). -/
def decDigits : Nat → Nat → List Char
  | 0, _ => []
  | f + 1, n =>
    if n < 10 then [digitCh n]
    else decDigits f (n / 10) ++ [digitCh (n % 10)]

/-- Decimal rendering of a natural number, as produced by JavaScript template
interpolation of an index. -/
def decChars (n : Nat) : List Char := decDigits (n + 1) n

/-- Numeric value of a digit character. -/
def digitVal (c : Char) : Nat := c.toNat - 48

/-- Value of a digit string, most significant first. -/
def valDigits (cs : List Char) : Nat := cs.foldl (fun a c => a * 10 + digitVal c) 0

def isDigitCh (c : Char) : Bool := '0' ≤ c && c ≤ '9'

/-- JSON model: the subset of JavaScript values produced by JSON.parse.
Numbers are exact integers (floats are out of scope); object fields keep
insertion order and never repeat a key when produced by the model parser. -/
inductive Json where
  | null : Json
  | bool (b : Bool) : Json
  | num (n : Int) : Json
  | str (s : List Char) : Json
  | arr (elems : List Json) : Json
  | obj (fields : List (List Char × Json)) : Json

mutual

def Json.beq : Json → Json → Bool
  | .null, .null => true
  | .bool a, .bool b => a == b
  | .num a, .num b => a == b
  | .str a, .str b => a == b
  | .arr xs, .arr ys => Json.beqL xs ys
  | .obj fs, .obj gs => Json.beqF fs gs
  | _, _ => false

def Json.beqL : List Json → List Json → Bool
  | [], [] => true
  | x :: xs, y :: ys => Json.beq x y && Json.beqL xs ys
  | _, _ => false

def Json.beqF : List (List Char × Json) → List (List Char × Json) → Bool
  | [], [] => true
  | (k, v) :: fs, (l, w) :: gs => k == l && Json.beq v w && Json.beqF fs gs
  | _, _ => false

end

mutual

def Json.decEq : (a b : Json) → Decidable (a = b)
  | .null, .null => .isTrue rfl
  | .bool a, .bool b =>
    if h : a = b then .isTrue (by rw [h]) else .isFalse (fun hh => h (Json.bool.inj hh))
  | .num a, .num b =>
    if h : a = b then .isTrue (by rw [h]) else .isFalse (fun hh => h (Json.num.inj hh))
  | .str a, .str b =>
    if h : a = b then .isTrue (by rw [h]) else .isFalse (fun hh => h (Json.str.inj hh))
  | .arr xs, .arr ys =>
    match Json.decEqL xs ys with
    | .isTrue h => .isTrue (by rw [h])
    | .isFalse h => .isFalse (fun hh => h (Json.arr.inj hh))
  | .obj fs, .obj gs =>
    match Json.decEqF fs gs with
    | .isTrue h => .isTrue (by rw [h])
    | .isFalse h => .isFalse (fun hh => h (Json.obj.inj hh))
  | .null, .bool _ => .isFalse (fun h => Json.noConfusion h)
  | .null, .num _ => .isFalse (fun h => Json.noConfusion h)
  | .null, .str _ => .isFalse (fun h => Json.noConfusion h)
  | .null, .arr _ => .isFalse (fun h => Json.noConfusion h)
  | .null, .obj _ => .isFalse (fun h => Json.noConfusion h)
  | .bool _, .null => .isFalse (fun h => Json.noConfusion h)
  | .bool _, .num _ => .isFalse (fun h => Json.noConfusion h)
  | .bool _, .str _ => .isFalse (fun h => Json.noConfusion h)
  | .bool _, .arr _ => .isFalse (fun h => Json.noConfusion h)
  | .bool _, .obj _ => .isFalse (fun h => Json.noConfusion h)
  | .num _, .null => .isFalse (fun h => Json.noConfusion h)
  | .num _, .bool _ => .isFalse (fun h => Json.noConfusion h)
  | .num _, .str _ => .isFalse (fun h => Json.noConfusion h)
  | .num _, .arr _ => .isFalse (fun h => Json.noConfusion h)
  | .num _, .obj _ => .isFalse (fun h => Json.noConfusion h)
  | .str _, .null => .isFalse (fun h => Json.noConfusion h)
  | .str _, .bool _ => .isFalse (fun h => Json.noConfusion h)
  | .str _, .num _ => .isFalse (fun h => Json.noConfusion h)
  | .str _, .arr _ => .isFalse (fun h => Json.noConfusion h)
  | .str _, .obj _ => .isFalse (fun h => Json.noConfusion h)
  | .arr _, .null => .isFalse (fun h => Json.noConfusion h)
  | .arr _, .bool _ => .isFalse (fun h => Json.noConfusion h)
  | .arr _, .num _ => .isFalse (fun h => Json.noConfusion h)
  | .arr _, .str _ => .isFalse (fun h => Json.noConfusion h)
  | .arr _, .obj _ => .isFalse (fun h => Json.noConfusion h)
  | .obj _, .null => .isFalse (fun h => Json.noConfusion h)
  | .obj _, .bool _ => .isFalse (fun h => Json.noConfusion h)
  | .obj _, .num _ => .isFalse (fun h => Json.noConfusion h)
  | .obj _, .str _ => .isFalse (fun h => Json.noConfusion h)
  | .obj _, .arr _ => .isFalse (fun h => Json.noConfusion h)

def Json.decEqL : (xs ys : List Json) → Decidable (xs = ys)
  | [], [] => .isTrue rfl
  | [], _ :: _ => .isFalse (fun h => List.noConfusion h)
  | _ :: _, [] => .isFalse (fun h => List.noConfusion h)
  | x :: xs, y :: ys =>
    match Json.decEq x y with
    | .isTrue h1 =>
      match Json.decEqL xs ys with
      | .isTrue h2 => .isTrue (by rw [h1, h2])
      | .isFalse h2 => .isFalse (fun hh => h2 (List.cons.inj hh).2)
    | .isFalse h1 => .isFalse (fun hh => h1 (List.cons.inj hh).1)

def Json.decEqF : (fs gs : List (List Char × Json)) → Decidable (fs = gs)
  | [], [] => .isTrue rfl
  | [], _ :: _ => .isFalse (fun h => List.noConfusion h)
  | _ :: _, [] => .isFalse (fun h => List.noConfusion h)
  | (k, v) :: fs, (l, w) :: gs =>
    if hk : k = l then
      match Json.decEq v w with
      | .isTrue h1 =>
        match Json.decEqF fs gs with
        | .isTrue h2 => .isTrue (by rw [hk, h1, h2])
        | .isFalse h2 => .isFalse (fun hh => h2 (List.cons.inj hh).2)
      | .isFalse h1 =>
        .isFalse (fun hh => h1 (congrArg Prod.snd (List.cons.inj hh).1))
    else .isFalse (fun hh => hk (congrArg Prod.fst (List.cons.inj hh).1))

end

instance : DecidableEq Json := Json.decEq

/-- JavaScript truthiness of a JSON value. -/
def Json.truthy : Json → Bool
  | .null => false
  | .bool b => b
  | .num n => n != 0
  | .str s => !s.isEmpty
  | .arr _ => true
  | .obj _ => true

/-- Is the key a canonical array index, i.e. the decimal rendering of a
natural number with no leading zero? -/
def keyIdx (k : List Char) : Option Nat :=
  match k with
  | [] => none
  | ['0'] => some 0
  | '0' :: _ :: _ => none
  | _ =>
    if k.all isDigitCh then some (valDigits k) else none

/-- First-occurrence lookup in an object field list (model object fields never
repeat a key). -/
def lookupField : List (List Char × Json) → List Char → Option Json
  | [], _ => none
  | (k, v) :: fs, key => if k = key then some v else lookupField fs key

/-- Property read `v[k]`, returning `none` for undefined. Prototype-chain
properties and string index properties are not modelled; an array hole (from
padding) reads as the `null` that JSON.stringify would print for it. -/
def Json.look : Json → List Char → Option Json
  | .obj fs, k => lookupField fs k
  | .arr xs, k =>
    (match keyIdx k with
     | some i => xs.get? i
     | none => none)
  | _, _ => none

/-- Assign a field: update the first occurrence in place, or append a new key
at the end (JS insertion order). -/
def setField : List (List Char × Json) → List Char → Json → List (List Char × Json)
  | [], key, v => [(key, v)]
  | (k, w) :: fs, key, v =>
    if k = key then (k, v) :: fs else (k, w) :: setField fs key v

/-- Array element assignment; writing past the end pads with nulls the way
JS holes stringify. -/
def padSet : List Json → Nat → Json → List Json
  | [], 0, v => [v]
  | [], n + 1, v => .null :: padSet [] n v
  | _ :: xs, 0, v => v :: xs
  | x :: xs, n + 1, v => x :: padSet xs n v

/-- Replace an existing child (used while unwinding the walk of
`applyTranslations`; only reached when `look` succeeded). -/
def Json.replaceAt : Json → List Char → Json → Json
  | .obj fs, k, c => .obj (setField fs k c)
  | .arr xs, k, c =>
    (match keyIdx k with
     | some i => .arr (xs.set i c)
     | none => .arr xs)
  | v, _, _ => v

/-- Model of `path.replace(/\[(\d+)\]/g, '.$1')`: every bracketed digit group
becomes a dot-prefixed segment. The first argument is structural fuel (any
value at least the list length works). -/
def brDotF : Nat → List Char → List Char
  | 0, cs => cs
  | _ + 1, [] => []
  | f + 1, '[' :: rest =>
    (match rest.takeWhile isDigitCh, rest.dropWhile isDigitCh with
     | [], _ => '[' :: brDotF f rest
     | _ :: _, ']' :: r3 => '.' :: rest.takeWhile isDigitCh ++ brDotF f r3
     | _ :: _, _ => '[' :: brDotF f rest)
  | f + 1, c :: rest => c :: brDotF f rest

def brDot (cs : List Char) : List Char := brDotF cs.length cs

/-- Split on the dot character, modelling `String.prototype.split('.')`. -/
def splitDot : List Char → List (List Char)
  | [] => [[]]
  | '.' :: rest => [] :: splitDot rest
  | c :: rest => consHead c (splitDot rest)

/-- The path-part list `entry.path.replace(/\[(\d+)\]/g, '.$1').split('.')`
used by the JSON branch of `applyTranslations`. -/
def segs (path : List Char) : List (List Char) := splitDot (brDot path)

/-- One walk-and-assign of the JSON branch of `applyTranslations`:
`none` models the strict-mode TypeError raised by assigning a property on a
truthy primitive (caught by the enclosing try); a broken or falsy path is a
silent skip returning the value unchanged. -/
def setPath : Json → List (List Char) → List Char → Option Json
  | v, [], _ => some v
  | v, [k], t =>
    if !v.truthy then some v
    else
      match v with
      | .obj fs => some (.obj (setField fs k (.str t)))
      | .arr xs =>
        (match keyIdx k with
         | some i => some (.arr (padSet xs i (.str t)))
         | none => some (.arr xs))
      | _ => none
  | v, k :: k2 :: ks, t =>
    if !v.truthy then some v
    else
      match v.look k with
      | none => some v
      | some child =>
        match setPath child (k2 :: ks) t with
        | none => none
        | some c2 => some (v.replaceAt k c2)

/-- The engine tag of a project (`TranslationProject["engine"]`). -/
inductive Engine where
  | kirikiri : Engine
  | rpgmaker : Engine
  | renpy : Engine
  | unity : Engine
  | generic : Engine
  | subtitles : Engine
  deriving DecidableEq, Repr

/-- Model of `GameScriptEntry`. `original` is an `Option Json` because the
RPG Maker extractor pushes whatever JavaScript value it reads (possibly
undefined, modelled as `none`); parser-made string entries carry
`some (.str s)`. -/
structure Entry where
  id : List Char
  original : Option Json
  translated : List Char
  path : List Char
  context : Option (List Char)
  tmEngineMatch : Option (List Char)
  deriving DecidableEq

/-- Build a plain parser entry (string original, no TM mark). -/
def mkE (id : List Char) (original : List Char) (path : List Char)
    (context : List Char) : Entry :=
  { id := id, original := some (.str original), translated := [],
    path := path, context := some context, tmEngineMatch := none }

/-- One entry of the JSON-branch forEach: entries with empty `translated`
return immediately. -/
def stepEntry (e : Entry) (v : Json) : Option Json :=
  if e.translated.isEmpty then some v else setPath v (segs e.path) e.translated

/-- The whole JSON-branch forEach over the parsed value; `none` models an
uncaught-inside-the-loop TypeError that transfers control to the catch. -/
def goEntries : List Entry → Json → Option Json
  | [], v => some v
  | e :: es, v =>
    match stepEntry e v with
    | none => none
    | some v2 => goEntries es v2

/-- JSON inter-token whitespace. -/
def isJsonWS (c : Char) : Bool :=
  c == ' ' || c == '\t' || c == '\n' || c == '\r'

def skipWs (cs : List Char) : List Char := cs.dropWhile isJsonWS

def hexVal (c : Char) : Option Nat :=
  if isDigitCh c then some (c.toNat - 48)
  else if 'a' ≤ c && c ≤ 'f' then some (c.toNat - 87)
  else if 'A' ≤ c && c ≤ 'F' then some (c.toNat - 55)
  else none

/-- JSON string body after the opening quote: returns the decoded content and
the remainder after the closing quote. Lone surrogate escapes are outside the
model (Lean characters are scalar values) and fail. -/
def parseStr : Nat → List Char → Option (List Char × List Char)
  | 0, _ => none
  | _ + 1, [] => none
  | _ + 1, '"' :: rest => some ([], rest)
  | f + 1, '\\' :: rest =>
    (match rest with
     | [] => none
     | 'u' :: h1 :: h2 :: h3 :: h4 :: r2 =>
       (match hexVal h1, hexVal h2, hexVal h3, hexVal h4 with
        | some a, some b, some c, some d =>
          let n := ((a * 16 + b) * 16 + c) * 16 + d
          if 0xd800 ≤ n && n ≤ 0xdbff then
            match r2 with
            | '\\' :: 'u' :: g1 :: g2 :: g3 :: g4 :: r3 =>
              (match hexVal g1, hexVal g2, hexVal g3, hexVal g4 with
               | some a2, some b2, some c2, some d2 =>
                 let m := ((a2 * 16 + b2) * 16 + c2) * 16 + d2
                 if 0xdc00 ≤ m && m ≤ 0xdfff then
                   match parseStr f r3 with
                   | some (s, r4) =>
                     some (Char.ofNat (0x10000 + (n - 0xd800) * 0x400 + (m - 0xdc00)) :: s, r4)
                   | none => none
                 else none
               | _, _, _, _ => none)
            | _ => none
          else if 0xdc00 ≤ n && n ≤ 0xdfff then none
          else
            match parseStr f r2 with
            | some (s, r3) => some (Char.ofNat n :: s, r3)
            | none => none
        | _, _, _, _ => none)
     | e :: r2 =>
       let dec : Option Char :=
         if e = '"' then some '"'
         else if e = '\\' then some '\\'
         else if e = '/' then some '/'
         else if e = 'b' then some '\x08'
         else if e = 'f' then some '\x0c'
         else if e = 'n' then some '\n'
         else if e = 'r' then some '\r'
         else if e = 't' then some '\t'
         else none
       match dec with
       | none => none
       | some c =>
         match parseStr f r2 with
         | some (s, r3) => some (c :: s, r3)
         | none => none)
  | f + 1, c :: rest =>
    if c.toNat < 32 then none
    else
      match parseStr f rest with
      | some (s, r2) => some (c :: s, r2)
      | none => none

/-- JSON number literal restricted to integers: an optional minus and a
canonical digit run. A following fraction or exponent makes the model parser
fail (floats are out of scope). -/
def parseNumBody (cs : List Char) : Option (Nat × List Char) :=
  match cs.takeWhile isDigitCh, cs.dropWhile isDigitCh with
  | [], _ => none
  | ['0'], rest => some (0, rest)
  | '0' :: _ :: _, _ => none
  | ds, rest =>
    match rest with
    | '.' :: _ => none
    | 'e' :: _ => none
    | 'E' :: _ => none
    | _ => some (valDigits ds, rest)

def parseNum : List Char → Option (Int × List Char)
  | '-' :: rest =>
    (match parseNumBody rest with
     | some (n, r2) => some (-(n : Int), r2)
     | none => none)
  | cs =>
    match parseNumBody cs with
    | some (n, r2) => some ((n : Int), r2)
    | none => none

/-- Install a parsed object member with JavaScript duplicate-key semantics:
the key keeps its first-insertion position, the last value wins. `fsRest` is
the object built from the members after this one. -/
def insMember (k : List Char) (v : Json) (fsRest : List (List Char × Json)) :
    List (List Char × Json) :=
  match lookupField fsRest k with
  | some w => (k, w) :: fsRest.filter (fun p => p.1 ≠ k)
  | none => (k, v) :: fsRest

mutual

def parseVal : Nat → List Char → Option (Json × List Char)
  | 0, _ => none
  | f + 1, cs =>
    match cs with
    | 'n' :: 'u' :: 'l' :: 'l' :: rest => some (.null, rest)
    | 't' :: 'r' :: 'u' :: 'e' :: rest => some (.bool true, rest)
    | 'f' :: 'a' :: 'l' :: 's' :: 'e' :: rest => some (.bool false, rest)
    | '"' :: rest =>
      (match parseStr (rest.length + 1) rest with
       | some (s, r2) => some (.str s, r2)
       | none => none)
    | '[' :: rest =>
      (match skipWs rest with
       | ']' :: r3 => some (.arr [], r3)
       | r2 =>
         match parseElems f r2 with
         | some (xs, r3) => some (.arr xs, r3)
         | none => none)
    | '\x7b' :: rest =>
      (match skipWs rest with
       | '\x7d' :: r3 => some (.obj [], r3)
       | r2 =>
         match parseFields f r2 with
         | some (fs, r3) => some (.obj fs, r3)
         | none => none)
    | _ =>
      match parseNum cs with
      | some (n, rest) => some (.num n, rest)
      | none => none

def parseElems : Nat → List Char → Option (List Json × List Char)
  | 0, _ => none
  | f + 1, cs =>
    match parseVal f cs with
    | none => none
    | some (v, rest) =>
      match skipWs rest with
      | ',' :: r2 =>
        (match parseElems f (skipWs r2) with
         | some (xs, r3) => some (v :: xs, r3)
         | none => none)
      | ']' :: r2 => some ([v], r2)
      | _ => none

def parseFields : Nat → List Char → Option (List (List Char × Json) × List Char)
  | 0, _ => none
  | f + 1, cs =>
    match cs with
    | '"' :: rest =>
      (match parseStr (rest.length + 1) rest with
       | none => none
       | some (k, r2) =>
         match skipWs r2 with
         | ':' :: r3 =>
           (match parseVal f (skipWs r3) with
            | none => none
            | some (v, r4) =>
              match skipWs r4 with
              | ',' :: r5 =>
                (match parseFields f (skipWs r5) with
                 | some (fs, r6) => some (insMember k v fs, r6)
                 | none => none)
              | '\x7d' :: r5 => some ([(k, v)], r5)
              | _ => none)
         | _ => none)
    | _ => none

end

/-- Model of `JSON.parse`: the whole input must be one JSON value surrounded
by whitespace. -/
def Json.parseC (cs : List Char) : Option Json :=
  let s := skipWs cs
  match parseVal (2 * s.length + 2) s with
  | some (v, rest) => if (skipWs rest).isEmpty then some v else none
  | none => none

def hexDigit (n : Nat) : Char :=
  if n < 10 then digitCh n
  else if n = 10 then 'a'
  else if n = 11 then 'b'
  else if n = 12 then 'c'
  else if n = 13 then 'd'
  else if n = 14 then 'e'
  else 'f'

/-- JSON.stringify escaping of one character. -/
def escCh (c : Char) : List Char :=
  if c = '"' then ['\\', '"']
  else if c = '\\' then ['\\', '\\']
  else if c = '\x08' then ['\\', 'b']
  else if c = '\x0c' then ['\\', 'f']
  else if c = '\n' then ['\\', 'n']
  else if c = '\r' then ['\\', 'r']
  else if c = '\t' then ['\\', 't']
  else if c.toNat < 32 then ['\\', 'u', '0', '0', hexDigit (c.toNat / 16), hexDigit (c.toNat % 16)]
  else [c]

def escStr (s : List Char) : List Char :=
  '"' :: (s.map escCh).flatten ++ ['"']

/-- JavaScript decimal rendering of an integer. -/
def intRepr : Int → List Char
  | .ofNat n => decChars n
  | .negSucc m => '-' :: decChars (m + 1)

mutual

/-- Model of `JSON.stringify(v, null, 2)`; the second argument is the current
indentation. -/
def render : Json → List Char → List Char
  | .null, _ => ['n', 'u', 'l', 'l']
  | .bool true, _ => ['t', 'r', 'u', 'e']
  | .bool false, _ => ['f', 'a', 'l', 's', 'e']
  | .num n, _ => intRepr n
  | .str s, _ => escStr s
  | .arr [], _ => ['[', ']']
  | .arr (x :: xs), ind =>
    '[' :: '\n' :: renderItems (x :: xs) (' ' :: ' ' :: ind) ++ '\n' :: ind ++ [']']
  | .obj [], _ => ['\x7b', '\x7d']
  | .obj (p :: fs), ind =>
    '\x7b' :: '\n' :: renderFields (p :: fs) (' ' :: ' ' :: ind) ++ '\n' :: ind ++ ['\x7d']

def renderItems : List Json → List Char → List Char
  | [], _ => []
  | [x], ind => ind ++ render x ind
  | x :: y :: ys, ind =>
    ind ++ render x ind ++ ',' :: '\n' :: renderItems (y :: ys) ind

def renderFields : List (List Char × Json) → List Char → List Char
  | [], _ => []
  | [(k, v)], ind => ind ++ escStr k ++ ':' :: ' ' :: render v ind
  | (k, v) :: p :: fs, ind =>
    ind ++ escStr k ++ ':' :: ' ' :: render v ind ++ ',' :: '\n' :: renderFields (p :: fs) ind

end

def Json.stringifyC (v : Json) : List Char := render v []

/-- Character list of a string literal. -/
def s2c (s : String) : List Char := s.data

def optTruthy : Option Json → Bool
  | none => false
  | some v => v.truthy

mutual

/-- JavaScript `String(v)` conversion as used by template literals. -/
def jsDispV : Json → List Char
  | .null => s2c "null"
  | .bool b => s2c (if b then "true" else "false")
  | .num n => intRepr n
  | .str s => s
  | .arr xs => jsDispElems xs
  | .obj _ => s2c "[object Object]"

def jsDispElems : List Json → List Char
  | [] => []
  | [x] => jsDispEl x
  | x :: y :: ys => jsDispEl x ++ ',' :: jsDispElems (y :: ys)

def jsDispEl : Json → List Char
  | .null => []
  | .bool b => s2c (if b then "true" else "false")
  | .num n => intRepr n
  | .str s => s
  | .arr xs => jsDispElems xs
  | .obj _ => s2c "[object Object]"

end

def jsDisplay : Option Json → List Char
  | none => s2c "undefined"
  | some v => jsDispV v

/-- Template interpolation of `v || fallback`. -/
def dispOr (v : Option Json) (fallback : List Char) : List Char :=
  match v with
  | some w => if w.truthy then jsDispV w else fallback
  | none => fallback

/-- Extraction-time exceptions are modelled as `Except` whose error also
carries the entries accumulated before the throw, because the `entries`
array of `parseRPGMaker` lives outside the try block. -/
abbrev RpgRes := Except (List Entry) (List Entry)

/-- Indexed forEach over the elements of a JS array inside the extractor. -/
def exFold (f : Nat → Json → List Entry → RpgRes) : Nat → List Json → List Entry → RpgRes
  | _, [], acc => .ok acc
  | i, x :: xs, acc =>
    match f i x acc with
    | .error e => .error e
    | .ok acc2 => exFold f (i + 1) xs acc2

/-- `v.forEach` requires an actual array; anything else (undefined, null, a
primitive or a plain object) raises a TypeError. -/
def mustArr : Option Json → List Entry → Except (List Entry) (List Json)
  | some (.arr xs), _ => .ok xs
  | _, acc => .error acc

/-- Model of `pv[0]` where `pv` is the value of `cmd.parameters`: indexing
undefined or null throws; numbers and booleans read undefined; a string reads
its first character; an object reads its "0" member. -/
def idx0E : Option Json → List Entry → Except (List Entry) (Option Json)
  | none, acc => .error acc
  | some .null, acc => .error acc
  | some (.num _), _ => .ok none
  | some (.bool _), _ => .ok none
  | some (.str []), _ => .ok none
  | some (.str (c :: _)), _ => .ok (some (.str [c]))
  | some (.arr xs), _ => .ok (xs.get? 0)
  | some (.obj fs), _ => .ok (lookupField fs ['0'])

/-- Member access `cmd.code` where `cmd` may be null (a throw). -/
def memberE (v : Json) (k : List Char) (acc : List Entry) :
    Except (List Entry) (Option Json) :=
  match v with
  | .null => .error acc
  | _ => .ok (v.look k)

/-- `Object.entries(v)` for a truthy `v`. -/
def objEntries : Json → List (List Char × Json)
  | .obj fs => fs
  | .arr xs => xs.enum.map (fun p => (decChars p.1, p.2))
  | .str s => s.enum.map (fun p => (decChars p.1, .str [p.2]))
  | _ => []

/-- An entry as pushed by the RPG Maker extractor (original is the raw JS
value read from the data). -/
def mkR (id : List Char) (original : Option Json) (path : List Char)
    (context : List Char) : Entry :=
  { id := id, original := original, translated := [],
    path := path, context := some context, tmEngineMatch := none }

/-- Code 401 / 102 handling for one command of a map event page. -/
def rpgB1Cmd (fn : List Char) (evName : Option Json) (eventIdx pageIdx : Nat)
    (cmdIdx : Nat) (cmd : Json) (acc : List Entry) : RpgRes :=
  match memberE cmd (s2c "code") acc with
  | .error e => .error e
  | .ok code =>
    match
      (if code = some (.num 401) then
        match idx0E (cmd.look (s2c "parameters")) acc with
        | .error e => Except.error e
        | .ok p0 =>
          Except.ok (acc ++ [mkR (s2c "map-" ++ fn ++ '-' :: decChars eventIdx ++
              '-' :: decChars pageIdx ++ '-' :: decChars cmdIdx) p0
            (s2c "events[" ++ decChars eventIdx ++ s2c "].pages[" ++ decChars pageIdx ++
              s2c "].list[" ++ decChars cmdIdx ++ s2c "].parameters[0]")
            (s2c "Event: " ++ dispOr evName (s2c "Unnamed"))])
      else Except.ok acc) with
    | .error e => .error e
    | .ok acc2 =>
      if code = some (.num 102) then
        match idx0E (cmd.look (s2c "parameters")) acc2 with
        | .error e => .error e
        | .ok p0 =>
          match mustArr p0 acc2 with
          | .error e => .error e
          | .ok choices =>
            exFold (fun choiceIdx choice a =>
              .ok (a ++ [mkR (s2c "choice-" ++ fn ++ '-' :: decChars eventIdx ++
                  '-' :: decChars pageIdx ++ '-' :: decChars cmdIdx ++
                  '-' :: decChars choiceIdx) (some choice)
                (s2c "events[" ++ decChars eventIdx ++ s2c "].pages[" ++ decChars pageIdx ++
                  s2c "].list[" ++ decChars cmdIdx ++ s2c "].parameters[0][" ++
                  decChars choiceIdx ++ [']'])
                (s2c "Choice in Event: " ++ dispOr evName (s2c "Unnamed"))]))
              0 choices acc2
      else .ok acc2

/-- Branch 1: RPG Maker MV/MZ map files (`data.events` truthy). -/
def rpgB1 (fn : List Char) (data : Json) (acc : List Entry) : RpgRes :=
  match memberE data (s2c "events") acc with
  | .error e => .error e
  | .ok ev =>
    if !optTruthy ev then .ok acc
    else
      match mustArr ev acc with
      | .error e => .error e
      | .ok events =>
        exFold (fun eventIdx event a =>
          if !event.truthy then .ok a
          else
            match mustArr (event.look (s2c "pages")) a with
            | .error e => .error e
            | .ok pages =>
              exFold (fun pageIdx page a2 =>
                match mustArr (page.look (s2c "list")) a2 with
                | .error e => .error e
                | .ok cmds =>
                  exFold (rpgB1Cmd fn (event.look (s2c "name")) eventIdx pageIdx)
                    0 cmds a2)
                0 pages a)
          0 events acc

/-- Branch 2 guard: `Array.isArray(data) && data[0] === null && data.length > 1
&& data[1].list` (reading `.list` on a null element throws). -/
def rpgB2Guard (data : Json) (acc : List Entry) : Except (List Entry) Bool :=
  match data with
  | .arr (x0 :: x1 :: _) =>
    if x0 = .null then
      match x1 with
      | .null => .error acc
      | _ => .ok (optTruthy (x1.look (s2c "list")))
    else .ok false
  | _ => .ok false

/-- Branch 2: CommonEvents.json. -/
def rpgB2 (fn : List Char) (data : Json) (acc : List Entry) : RpgRes :=
  match rpgB2Guard data acc with
  | .error e => .error e
  | .ok g =>
    if !g then .ok acc
    else
      match data with
      | .arr events =>
        exFold (fun eventIdx event a =>
          if !event.truthy then .ok a
          else
            match mustArr (event.look (s2c "list")) a with
            | .error e => .error e
            | .ok cmds =>
              exFold (fun cmdIdx cmd a2 =>
                match memberE cmd (s2c "code") a2 with
                | .error e => .error e
                | .ok code =>
                  if code = some (.num 401) then
                    match idx0E (cmd.look (s2c "parameters")) a2 with
                    | .error e => .error e
                    | .ok p0 =>
                      .ok (a2 ++ [mkR (s2c "common-" ++ fn ++ '-' :: decChars eventIdx ++
                          '-' :: decChars cmdIdx) p0
                        ('[' :: decChars eventIdx ++ s2c "].list[" ++ decChars cmdIdx ++
                          s2c "].parameters[0]")
                        (s2c "Common Event: " ++ jsDisplay (event.look (s2c "name")))])
                  else .ok a2)
                0 cmds a)
          0 events acc
      | _ => .ok acc

/-- Guards of branches 3, 5 and 6: `Array.isArray(data) && data.length > 0 &&
data[0] === null && data[1] && data[1].<probe> !== undefined` (no throw:
`data[1] &&` screens null and undefined). -/
def rpgSibGuard (data : Json) (probe : List Char) : Bool :=
  match data with
  | .arr (x0 :: rest) =>
    x0 = .null &&
      (match rest with
       | x1 :: _ => x1.truthy && (x1.look probe).isSome
       | [] => false)
  | _ => false

/-- Push an entry when the named member of a record is truthy. -/
def pushIfTruthy (rec : Json) (field : List Char) (id path context : List Char)
    (acc : List Entry) : List Entry :=
  let v := rec.look field
  if optTruthy v then acc ++ [mkR id v path context] else acc

/-- Branch 3: Actors.json. -/
def rpgB3 (fn : List Char) (data : Json) (acc : List Entry) : RpgRes :=
  if !rpgSibGuard data (s2c "nickname") then .ok acc
  else
    match data with
    | .arr actors =>
      exFold (fun idx actor a =>
        if !actor.truthy then .ok a
        else
          .ok (pushIfTruthy actor (s2c "profile")
            (s2c "actor-" ++ fn ++ '-' :: decChars idx ++ s2c "-prof")
            ('[' :: decChars idx ++ s2c "].profile") (s2c "Actor Profile")
            (pushIfTruthy actor (s2c "nickname")
              (s2c "actor-" ++ fn ++ '-' :: decChars idx ++ s2c "-nick")
              ('[' :: decChars idx ++ s2c "].nickname") (s2c "Actor Nickname")
              (pushIfTruthy actor (s2c "name")
                (s2c "actor-" ++ fn ++ '-' :: decChars idx ++ s2c "-name")
                ('[' :: decChars idx ++ s2c "].name") (s2c "Actor Name") a))))
        0 actors acc
    | _ => .ok acc

/-- One terms array of System.json (basic, commands, params). -/
def rpgTermsList (fn : List Char) (tv : Json) (field idPiece pathPiece context : List Char)
    (acc : List Entry) : RpgRes :=
  let bv := tv.look field
  if !optTruthy bv then .ok acc
  else
    match mustArr bv acc with
    | .error e => .error e
    | .ok terms =>
      exFold (fun idx term a =>
        if !term.truthy then .ok a
        else
          .ok (a ++ [mkR (s2c "system-" ++ fn ++ s2c "-term-" ++ idPiece ++
              '-' :: decChars idx) (some term)
            (s2c "terms." ++ pathPiece ++ '[' :: decChars idx ++ [']']) context]))
        0 terms acc

/-- One type-name array of System.json (weaponTypes and friends). -/
def rpgTypeList (fn : List Char) (data : Json) (field : List Char)
    (acc : List Entry) : List Entry :=
  match data.look field with
  | some (.arr types) =>
    (types.enum.filter (fun p => p.2.truthy)).foldl (fun a p =>
      a ++ [mkR (s2c "system-" ++ fn ++ '-' :: field ++ '-' :: decChars p.1) (some p.2)
        (field ++ '[' :: decChars p.1 ++ [']']) (s2c "System " ++ field)]) acc
  | _ => acc

/-- Branch 4: System.json (`gameTitle` and `terms` both defined). -/
def rpgB4 (fn : List Char) (data : Json) (acc : List Entry) : RpgRes :=
  match memberE data (s2c "gameTitle") acc with
  | .error e => .error e
  | .ok title =>
    match memberE data (s2c "terms") acc with
    | .error e => .error e
    | .ok terms =>
      if !(title.isSome && terms.isSome) then .ok acc
      else
        let acc1 := acc ++ [mkR (s2c "system-" ++ fn ++ s2c "-title") title
          (s2c "gameTitle") (s2c "Game Title")]
        match terms with
        | some .null => .error acc1
        | some tv =>
          match rpgTermsList fn tv (s2c "basic") (s2c "basic") (s2c "basic")
              (s2c "System Term (Basic)") acc1 with
          | .error e => .error e
          | .ok acc2 =>
            match rpgTermsList fn tv (s2c "commands") (s2c "cmd") (s2c "commands")
                (s2c "System Term (Command)") acc2 with
            | .error e => .error e
            | .ok acc3 =>
              match rpgTermsList fn tv (s2c "params") (s2c "param") (s2c "params")
                  (s2c "System Term (Param)") acc3 with
              | .error e => .error e
              | .ok acc4 =>
                let mv := tv.look (s2c "messages")
                let acc5 :=
                  if optTruthy mv then
                    (match mv with
                     | some m =>
                       (objEntries m).foldl (fun a kv =>
                         match kv.2 with
                         | .str s =>
                           if s.isEmpty then a
                           else
                             a ++ [mkR (s2c "system-" ++ fn ++ s2c "-term-msg-" ++ kv.1)
                               (some (.str s)) (s2c "terms.messages." ++ kv.1)
                               (s2c "System Message: " ++ kv.1)]
                         | _ => a) acc4
                     | none => acc4)
                  else acc4
                let acc6 := rpgTypeList fn data (s2c "weaponTypes") acc5
                let acc7 := rpgTypeList fn data (s2c "armorTypes") acc6
                let acc8 := rpgTypeList fn data (s2c "skillTypes") acc7
                .ok (rpgTypeList fn data (s2c "elements") acc8)
        | none => .error acc1

/-- Branch 5: generic entity tables (Items, Skills, Weapons, ...). -/
def rpgB5 (fn : List Char) (data : Json) (acc : List Entry) : RpgRes :=
  if !rpgSibGuard data (s2c "name") then .ok acc
  else
    match data with
    | .arr items =>
      exFold (fun idx item a =>
        if !item.truthy then .ok a
        else
          let a1 := pushIfTruthy item (s2c "name")
            (s2c "data-" ++ fn ++ '-' :: decChars idx ++ s2c "-name")
            ('[' :: decChars idx ++ s2c "].name") (fn ++ s2c " Name") a
          let a2 := pushIfTruthy item (s2c "description")
            (s2c "data-" ++ fn ++ '-' :: decChars idx ++ s2c "-desc")
            ('[' :: decChars idx ++ s2c "].description") (fn ++ s2c " Description") a1
          let a3 := pushIfTruthy item (s2c "message1")
            (s2c "data-" ++ fn ++ '-' :: decChars idx ++ s2c "-msg1")
            ('[' :: decChars idx ++ s2c "].message1") (fn ++ s2c " Message 1") a2
          let a4 := pushIfTruthy item (s2c "message2")
            (s2c "data-" ++ fn ++ '-' :: decChars idx ++ s2c "-msg2")
            ('[' :: decChars idx ++ s2c "].message2") (fn ++ s2c " Message 2") a3
          let a5 := pushIfTruthy item (s2c "message3")
            (s2c "data-" ++ fn ++ '-' :: decChars idx ++ s2c "-msg3")
            ('[' :: decChars idx ++ s2c "].message3") (fn ++ s2c " Message 3") a4
          let a6 := pushIfTruthy item (s2c "message4")
            (s2c "data-" ++ fn ++ '-' :: decChars idx ++ s2c "-msg4")
            ('[' :: decChars idx ++ s2c "].message4") (fn ++ s2c " Message 4") a5
          let a7 := pushIfTruthy item (s2c "victoryMessage")
            (s2c "data-" ++ fn ++ '-' :: decChars idx ++ s2c "-vic")
            ('[' :: decChars idx ++ s2c "].victoryMessage") (fn ++ s2c " Victory Message") a6
          .ok (pushIfTruthy item (s2c "defeatMessage")
            (s2c "data-" ++ fn ++ '-' :: decChars idx ++ s2c "-def")
            ('[' :: decChars idx ++ s2c "].defeatMessage") (fn ++ s2c " Defeat Message") a7))
        0 items acc
    | _ => .ok acc

/-- Branch 6: Troops.json. -/
def rpgB6 (fn : List Char) (data : Json) (acc : List Entry) : RpgRes :=
  if !rpgSibGuard data (s2c "members") then .ok acc
  else
    match data with
    | .arr troops =>
      exFold (fun troopIdx troop a =>
        if !troop.truthy then .ok a
        else
          let a1 := pushIfTruthy troop (s2c "name")
            (s2c "troop-" ++ fn ++ '-' :: decChars troopIdx ++ s2c "-name")
            ('[' :: decChars troopIdx ++ s2c "].name") (s2c "Troop Name") a
          match mustArr (troop.look (s2c "pages")) a1 with
          | .error e => .error e
          | .ok pages =>
            exFold (fun pageIdx page a2 =>
              match mustArr (page.look (s2c "list")) a2 with
              | .error e => .error e
              | .ok cmds =>
                exFold (fun cmdIdx cmd a3 =>
                  match memberE cmd (s2c "code") a3 with
                  | .error e => .error e
                  | .ok code =>
                    if code = some (.num 401) then
                      match idx0E (cmd.look (s2c "parameters")) a3 with
                      | .error e => .error e
                      | .ok p0 =>
                        .ok (a3 ++ [mkR (s2c "troop-cmd-" ++ fn ++ '-' :: decChars troopIdx ++
                            '-' :: decChars pageIdx ++ '-' :: decChars cmdIdx) p0
                          ('[' :: decChars troopIdx ++ s2c "].pages[" ++ decChars pageIdx ++
                            s2c "].list[" ++ decChars cmdIdx ++ s2c "].parameters[0]")
                          (s2c "Troop Event: " ++ jsDisplay (troop.look (s2c "name")))])
                    else .ok a3)
                  0 cmds a2)
              0 pages a1)
        0 troops acc
    | _ => .ok acc

/-- The whole extraction body of `parseRPGMaker` inside the try block: the six
shape probes run one after another (independent ifs, not an else chain). -/
def rpgExtract (fn : List Char) (data : Json) : RpgRes :=
  match rpgB1 fn data [] with
  | .error e => .error e
  | .ok a1 =>
    match rpgB2 fn data a1 with
    | .error e => .error e
    | .ok a2 =>
      match rpgB3 fn data a2 with
      | .error e => .error e
      | .ok a3 =>
        match rpgB4 fn data a3 with
        | .error e => .error e
        | .ok a4 =>
          match rpgB5 fn data a4 with
          | .error e => .error e
          | .ok a5 => rpgB6 fn data a5

/-- Model of `parseRPGMaker`: a JSON.parse failure is caught with zero entries;
an extraction throw is caught and the entries pushed before it survive. -/
def parseRPGMaker (filename content : List Char) : List Entry :=
  match Json.parseC content with
  | none => []
  | some data =>
    match rpgExtract filename data with
    | .ok es => es
    | .error es => es

/-- Model of `trimmed.replace(/\[.*?\]/g, "")`: each non-greedy bracket group
up to the first closing bracket is removed; the dot of the regex does not
cross a carriage return. The first argument is structural fuel (at least the
list length). -/
def removeTags : Nat → List Char → List Char
  | 0, cs => cs
  | _ + 1, [] => []
  | f + 1, '[' :: rest =>
    (match rest.dropWhile (fun c => c != ']' && c != '\r') with
     | ']' :: r3 => removeTags f r3
     | _ => '[' :: removeTags f rest)
  | f + 1, c :: rest => c :: removeTags f rest

/-- The tag-only test of `parseKiriKiri`: starts with "[", ends with "]", no
"][", and removing bracket groups leaves no visible non-bracket character. -/
def kkTagOnly (t : List Char) : Bool :=
  leadsWith ['['] t && endsW [']'] t && !containsSub [']', '['] t &&
    !(removeTags t.length t).any (fun c => !(isWS c || c == '[' || c == ']'))

/-- Line classification of `parseKiriKiri`: blank, comment, label, command and
tag-only lines are skipped. -/
def kkSkip (line : List Char) : Bool :=
  let t := trimL line
  t.isEmpty || leadsWith [';'] t || leadsWith ['/', '/'] t || leadsWith ['*'] t ||
    leadsWith ['@'] t || kkTagOnly t

/-- Model of `parseKiriKiri`: every non-skipped line is kept whole (tags
included) as one entry. -/
def parseKiriKiri (filename content : List Char) : List Entry :=
  (splitRN content).enum.filterMap (fun p =>
    if kkSkip p.2 then none
    else
      some (mkE (s2c "ks-" ++ filename ++ '-' :: decChars p.1) p.2
        (s2c "line-" ++ decChars p.1) (s2c "KiriKiri Dialogue")))

def isWordCh (c : Char) : Bool :=
  c == '_' || isDigitCh c || ('a' ≤ c && c ≤ 'z') || ('A' ≤ c && c ≤ 'Z')

/-- Scan the quoted payload of the dialogue regex `((?:[^"\\]|\\.)*)"`,
keeping escape sequences verbatim; returns the payload and the remainder
after the closing quote. -/
def diaPayload : Nat → List Char → Option (List Char × List Char)
  | 0, _ => none
  | _ + 1, [] => none
  | _ + 1, '"' :: rest => some ([], rest)
  | _ + 1, ['\\'] => none
  | f + 1, '\\' :: c :: rest =>
    (match diaPayload f rest with
     | some (p, r) => some ('\\' :: c :: p, r)
     | none => none)
  | f + 1, c :: rest =>
    match diaPayload f rest with
    | some (p, r) => some (c :: p, r)
    | none => none

/-- Model of the dialogue regex
`/^(\s*(?:[\w\d_]+)?\s*)"((?:[^"\\]|\\.)*)"\s*$/` used by `parseRenPy` and by
the renpy branch of `applyTranslations`: returns (group 1, quoted payload). -/
def matchDia (line : List Char) : Option (List Char × List Char) :=
  let ws1 := line.takeWhile isWS
  let r1 := line.dropWhile isWS
  let idt := r1.takeWhile isWordCh
  let r2 := r1.dropWhile isWordCh
  let ws2 := r2.takeWhile isWS
  match r2.dropWhile isWS with
  | '"' :: r4 =>
    (match diaPayload (r4.length + 1) r4 with
     | some (p, rest) =>
       if rest.all isWS then some (ws1 ++ idt ++ ws2, p) else none
     | none => none)
  | _ => none

/-- Model of `parseRenPy`: the quoted payload of each matching line becomes an
entry when non-empty after trimming. -/
def parseRenPy (filename content : List Char) : List Entry :=
  (splitRN content).enum.filterMap (fun p =>
    match matchDia p.2 with
    | some (_, text) =>
      if !text.isEmpty && !(trimL text).isEmpty then
        some (mkE (s2c "rpy-" ++ filename ++ '-' :: decChars p.1) text
          (s2c "line-" ++ decChars p.1) (s2c "Ren\x27Py Dialogue"))
      else none
    | none => none)

mutual

/-- Depth-first traversal of `parseGenericJSON`: every string leaf that is
non-empty after trimming is an entry. -/
def gjT (fn : List Char) : Json → List Char → List Entry
  | .str s, path =>
    if !(trimL s).isEmpty then
      [mkE (s2c "json-" ++ fn ++ '-' :: path) s path (s2c "JSON Text")]
    else []
  | .arr xs, path => gjTL fn xs 0 path
  | .obj fs, path => gjTF fn fs path
  | _, _ => []

def gjTL (fn : List Char) : List Json → Nat → List Char → List Entry
  | [], _, _ => []
  | x :: xs, i, path =>
    gjT fn x (path ++ '[' :: decChars i ++ [']']) ++ gjTL fn xs (i + 1) path

def gjTF (fn : List Char) : List (List Char × Json) → List Char → List Entry
  | [], _ => []
  | (k, v) :: fs, path =>
    gjT fn v (if path.isEmpty then k else path ++ '.' :: k) ++ gjTF fn fs path

end

/-- Model of `parseGenericJSON`; a parse failure is caught with zero
entries. -/
def parseGenericJSON (filename content : List Char) : List Entry :=
  match Json.parseC content with
  | none => []
  | some data => gjT filename data []

/-- Split on the comma character, modelling `line.split(',')`. -/
def splitComma : List Char → List (List Char)
  | [] => [[]]
  | ',' :: rest => [] :: splitComma rest
  | c :: rest => consHead c (splitComma rest)

/-- `col.trim().replace(/^"|"$/g, '')`: trim, then strip one leading and one
trailing double quote. -/
def csvStrip (cs : List Char) : List Char :=
  let t := trimL cs
  let t2 := if leadsWith ['"'] t then t.tail else t
  if endsW ['"'] t2 then t2.dropLast else t2

/-- Model of `parseCSV` (naive comma split, no quoted-field handling). -/
def parseCSV (filename content : List Char) : List Entry :=
  (splitRN content).enum.flatMap (fun row =>
    (splitComma row.2).enum.filterMap (fun col =>
      let trimmed := csvStrip col.2
      if !trimmed.isEmpty && !trimmed.all isDigitCh then
        some (mkE (s2c "csv-" ++ filename ++ '-' :: decChars row.1 ++ '-' :: decChars col.1)
          trimmed (s2c "row-" ++ decChars row.1 ++ s2c "-col-" ++ decChars col.1)
          (s2c "CSV Cell [" ++ decChars row.1 ++ s2c ", " ++ decChars col.1 ++ [']']))
      else none))

/-- Model of `parseSRT`: blank-line-delimited blocks of at least three lines;
the text is the joined remaining lines. -/
def parseSRT (filename content : List Char) : List Entry :=
  (splitBRN content).enum.filterMap (fun b =>
    let lines := splitRN b.2
    if lines.length ≥ 3 then
      let text := joinSep ['\n'] (lines.drop 2)
      if !(trimL text).isEmpty then
        some (mkE (s2c "srt-" ++ filename ++ '-' :: decChars b.1) text
          (s2c "block-" ++ decChars b.1)
          (s2c "Subtitle Block " ++ lines.getD 0 []))
      else none
    else none)

/-- Model of `path.match(/<tag>(\d+)/)` followed by `parseInt(match[1])`:
scan for the first occurrence of the tag followed by at least one digit and
read the maximal digit run. -/
def findNumAfter (tag : List Char) : List Char → Option Nat
  | [] => none
  | c :: rest =>
    if leadsWith tag (c :: rest) then
      let ds := ((c :: rest).drop tag.length).takeWhile isDigitCh
      if ds.isEmpty then findNumAfter tag rest else some (valDigits ds)
    else findNumAfter tag rest

/-- The renpy line rewrite: replace only the quoted payload, keeping group 1
(the speaker prefix) and dropping trailing whitespace after the closing
quote; a non-matching line is left unchanged. -/
def renpyRepl (line t : List Char) : List Char :=
  match matchDia line with
  | some (g1, _) => g1 ++ '"' :: t ++ ['"']
  | none => line

/-- The line-indexed forEach shared by the renpy and kirikiri branches of
`applyTranslations`. -/
def applyLineFold (repl : List Char → List Char → List Char) (tag : List Char)
    (es : List Entry) (lines : List (List Char)) : List (List Char) :=
  es.foldl (fun ls e =>
    if e.translated.isEmpty then ls
    else
      match findNumAfter tag e.path with
      | some idx =>
        if idx < ls.length then ls.set idx (repl (ls.getD idx []) e.translated) else ls
      | none => ls) lines

/-- Rebuild one subtitle block: keep the first two lines (index and timecode)
and replace everything after them with the translation; blocks of fewer than
three lines are left alone. -/
def subRebuild (block t : List Char) : List Char :=
  let lines := splitRN block
  if lines.length ≥ 3 then joinSep ['\n'] (lines.take 2) ++ '\n' :: t else block

/-- The block-indexed forEach of the subtitles branch. -/
def applySubFold (es : List Entry) (blocks : List (List Char)) : List (List Char) :=
  es.foldl (fun bs e =>
    if e.translated.isEmpty then bs
    else
      match findNumAfter (s2c "block-") e.path with
      | some idx =>
        if idx < bs.length then bs.set idx (subRebuild (bs.getD idx []) e.translated) else bs
      | none => bs) blocks

/-- Model of `applyTranslations(content, entries, engine)`. -/
def applyTranslations (content : List Char) (entries : List Entry) (engine : Engine) :
    List Char :=
  match engine with
  | .rpgmaker | .unity | .generic =>
    (match Json.parseC content with
     | none => content
     | some data =>
       match goEntries entries data with
       | none => content
       | some v2 => Json.stringifyC v2)
  | .renpy =>
    joinSep ['\n'] (applyLineFold renpyRepl (s2c "line-") entries (splitRN content))
  | .kirikiri =>
    joinSep ['\n'] (applyLineFold (fun _ t => t) (s2c "line-") entries (splitRN content))
  | .subtitles =>
    joinSep ['\n', '\n'] (applySubFold entries (splitBRN content))

/-- The rpgmaker shape probe of the import handler:
`Array.isArray(data) && data[0] === null`. -/
def rpgArrProbe : Json → Bool
  | .arr (x :: _) => x = .null
  | _ => false

/-- Model of the per-file dispatch of the import handler (`onDrop`): returns
the entries contributed by the file and the engine tag it sets. Reading
`data.events` on a parsed null throws into the same catch as a parse
failure. -/
def importFile (name content : List Char) : List Entry × Engine :=
  if endsW (s2c ".json") name then
    match Json.parseC content with
    | some .null => (parseGenericJSON name content, .generic)
    | some data =>
      if optTruthy (data.look (s2c "events")) || rpgArrProbe data then
        (parseRPGMaker name content, .rpgmaker)
      else (parseGenericJSON name content, .unity)
    | none => (parseGenericJSON name content, .generic)
  else if endsW (s2c ".ks") name || endsW (s2c ".tjs") name then
    (parseKiriKiri name content, .kirikiri)
  else if endsW (s2c ".rpy") name then (parseRenPy name content, .renpy)
  else if endsW (s2c ".csv") name then (parseCSV name content, .generic)
  else if endsW (s2c ".srt") name then (parseSRT name content, .subtitles)
  else
    ([{ id := s2c "raw-" ++ name, original := some (.str content), translated := [],
        path := s2c "raw", context := some (s2c "Raw File Content"),
        tmEngineMatch := none }], .generic)

/-- The engine string stored into `tmEngineMatch` by the batch handler. -/
def engStr : Engine → List Char
  | .kirikiri => s2c "kirikiri"
  | .rpgmaker => s2c "rpgmaker"
  | .renpy => s2c "renpy"
  | .unity => s2c "unity"
  | .generic => s2c "generic"
  | .subtitles => s2c "subtitles"

/-- Fixed-size batching (`batchSize = 10`); the first argument is structural
fuel (at least the list length). -/
def chunksF : Nat → List Entry → List (List Entry)
  | 0, _ => []
  | _ + 1, [] => []
  | f + 1, e :: es => (e :: es).take 10 :: chunksF f ((e :: es).drop 10)

/-- Propagate one resolved (original, translation) pair to every entry of the
project sharing that original, setting the provenance mark. -/
def fanOut (eng : Engine) (x : Option Json) (r : List Char) (es : List Entry) :
    List Entry :=
  es.map (fun ent =>
    if ent.original = x then
      { ent with translated := r, tmEngineMatch := some (engStr eng) }
    else ent)

/-- Apply one batch response: result index i pairs with request index i. -/
def runBatch (eng : Engine) (batch : List Entry) (results : List (List Char))
    (es : List Entry) : List Entry :=
  (batch.zip results).foldl (fun acc p => fanOut eng p.1.original p.2 acc) es

/-- Model of the state reached by `handleTranslateBatch` after all batches:
the requested subset is chunked into tens and every provider result fans out
to all entries with the same original text. `results` is the per-batch list
of provider responses. -/
def runBatches (eng : Engine) (entries : List Entry) (targetIds : List (List Char))
    (results : List (List (List Char))) : List Entry :=
  let toTranslate := entries.filter (fun e => targetIds.contains e.id)
  ((chunksF toTranslate.length toTranslate).zip results).foldl
    (fun acc p => runBatch eng p.1 p.2 acc) entries

/-- The ordered (request entry, result) pairs a batch run resolves. -/
def runPairs (entries : List Entry) (targetIds : List (List Char))
    (results : List (List (List Char))) : List (Entry × List Char) :=
  let toTranslate := entries.filter (fun e => targetIds.contains e.id)
  ((chunksF toTranslate.length toTranslate).zip results).flatMap
    (fun p => p.1.zip p.2)

/-- The last resolved translation for a given original, if any (later pairs
win, matching the mutation order of the batch loop). -/
def lastRes (x : Option Json) : List (Entry × List Char) → Option (List Char)
  | [] => none
  | p :: ps =>
    match lastRes x ps with
    | some r => some r
    | none => if p.1.original = x then some p.2 else none

/-- The walk of the JSON applier fails to resolve: some intermediate segment
is missing or a value on the way (or at the final hop) is falsy, so the
entry is skipped without any write and without any throw. -/
def walkBroken : Json → List (List Char) → Bool
  | _, [] => false
  | v, [_] => !v.truthy
  | v, k :: k2 :: ks =>
    if !v.truthy then true
    else
      match v.look k with
      | none => true
      | some child => walkBroken child (k2 :: ks)

/-- Structural read at a segment path. -/
def getPath : Json → List (List Char) → Option Json
  | v, [] => some v
  | v, k :: ks =>
    match v.look k with
    | some c => getPath c ks
    | none => none

/-- Pure structural replacement at an existing position (no padding, no
creation); leaves the value unchanged where the path does not exist. -/
def setAtE : Json → List (List Char) → Json → Json
  | _, [], w => w
  | v, k :: ks, w =>
    match v.look k with
    | some c => v.replaceAt k (setAtE c ks w)
    | none => v

/-- The walk of the JSON applier reaches an existing, writable position:
every hop goes through a container and the final container already has the
addressed child. -/
def canWrite : Json → List (List Char) → Bool
  | _, [] => false
  | v, [k] =>
    (match v with
     | .obj _ => (v.look k).isSome
     | .arr _ => (v.look k).isSome
     | _ => false)
  | v, k :: k2 :: ks =>
    match v.look k with
    | some c => canWrite c (k2 :: ks)
    | none => false

/-- No carriage return anywhere (the line-based branches normalize CRLF, so
identity statements need this). -/
def noCR (cs : List Char) : Bool := cs.all (fun c => c != '\r')

/-- A character that survives a stringify/parse roundtrip in this model:
printable (codepoint at least 32) or one of the named control escapes. -/
def okCh (c : Char) : Bool :=
  32 ≤ c.toNat || c = '\x08' || c = '\x0c' || c = '\n' || c = '\r' || c = '\t'

mutual

/-- Roundtrip-clean JSON value: object keys never repeat (JS objects cannot)
and strings avoid the exotic control characters (below 32 and unnamed). -/
def wfJ : Json → Bool
  | .null => true
  | .bool _ => true
  | .num _ => true
  | .str s => s.all okCh
  | .arr xs => wfL xs
  | .obj fs => wfF fs

def wfL : List Json → Bool
  | [] => true
  | x :: xs => wfJ x && wfL xs

def wfF : List (List Char × Json) → Bool
  | [] => true
  | (k, v) :: fs => k.all okCh && (lookupField fs k).isNone && wfJ v && wfF fs

end

mutual

/-- Node-count measure used to bound the parser fuel. -/
def szV : Json → Nat
  | .null => 1
  | .bool _ => 1
  | .num _ => 1
  | .str _ => 1
  | .arr xs => 1 + szL xs
  | .obj fs => 1 + szF fs

def szL : List Json → Nat
  | [] => 1
  | x :: xs => 1 + szV x + szL xs

def szF : List (List Char × Json) → Nat
  | [] => 1
  | (_, v) :: fs => 1 + szV v + szF fs

end

/-- The characters that can follow a rendered value inside a rendered
document: a separator, a closer, a newline, or the end of input. -/
def stopC : List Char → Bool
  | [] => true
  | c :: _ => c = ',' || c = ']' || c = '\x7d' || c = '\n'

/-- What follows one rendered array element: either the closing of the array
or a comma, a newline, the indentation and the next rendered element. -/
def itemsTail : List Json → List Char → List Char → List Char → List Char
  | [], _, ind0, rest => '\n' :: (ind0 ++ (']' :: rest))
  | y :: ys, ind, ind0, rest =>
    ',' :: '\n' :: (ind ++ (render y ind ++ itemsTail ys ind ind0 rest))

/-- What follows one rendered object member. -/
def fieldsTail : List (List Char × Json) → List Char → List Char → List Char → List Char
  | [], _, ind0, rest => '\n' :: (ind0 ++ ('\x7d' :: rest))
  | (k, v) :: gs, ind, ind0, rest =>
    ',' :: '\n' :: (ind ++ (escStr k ++ ':' :: ' ' ::
      (render v ind ++ fieldsTail gs ind ind0 rest)))

/-- All spaces (the indentation strings of the two-space renderer). -/
def allSp (cs : List Char) : Bool := cs.all (fun c => c = ' ')


/-- Contains the two-character sequence of two newlines. -/
def hasNN : List Char → Bool
  | '\n' :: '\n' :: _ => true
  | _ :: rest => hasNN rest
  | [] => false

/-- The last character, if any, is not a newline. -/
def lastNotNl : List Char → Bool
  | [] => true
  | [c] => c != '\n'
  | _ :: c :: rest => lastNotNl (c :: rest)

/-- Block-list shape preserved by a join-then-resplit on the blank-line
separator: no block contains a blank line and no block followed by another
ends in a newline. -/
def cleanBlocks : List (List Char) → Bool
  | [] => true
  | [b] => !hasNN b
  | b :: b2 :: bs => !hasNN b && lastNotNl b && cleanBlocks (b2 :: bs)

/-- The first character, if any, is not a newline. -/
def headNotNl : List Char → Bool
  | [] => true
  | c :: _ => c != '\n'

/-- A subtitle translation that survives the block-splitting roundtrip: no
carriage return, no blank line, and no leading or trailing newline. -/
def tClean (t : List Char) : Bool :=
  noCR t && !hasNN t && headNotNl t && lastNotNl t


/-- A two-block subtitle file. -/
def c4srtContent : List Char :=
  s2c "1\n00:00 --> 00:01\nhello\n\n2\n00:01 --> 00:02\nworld"

/-- A subtitle entry whose translation contains a blank line. -/
def c4subEntry : Entry :=
  { id := s2c "srt-f-0", original := some (.str (s2c "hello")),
    translated := s2c "X\n\nY", path := s2c "block-0", context := none,
    tmEngineMatch := none }

/-- The same entry with a roundtrip-clean translation. -/
def c4subClean : Entry :=
  { c4subEntry with translated := s2c "X Y" }

/-- A JSON entry rewriting the member `a`. -/
def c4jsonEntry : Entry :=
  { id := s2c "e1", original := some (.str (s2c "x")), translated := s2c "y",
    path := s2c "a", context := none, tmEngineMatch := none }

/-- The parameter path the map extractor writes for the command at event `i`,
page `j`, list position `k`. -/
def mapPath (i j k : Nat) : List Char :=
  s2c "events[" ++ decChars i ++ s2c "].pages[" ++ decChars j ++
    s2c "].list[" ++ decChars k ++ s2c "].parameters[0]"

/-- The segment list that `segs` produces for `mapPath i j k`. -/
def segsMap (i j k : Nat) : List (List Char) :=
  [s2c "events", decChars i, s2c "pages", decChars j, s2c "list", decChars k,
    s2c "parameters", ['0']]

/-- Specification-side description of one command record of a map event page:
a code-401 text command, a code-102 choice command, or a command with any
other code. -/
inductive CmdSpec where
  | say (text : List Char) : CmdSpec
  | choice (options : List (List Char)) : CmdSpec
  | other (code : Int) : CmdSpec
  deriving DecidableEq, Repr

/-- A well-formed spec command uses `other` only for codes that are neither
401 nor 102. -/
def CmdSpec.wf : CmdSpec → Bool
  | .other n => n != 401 && n != 102
  | _ => true

/-- Specification-side description of one map event: a name and a list of
pages, each page a command list. -/
structure EventSpec where
  name : List Char
  pages : List (List CmdSpec)
  deriving DecidableEq, Repr

def EventSpec.wf (ev : EventSpec) : Bool :=
  ev.pages.all (fun pg => pg.all CmdSpec.wf)

/-- The JSON value of one command record. -/
def cmdJson : CmdSpec → Json
  | .say t => .obj [(s2c "code", .num 401), (s2c "parameters", .arr [.str t])]
  | .choice cs =>
    .obj [(s2c "code", .num 102), (s2c "parameters", .arr [.arr (cs.map Json.str)])]
  | .other n => .obj [(s2c "code", .num n), (s2c "parameters", .arr [])]

/-- The JSON value of one event page. -/
def pageJson (cmds : List CmdSpec) : Json :=
  .obj [(s2c "list", .arr (cmds.map cmdJson))]

/-- The JSON value of one map event. -/
def evJson (ev : EventSpec) : Json :=
  .obj [(s2c "name", .str ev.name), (s2c "pages", .arr (ev.pages.map pageJson))]

/-- A map data value: an object whose `events` member is the event array. -/
def mapJson (evs : List EventSpec) : Json :=
  .obj [(s2c "events", .arr (evs.map evJson))]

/-- The entries the specification promises for one command: exactly one
entry per code-401 command, whose original is the first parameter and whose
path addresses `events[i].pages[j].list[k].parameters[0]`; one entry per
option string of a code-102 command; nothing otherwise. -/
def specCmdEntries (fn nm : List Char) (i j k : Nat) : CmdSpec → List Entry
  | .say t =>
    [mkR (s2c "map-" ++ fn ++ '-' :: decChars i ++ '-' :: decChars j ++
        '-' :: decChars k) (some (.str t)) (mapPath i j k)
      (s2c "Event: " ++ dispOr (some (.str nm)) (s2c "Unnamed"))]
  | .choice cs =>
    (List.enumFrom 0 cs).map (fun p =>
      mkR (s2c "choice-" ++ fn ++ '-' :: decChars i ++ '-' :: decChars j ++
          '-' :: decChars k ++ '-' :: decChars p.1) (some (.str p.2))
        (mapPath i j k ++ '[' :: decChars p.1 ++ [']'])
        (s2c "Choice in Event: " ++ dispOr (some (.str nm)) (s2c "Unnamed")))
  | .other _ => []

/-- Expected entries of one page. -/
def specPageEntries (fn nm : List Char) (i j : Nat) (cmds : List CmdSpec) : List Entry :=
  (List.enumFrom 0 cmds).flatMap (fun p => specCmdEntries fn nm i j p.1 p.2)

/-- Expected entries of one event. -/
def specEventEntries (fn : List Char) (i : Nat) (ev : EventSpec) : List Entry :=
  (List.enumFrom 0 ev.pages).flatMap (fun p => specPageEntries fn ev.name i p.1 p.2)

/-- Expected entries of a whole map file. -/
def specMapEntries (fn : List Char) (evs : List EventSpec) : List Entry :=
  (List.enumFrom 0 evs).flatMap (fun p => specEventEntries fn p.1 p.2)

/-- A concrete one-event map spec: a 401 text command and an `other` command
on page 0, a two-option 102 choice on page 1. -/
def c5mapEvs : List EventSpec :=
  [{ name := s2c "Hero",
     pages := [[CmdSpec.say (s2c "Hello"), CmdSpec.other 0],
               [CmdSpec.choice [s2c "Yes", s2c "No"]]] }]

/-- The JSON text of `c5mapEvs` as a map file. -/
def c5mapContent : List Char :=
  s2c "\x7b\"events\":[\x7b\"name\":\"Hero\",\"pages\":[\x7b\"list\":[\x7b\"code\":401,\"parameters\":[\"Hello\"]\x7d,\x7b\"code\":0,\"parameters\":[]\x7d]\x7d,\x7b\"list\":[\x7b\"code\":102,\"parameters\":[[\"Yes\",\"No\"]]\x7d]\x7d]\x7d]\x7d"

/-- The extracted 401 entry of `c5mapEvs` with a translation filled in. -/
def c5mapEntry : Entry :=
  { id := s2c "map-Map1-0-0-0", original := some (.str (s2c "Hello")),
    translated := s2c "Bonjour",
    path := s2c "events[0].pages[0].list[0].parameters[0]",
    context := some (s2c "Event: Hero"), tmEngineMatch := none }

theorem digitVal_digitCh (d : Nat) (h : d < 10) : digitVal (digitCh d) = d := by
  interval_cases d <;> decide

theorem digitCh_isDigit (d : Nat) (h : d < 10) : isDigitCh (digitCh d) = true := by
  interval_cases d <;> decide

theorem valDigits_append_one (ds : List Char) (c : Char) :
    valDigits (ds ++ [c]) = valDigits ds * 10 + digitVal c := by
  simp [valDigits, List.foldl_append]

theorem decDigits_val : ∀ f n, n < f → valDigits (decDigits f n) = n
  | 0, n, h => absurd h (Nat.not_lt_zero n)
  | f + 1, n, h => by
    rw [decDigits]
    by_cases h10 : n < 10
    · simp only [if_pos h10]
      simp [valDigits, digitVal_digitCh n h10]
    · simp only [if_neg h10]
      have hn0 : 0 < n := by omega
      have hdiv : n / 10 < n := Nat.div_lt_self hn0 (by omega)
      have hf : n / 10 < f := by omega
      rw [valDigits_append_one, decDigits_val f (n / 10) hf,
        digitVal_digitCh (n % 10) (Nat.mod_lt n (by omega))]
      omega

theorem decChars_val (n : Nat) : valDigits (decChars n) = n :=
  decDigits_val (n + 1) n (Nat.lt_succ_self n)

theorem decChars_inj {m n : Nat} (h : decChars m = decChars n) : m = n := by
  have := decChars_val m
  rw [h, decChars_val n] at this
  omega

theorem decDigits_all_digits : ∀ f n, (decDigits f n).all isDigitCh = true
  | 0, _ => rfl
  | f + 1, n => by
    rw [decDigits]
    by_cases h10 : n < 10
    · simp [if_pos h10, digitCh_isDigit n h10]
    · simp only [if_neg h10, List.all_append]
      simp [decDigits_all_digits f (n / 10), digitCh_isDigit (n % 10) (Nat.mod_lt n (by omega))]

theorem decChars_ne_nil (n : Nat) : decChars n ≠ [] := by
  unfold decChars decDigits
  by_cases h10 : n < 10 <;> simp [h10]

theorem consHead_ne_nil (c : Char) (xs : List (List Char)) : consHead c xs ≠ [] := by
  cases xs <;> simp [consHead]

theorem splitNl_cons_ne (c : Char) (rest : List Char) (hc : c ≠ '\n') :
    splitNl (c :: rest) = consHead c (splitNl rest) := by
  rw [splitNl.eq_def]
  split <;> simp_all

theorem splitNl_ne_nil (cs : List Char) : splitNl cs ≠ [] := by
  cases cs with
  | nil => simp [splitNl]
  | cons c rest =>
    by_cases hc : c = '\n'
    · subst hc
      simp [splitNl]
    · rw [splitNl_cons_ne c rest hc]
      exact consHead_ne_nil _ _

theorem joinSep_consHead (sep : List Char) (c : Char) :
    ∀ xs, xs ≠ [] → joinSep sep (consHead c xs) = c :: joinSep sep xs
  | [], h => absurd rfl h
  | [_], _ => rfl
  | _ :: _ :: _, _ => rfl

theorem joinSep_cons_nil_cons (sep : List Char) (h : List Char) (t : List (List Char)) :
    joinSep sep ([] :: h :: t) = sep ++ joinSep sep (h :: t) := rfl

theorem joinNl_splitNl (cs : List Char) : joinSep ['\n'] (splitNl cs) = cs := by
  induction cs with
  | nil => rfl
  | cons c rest ih =>
    by_cases hc : c = '\n'
    · subst hc
      rw [show splitNl ('\n' :: rest) = [] :: splitNl rest from rfl]
      cases hs : splitNl rest with
      | nil => exact absurd hs (splitNl_ne_nil rest)
      | cons h t =>
        rw [hs] at ih
        rw [joinSep_cons_nil_cons, ih]
        rfl
    · rw [splitNl_cons_ne c rest hc, joinSep_consHead _ _ _ (splitNl_ne_nil rest), ih]

theorem splitRN_cons_ne (c : Char) (rest : List Char) (hr : c ≠ '\r') (hn : c ≠ '\n') :
    splitRN (c :: rest) = consHead c (splitRN rest) := by
  rw [splitRN.eq_def]
  split <;> simp_all

theorem splitRN_eq_splitNl (cs : List Char) (h : noCR cs = true) :
    splitRN cs = splitNl cs := by
  induction cs with
  | nil => rfl
  | cons c rest ih =>
    have hr : c ≠ '\r' := by
      simp [noCR] at h
      intro he
      subst he
      exact absurd h.1 (by decide)
    have hrest : noCR rest = true := by
      simp [noCR] at h ⊢
      exact h.2
    by_cases hn : c = '\n'
    · subst hn
      rw [show splitRN ('\n' :: rest) = [] :: splitRN rest from rfl,
        show splitNl ('\n' :: rest) = [] :: splitNl rest from rfl, ih hrest]
    · rw [splitRN_cons_ne c rest hr hn, splitNl_cons_ne c rest hn, ih hrest]

theorem splitB2_cons_two_ne (c c2 : Char) (rest : List Char) (h : ¬(c = '\n' ∧ c2 = '\n')) :
    splitB2 (c :: c2 :: rest) = consHead c (splitB2 (c2 :: rest)) := by
  rw [splitB2.eq_def]
  split <;> simp_all

theorem splitB2_ne_nil (cs : List Char) : splitB2 cs ≠ [] := by
  match cs with
  | [] => simp [splitB2]
  | '\n' :: '\n' :: rest => simp [splitB2]
  | [c] =>
    rw [show splitB2 [c] = consHead c (splitB2 []) from ?_]
    · exact consHead_ne_nil _ _
    · rw [splitB2.eq_def]
      split <;> simp_all
  | c :: c2 :: rest =>
    by_cases h : c = '\n' ∧ c2 = '\n'
    · obtain ⟨h1, h2⟩ := h
      subst h1; subst h2
      simp [splitB2]
    · rw [splitB2_cons_two_ne c c2 rest h]
      exact consHead_ne_nil _ _

theorem joinB2_splitB2 (cs : List Char) : joinSep ['\n', '\n'] (splitB2 cs) = cs := by
  induction cs using splitB2.induct with
  | case1 => rfl
  | case2 rest ih =>
    rw [show splitB2 ('\n' :: '\n' :: rest) = [] :: splitB2 rest from rfl]
    cases hs : splitB2 rest with
    | nil => exact absurd hs (splitB2_ne_nil rest)
    | cons h t =>
      rw [hs] at ih
      rw [joinSep_cons_nil_cons, ih]
      rfl
  | case3 c rest hne ih =>
    match rest, ih with
    | [], _ =>
      rw [show splitB2 [c] = consHead c (splitB2 []) from ?_]
      · rfl
      · rw [splitB2.eq_def]
        split <;> simp_all
    | c2 :: rest2, ih =>
      have hcc : ¬(c = '\n' ∧ c2 = '\n') := fun hand => hne rest2 hand.1 (by rw [hand.2])
      rw [splitB2_cons_two_ne c c2 rest2 hcc,
        joinSep_consHead _ _ _ (splitB2_ne_nil (c2 :: rest2)), ih]

theorem noCR_cons (c : Char) (cs : List Char) :
    noCR (c :: cs) = true ↔ (c ≠ '\r' ∧ noCR cs = true) := by
  simp [noCR]

theorem splitB2_singleton (c : Char) : splitB2 [c] = [[c]] := by
  rw [splitB2.eq_def]
  split <;> simp_all [consHead, splitB2]

theorem splitBRN_singleton (c : Char) : splitBRN [c] = [[c]] := by
  rw [splitBRN.eq_def]
  split <;> simp_all [consHead, splitBRN]

theorem splitBRN_cons_two_ne (c c2 : Char) (rest : List Char) (hc : c ≠ '\r')
    (hc2 : c2 ≠ '\r') (hcc : ¬(c = '\n' ∧ c2 = '\n')) :
    splitBRN (c :: c2 :: rest) = consHead c (splitBRN (c2 :: rest)) := by
  rw [splitBRN.eq_def]
  split <;> simp_all

theorem splitBRN_eq_splitB2 (cs : List Char) (h : noCR cs = true) :
    splitBRN cs = splitB2 cs := by
  induction cs using splitBRN.induct with
  | case1 => rfl
  | case2 rest ih =>
    rw [noCR_cons] at h
    exact absurd rfl h.1
  | case3 rest ih =>
    rw [noCR_cons] at h
    exact absurd rfl h.1
  | case4 rest ih =>
    rw [noCR_cons, noCR_cons] at h
    exact absurd rfl h.2.1
  | case5 rest ih =>
    rw [noCR_cons, noCR_cons] at h
    rw [show splitBRN ('\n' :: '\n' :: rest) = [] :: splitBRN rest from rfl,
      show splitB2 ('\n' :: '\n' :: rest) = [] :: splitB2 rest from rfl, ih h.2.2]
  | case6 c rest h1 h2 h3 h4 ih =>
    rw [noCR_cons] at h
    match rest, ih, h4 with
    | [], _, _ => rw [splitBRN_singleton, splitB2_singleton]
    | c2 :: rest2, ih, h4 =>
      have hr2 : noCR (c2 :: rest2) = true := h.2
      have hc2 : c2 ≠ '\r' := ((noCR_cons c2 rest2).mp hr2).1
      have hcc : ¬(c = '\n' ∧ c2 = '\n') := fun hand => h4 rest2 hand.1 (by rw [hand.2])
      rw [splitBRN_cons_two_ne c c2 rest2 h.1 hc2 hcc,
        splitB2_cons_two_ne c c2 rest2 hcc, ih hr2]

theorem goEntries_all_empty : ∀ (es : List Entry) (v : Json),
    (∀ e ∈ es, e.translated = []) → goEntries es v = some v
  | [], _, _ => rfl
  | e :: es, v, h => by
    have he : e.translated = [] := h e (List.mem_cons_self e es)
    rw [goEntries, stepEntry, he]
    simp only [List.isEmpty_nil, if_true]
    exact goEntries_all_empty es v (fun x hx => h x (List.mem_cons_of_mem e hx))

theorem applyLineFold_all_empty (repl : List Char → List Char → List Char)
    (tag : List Char) : ∀ (es : List Entry) (lines : List (List Char)),
    (∀ e ∈ es, e.translated = []) → applyLineFold repl tag es lines = lines
  | [], _, _ => rfl
  | e :: es, lines, h => by
    have he : e.translated = [] := h e (List.mem_cons_self e es)
    rw [applyLineFold] at *
    rw [List.foldl_cons, he]
    simp only [List.isEmpty_nil, if_true]
    exact applyLineFold_all_empty repl tag es lines
      (fun x hx => h x (List.mem_cons_of_mem e hx))

theorem applySubFold_all_empty : ∀ (es : List Entry) (blocks : List (List Char)),
    (∀ e ∈ es, e.translated = []) → applySubFold es blocks = blocks
  | [], _, _ => rfl
  | e :: es, blocks, h => by
    have he : e.translated = [] := h e (List.mem_cons_self e es)
    rw [applySubFold] at *
    rw [List.foldl_cons, he]
    simp only [List.isEmpty_nil, if_true]
    exact applySubFold_all_empty es blocks (fun x hx => h x (List.mem_cons_of_mem e hx))

theorem applyTranslations_json_red (c : List Char) (es : List Entry) (eng : Engine)
    (heng : eng = .rpgmaker ∨ eng = .unity ∨ eng = .generic) :
    applyTranslations c es eng =
      (match Json.parseC c with
       | none => c
       | some data =>
         match goEntries es data with
         | none => c
         | some v2 => Json.stringifyC v2) := by
  rcases heng with h | h | h <;> subst h <;> rfl

/-- Claim C1, counterexample: with the kirikiri engine and an empty entry
list (so every supplied entry vacuously has empty `translated`), a CRLF input
is returned with the line ending normalized to LF, not byte-for-byte. -/
theorem C1_counterexample :
    applyTranslations (s2c "a\r\nb") [] .kirikiri = s2c "a\nb" ∧
      s2c "a\nb" ≠ s2c "a\r\nb" := by
  constructor
  · decide
  · decide

/-- Claim C1, amended: when every supplied entry has empty `translated`, the
output never depends on the entries (it equals applying the empty list); it
equals the input byte-for-byte for the kirikiri, renpy and subtitles engines
whenever the input contains no carriage return, and for the JSON-family
engines whenever the content fails to parse; JSON-family content that parses
is returned re-serialized with stable two-space formatting, with no value
changed. -/
theorem C1_amended :
    (∀ (eng : Engine) (c : List Char) (es : List Entry),
      (∀ e ∈ es, e.translated = []) →
      applyTranslations c es eng = applyTranslations c [] eng)
    ∧ (∀ c es, (∀ e ∈ es, e.translated = []) → noCR c = true →
        applyTranslations c es .kirikiri = c)
    ∧ (∀ c es, (∀ e ∈ es, e.translated = []) → noCR c = true →
        applyTranslations c es .renpy = c)
    ∧ (∀ c es, (∀ e ∈ es, e.translated = []) → noCR c = true →
        applyTranslations c es .subtitles = c)
    ∧ (∀ (eng : Engine) c es, (eng = .rpgmaker ∨ eng = .unity ∨ eng = .generic) →
        Json.parseC c = none → applyTranslations c es eng = c)
    ∧ (∀ (eng : Engine) c es v, (eng = .rpgmaker ∨ eng = .unity ∨ eng = .generic) →
        (∀ e ∈ es, e.translated = []) → Json.parseC c = some v →
        applyTranslations c es eng = Json.stringifyC v) := by
  refine ⟨?_, ?_, ?_, ?_, ?_, ?_⟩
  · intro eng c es h
    cases eng with
    | rpgmaker =>
      rw [applyTranslations_json_red c es _ (Or.inl rfl),
        applyTranslations_json_red c [] _ (Or.inl rfl)]
      cases Json.parseC c with
      | none => rfl
      | some v => dsimp only; rw [goEntries_all_empty es v h]; rfl
    | unity =>
      rw [applyTranslations_json_red c es _ (Or.inr (Or.inl rfl)),
        applyTranslations_json_red c [] _ (Or.inr (Or.inl rfl))]
      cases Json.parseC c with
      | none => rfl
      | some v => dsimp only; rw [goEntries_all_empty es v h]; rfl
    | generic =>
      rw [applyTranslations_json_red c es _ (Or.inr (Or.inr rfl)),
        applyTranslations_json_red c [] _ (Or.inr (Or.inr rfl))]
      cases Json.parseC c with
      | none => rfl
      | some v => dsimp only; rw [goEntries_all_empty es v h]; rfl
    | kirikiri =>
      show joinSep ['\n'] (applyLineFold _ _ es (splitRN c)) =
        joinSep ['\n'] (applyLineFold _ _ [] (splitRN c))
      rw [applyLineFold_all_empty _ _ es (splitRN c) h,
        applyLineFold_all_empty _ _ [] (splitRN c) (by simp)]
    | renpy =>
      show joinSep ['\n'] (applyLineFold _ _ es (splitRN c)) =
        joinSep ['\n'] (applyLineFold _ _ [] (splitRN c))
      rw [applyLineFold_all_empty _ _ es (splitRN c) h,
        applyLineFold_all_empty _ _ [] (splitRN c) (by simp)]
    | subtitles =>
      show joinSep ['\n', '\n'] (applySubFold es (splitBRN c)) =
        joinSep ['\n', '\n'] (applySubFold [] (splitBRN c))
      rw [applySubFold_all_empty es (splitBRN c) h,
        applySubFold_all_empty [] (splitBRN c) (by simp)]
  · intro c es h hcr
    show joinSep ['\n'] (applyLineFold _ _ es (splitRN c)) = c
    rw [applyLineFold_all_empty _ _ es (splitRN c) h, splitRN_eq_splitNl c hcr,
      joinNl_splitNl]
  · intro c es h hcr
    show joinSep ['\n'] (applyLineFold _ _ es (splitRN c)) = c
    rw [applyLineFold_all_empty _ _ es (splitRN c) h, splitRN_eq_splitNl c hcr,
      joinNl_splitNl]
  · intro c es h hcr
    show joinSep ['\n', '\n'] (applySubFold es (splitBRN c)) = c
    rw [applySubFold_all_empty es (splitBRN c) h, splitBRN_eq_splitB2 c hcr,
      joinB2_splitB2]
  · intro eng c es heng hp
    rw [applyTranslations_json_red c es eng heng, hp]
  · intro eng c es v heng h hp
    rw [applyTranslations_json_red c es eng heng, hp]
    dsimp only
    rw [goEntries_all_empty es v h]

/-- Claim C1, witness for the amended theorem at concrete inputs. -/
theorem C1_amended_witness :
    applyTranslations (s2c "x\ny") [] .kirikiri = s2c "x\ny" ∧
      applyTranslations (s2c "not json") [] .generic = s2c "not json" :=
  ⟨C1_amended.2.1 (s2c "x\ny") [] (by simp) (by decide),
   C1_amended.2.2.2.2.1 .generic (s2c "not json") [] (Or.inr (Or.inr rfl)) (by decide)⟩

/-- Claim C6, counterexample: a map file whose second event lacks `pages`
throws a TypeError in mid-extraction; the exception is caught, but the entry
pushed before the throw survives, so the file contributes one entry, not
zero. -/
theorem C6_counterexample :
    parseRPGMaker (s2c "M")
        (s2c "\x7b\"events\":[\x7b\"name\":\"E\",\"pages\":[\x7b\"list\":[\x7b\"code\":401,\"parameters\":[\"Hi\"]\x7d]\x7d]\x7d,\x7b\"name\":\"F\"\x7d]\x7d") =
      [mkR (s2c "map-M-0-0-0") (some (.str (s2c "Hi")))
        (s2c "events[0].pages[0].list[0].parameters[0]") (s2c "Event: E")] ∧
    (match Json.parseC
        (s2c "\x7b\"events\":[\x7b\"name\":\"E\",\"pages\":[\x7b\"list\":[\x7b\"code\":401,\"parameters\":[\"Hi\"]\x7d]\x7d]\x7d,\x7b\"name\":\"F\"\x7d]\x7d") with
     | some d =>
       (match rpgExtract (s2c "M") d with
        | .error _ => true
        | .ok _ => false)
     | none => false) = true ∧
    ([mkR (s2c "map-M-0-0-0") (some (.str (s2c "Hi")))
        (s2c "events[0].pages[0].list[0].parameters[0]") (s2c "Event: E")] : List Entry) ≠ [] := by
  refine ⟨by decide, by decide, by decide⟩

/-- Claim C6, amended: a JSON parse failure contributes zero entries and no
exception propagates (the model function is total); an exception thrown in
mid-extraction is caught and returns the entries accumulated before the
throw, which need not be zero. -/
theorem C6_amended (f c : List Char) (hp : Json.parseC c = none) :
    parseRPGMaker f c = [] := by
  unfold parseRPGMaker
  rw [hp]

/-- Claim C6, witness for the amended theorem. -/
theorem C6_amended_witness : parseRPGMaker (s2c "f") (s2c "oops") = [] :=
  C6_amended (s2c "f") (s2c "oops") (by decide)

/-- Claim C9, counterexample: a `.json` file whose content fails to parse
contributes zero entries (routed through the generic-JSON catch), not a
single whole-file fallback entry; and reinjecting a non-empty translation for
a fallback entry does not overwrite the file - under the generic engine the
applier treats the content as JSON, fails to parse it, and returns it
unchanged. -/
theorem C9_counterexample :
    importFile (s2c "a.json") (s2c "not json") = ([], .generic) ∧
    applyTranslations (s2c "hello")
        [{ id := s2c "raw-a.txt", original := some (.str (s2c "hello")),
           translated := s2c "X", path := s2c "raw",
           context := some (s2c "Raw File Content"), tmEngineMatch := none }]
        .generic = s2c "hello" ∧
    s2c "hello" ≠ s2c "X" := by
  refine ⟨by decide, by decide, by decide⟩

/-- Claim C9, amended: only files with unrecognized extensions produce the
single whole-file fallback entry (id `raw-<name>`, path `raw`, original the
whole content) and tag the project generic; a `.json` file that fails to
parse instead contributes zero entries; reinjection under the generic engine
parses the content as JSON, so unparsable content is returned unchanged and
the fallback translation is never applied. -/
theorem C9_amended :
    (∀ name content, endsW (s2c ".json") name = false → endsW (s2c ".ks") name = false →
      endsW (s2c ".tjs") name = false → endsW (s2c ".rpy") name = false →
      endsW (s2c ".csv") name = false → endsW (s2c ".srt") name = false →
      importFile name content =
        ([{ id := s2c "raw-" ++ name, original := some (.str content), translated := [],
            path := s2c "raw", context := some (s2c "Raw File Content"),
            tmEngineMatch := none }], .generic))
    ∧ (∀ name content, endsW (s2c ".json") name = true → Json.parseC content = none →
        importFile name content = ([], .generic))
    ∧ (∀ c es, Json.parseC c = none → applyTranslations c es .generic = c) := by
  refine ⟨?_, ?_, ?_⟩
  · intro name content h1 h2 h3 h4 h5 h6
    simp [importFile, h1, h2, h3, h4, h5, h6]
  · intro name content h1 hp
    simp [importFile, h1, hp, parseGenericJSON]
  · intro c es hp
    rw [applyTranslations_json_red c es .generic (Or.inr (Or.inr rfl)), hp]

/-- Claim C9, witness for the amended theorem. -/
theorem C9_amended_witness :
    importFile (s2c "a.txt") (s2c "hello") =
      ([{ id := s2c "raw-a.txt", original := some (.str (s2c "hello")), translated := [],
          path := s2c "raw", context := some (s2c "Raw File Content"),
          tmEngineMatch := none }], .generic) :=
  C9_amended.1 (s2c "a.txt") (s2c "hello") (by decide) (by decide) (by decide)
    (by decide) (by decide) (by decide)

theorem leadsWith_false_of_head_ne {a b : Char} (s1 s2 cs : List Char) (hne : b ≠ a)
    (h : leadsWith (a :: s1) cs = true) : leadsWith (b :: s2) cs = false := by
  cases cs with
  | nil => simp [leadsWith] at h
  | cons c rest =>
    simp [leadsWith] at h ⊢
    intro hb
    rw [hb] at hne
    exact absurd h.1.symm hne

/-- Claim C10: under the generic engine (the tag every CSV import sets),
content that fails to parse as JSON is returned unchanged for every entry
list, so CSV-cell translations are never reinjected; and a `.csv` import is
indeed tagged generic with `parseCSV` entries. -/
theorem C10_confirmed :
    (∀ c es, Json.parseC c = none → applyTranslations c es .generic = c)
    ∧ (∀ name content, endsW (s2c ".csv") name = true →
        importFile name content = (parseCSV name content, .generic)) := by
  constructor
  · intro c es hp
    rw [applyTranslations_json_red c es .generic (Or.inr (Or.inr rfl)), hp]
  · intro name content h
    have hv : leadsWith ('v' :: s2c "sc.") name.reverse = true := by
      have hrw : (s2c ".csv").reverse = 'v' :: s2c "sc." := by decide
      unfold endsW at h
      rw [hrw] at h
      exact h
    have hj : endsW (s2c ".json") name = false := by
      unfold endsW
      rw [show (s2c ".json").reverse = 'n' :: s2c "osj." from by decide]
      exact leadsWith_false_of_head_ne _ _ _ (by decide) hv
    have hks : endsW (s2c ".ks") name = false := by
      unfold endsW
      rw [show (s2c ".ks").reverse = 's' :: s2c "k." from by decide]
      exact leadsWith_false_of_head_ne _ _ _ (by decide) hv
    have htjs : endsW (s2c ".tjs") name = false := by
      unfold endsW
      rw [show (s2c ".tjs").reverse = 's' :: s2c "jt." from by decide]
      exact leadsWith_false_of_head_ne _ _ _ (by decide) hv
    have hrpy : endsW (s2c ".rpy") name = false := by
      unfold endsW
      rw [show (s2c ".rpy").reverse = 'y' :: s2c "pr." from by decide]
      exact leadsWith_false_of_head_ne _ _ _ (by decide) hv
    simp [importFile, hj, hks, htjs, hrpy, h]

/-- Claim C10, witness at a concrete CSV project. -/
theorem C10_confirmed_witness :
    applyTranslations (s2c "Attack,12") [] .generic = s2c "Attack,12" ∧
      importFile (s2c "t.csv") (s2c "Attack,12") =
        (parseCSV (s2c "t.csv") (s2c "Attack,12"), .generic) :=
  ⟨C10_confirmed.1 (s2c "Attack,12") [] (by decide),
   C10_confirmed.2 (s2c "t.csv") (s2c "Attack,12") (by decide)⟩

theorem setField_self : ∀ (fs : List (List Char × Json)) (k : List Char) (w : Json),
    lookupField fs k = some w → setField fs k w = fs
  | [], _, _, h => by simp [lookupField] at h
  | (k1, v1) :: fs, k, w, h => by
    rw [lookupField] at h
    rw [setField]
    by_cases hk : k1 = k
    · rw [if_pos hk] at h ⊢
      obtain rfl : v1 = w := Option.some.inj h
      rfl
    · rw [if_neg hk] at h ⊢
      rw [setField_self fs k w h]

theorem listSet_self : ∀ (xs : List Json) (i : Nat) (c : Json),
    xs.get? i = some c → xs.set i c = xs
  | [], i, c, h => by simp at h
  | x :: xs, 0, c, h => by
    have hx : x = c := by simpa using h
    rw [List.set, hx]
  | x :: xs, i + 1, c, h => by
    have ht : xs.get? i = some c := by simpa using h
    rw [List.set, listSet_self xs i c ht]

theorem replaceAt_self (v : Json) (k : List Char) (c : Json) (h : v.look k = some c) :
    v.replaceAt k c = v := by
  cases v with
  | obj fs =>
    rw [Json.look] at h
    rw [Json.replaceAt, setField_self fs k c h]
  | arr xs =>
    rw [Json.look] at h
    rw [Json.replaceAt]
    cases hk : keyIdx k with
    | none => rw [hk] at h
    | some i =>
      rw [hk] at h
      simp only [hk]
      rw [listSet_self xs i c h]
  | null => simp [Json.look] at h
  | bool b => simp [Json.look] at h
  | num n => simp [Json.look] at h
  | str s => simp [Json.look] at h

theorem walkBroken_one (v : Json) (k : List Char) : walkBroken v [k] = !v.truthy := rfl

theorem walkBroken_cons2 (v : Json) (k k2 : List Char) (ks : List (List Char)) :
    walkBroken v (k :: k2 :: ks) =
      if !v.truthy then true
      else
        match v.look k with
        | none => true
        | some child => walkBroken child (k2 :: ks) := rfl

theorem setPath_one (v : Json) (k : List Char) (t : List Char) :
    setPath v [k] t =
      if !v.truthy then some v
      else
        match v with
        | .obj fs => some (.obj (setField fs k (.str t)))
        | .arr xs =>
          (match keyIdx k with
           | some i => some (.arr (padSet xs i (.str t)))
           | none => some (.arr xs))
        | _ => none := rfl

theorem setPath_cons2 (v : Json) (k k2 : List Char) (ks : List (List Char)) (t : List Char) :
    setPath v (k :: k2 :: ks) t =
      if !v.truthy then some v
      else
        match v.look k with
        | none => some v
        | some child =>
          match setPath child (k2 :: ks) t with
          | none => none
          | some c2 => some (v.replaceAt k c2) := rfl

theorem setPath_of_walkBroken : ∀ (v : Json) (ks : List (List Char)) (t : List Char),
    walkBroken v ks = true → setPath v ks t = some v
  | v, [], t, h => by simp [walkBroken] at h
  | v, [k], t, h => by
    rw [walkBroken_one] at h
    rw [setPath_one, if_pos h]
  | v, k :: k2 :: ks, t, h => by
    rw [walkBroken_cons2] at h
    rw [setPath_cons2]
    by_cases ht : !v.truthy
    · rw [if_pos ht]
    · rw [if_neg ht]
      rw [if_neg ht] at h
      cases hl : v.look k with
      | none => rfl
      | some child =>
        rw [hl] at h
        dsimp only at h ⊢
        rw [setPath_of_walkBroken child (k2 :: ks) t h]
        dsimp only
        rw [replaceAt_self v k child hl]

theorem stepEntry_skip_of_broken (e : Entry) (v : Json)
    (h : walkBroken v (segs e.path) = true) : stepEntry e v = some v := by
  rw [stepEntry]
  by_cases he : e.translated.isEmpty
  · rw [if_pos he]
  · rw [if_neg he, setPath_of_walkBroken v (segs e.path) e.translated h]

/-- Claim C3: during JSON-family reinjection an entry whose path fails to
resolve against the fresh parse of the content is silently skipped and the
remaining entries are still applied (the model applier is a total function,
so nothing escapes it); and when the content fails to parse as JSON the
original content is returned unchanged for every entry list. -/
theorem C3_confirmed :
    (∀ (eng : Engine) (c : List Char) (v : Json) (e : Entry) (rest : List Entry),
      (eng = .rpgmaker ∨ eng = .unity ∨ eng = .generic) →
      Json.parseC c = some v → walkBroken v (segs e.path) = true →
      applyTranslations c (e :: rest) eng = applyTranslations c rest eng)
    ∧ (∀ (eng : Engine) (c : List Char) (es : List Entry),
      (eng = .rpgmaker ∨ eng = .unity ∨ eng = .generic) →
      Json.parseC c = none → applyTranslations c es eng = c) := by
  constructor
  · intro eng c v e rest heng hp hb
    rw [applyTranslations_json_red c (e :: rest) eng heng,
      applyTranslations_json_red c rest eng heng, hp]
    dsimp only
    rw [goEntries, stepEntry_skip_of_broken e v hb]
  · intro eng c es heng hp
    rw [applyTranslations_json_red c es eng heng, hp]

/-- Claim C3, witness: a path whose first segment is missing is skipped while
the remaining entry still lands, and unparsable content passes through. -/
theorem C3_confirmed_witness :
    applyTranslations (s2c "\x7b\"a\":\"x\"\x7d")
        [{ id := s2c "broken", original := none, translated := s2c "Z",
           path := s2c "q.w", context := none, tmEngineMatch := none },
         { id := s2c "good", original := none, translated := s2c "T",
           path := s2c "a", context := none, tmEngineMatch := none }] .generic =
      applyTranslations (s2c "\x7b\"a\":\"x\"\x7d")
        [{ id := s2c "good", original := none, translated := s2c "T",
           path := s2c "a", context := none, tmEngineMatch := none }] .generic ∧
    applyTranslations (s2c "broken \x7b json") [] .rpgmaker = s2c "broken \x7b json" :=
  ⟨C3_confirmed.1 .generic (s2c "\x7b\"a\":\"x\"\x7d")
      (.obj [(s2c "a", .str (s2c "x"))]) _ _ (Or.inr (Or.inr rfl)) (by decide) (by decide),
   C3_confirmed.2 .rpgmaker (s2c "broken \x7b json") [] (Or.inl rfl) (by decide)⟩

theorem fanOut_original (eng : Engine) (x : Option Json) (r : List Char) (ent : Entry) :
    ((if ent.original = x then
        { ent with translated := r, tmEngineMatch := some (engStr eng) }
      else ent) : Entry).original = ent.original := by
  by_cases h : ent.original = x <;> simp [h]

theorem foldl_fanOut_char (eng : Engine) :
    ∀ (ps : List (Entry × List Char)) (es : List Entry),
    ps.foldl (fun acc p => fanOut eng p.1.original p.2 acc) es =
      es.map (fun ent =>
        match lastRes ent.original ps with
        | some r => { ent with translated := r, tmEngineMatch := some (engStr eng) }
        | none => ent)
  | [], es => by
    simp [lastRes]
  | p :: ps, es => by
    rw [List.foldl_cons, foldl_fanOut_char eng ps (fanOut eng p.1.original p.2 es),
      fanOut, List.map_map]
    refine List.map_congr_left ?_
    intro ent _
    simp only [Function.comp_apply]
    by_cases hm : ent.original = p.1.original
    · rw [if_pos hm]
      rw [show lastRes ent.original (p :: ps) =
          (match lastRes ent.original ps with
           | some r => some r
           | none => if p.1.original = ent.original then some p.2 else none) from rfl]
      cases hps : lastRes ent.original ps with
      | some r => simp [hps]
      | none => simp [hm.symm]
    · rw [if_neg hm]
      rw [show lastRes ent.original (p :: ps) =
          (match lastRes ent.original ps with
           | some r => some r
           | none => if p.1.original = ent.original then some p.2 else none) from rfl]
      cases hps : lastRes ent.original ps with
      | some r => simp [hps]
      | none =>
        have hne : p.1.original ≠ ent.original := fun he => hm he.symm
        simp [hne]

theorem foldl_zip_flatten (fan : List Entry → Entry × List Char → List Entry) :
    ∀ (ll : List (List Entry × List (List Char))) (es : List Entry),
    ll.foldl (fun acc p => (p.1.zip p.2).foldl fan acc) es =
      (ll.flatMap (fun p => p.1.zip p.2)).foldl fan es
  | [], _ => rfl
  | p :: ll, es => by
    rw [List.foldl_cons, foldl_zip_flatten fan ll, List.flatMap_cons, List.foldl_append]

theorem runBatches_char (eng : Engine) (entries : List Entry)
    (targetIds : List (List Char)) (results : List (List (List Char))) :
    runBatches eng entries targetIds results =
      entries.map (fun ent =>
        match lastRes ent.original (runPairs entries targetIds results) with
        | some r => { ent with translated := r, tmEngineMatch := some (engStr eng) }
        | none => ent) := by
  unfold runBatches runPairs runBatch
  rw [foldl_zip_flatten, foldl_fanOut_char]

/-- Claim C2: after a batch run, every entry of the whole project whose
original equals a resolved original text carries that resolved translation
(the last one, when the same original was resolved more than once), with the
provenance mark set to the project engine. -/
theorem C2_confirmed (eng : Engine) (entries : List Entry) (targetIds : List (List Char))
    (results : List (List (List Char))) (ent : Entry)
    (hent : ent ∈ runBatches eng entries targetIds results) (x : Option Json)
    (r : List Char) (hx : ent.original = x)
    (hr : lastRes x (runPairs entries targetIds results) = some r) :
    ent.translated = r ∧ ent.tmEngineMatch = some (engStr eng) := by
  rw [runBatches_char] at hent
  obtain ⟨ent0, _, hmap⟩ := List.mem_map.mp hent
  have horig : ent.original = ent0.original := by
    rw [← hmap]
    cases hps : lastRes ent0.original (runPairs entries targetIds results) <;> simp [hps]
  rw [hx] at horig
  rw [← horig] at hmap
  rw [hr] at hmap
  rw [← hmap]
  exact ⟨rfl, rfl⟩

/-- Claim C2, witness: two entries in different files share the original
"Attack"; requesting only the first still sets the translation on both. -/
theorem C2_confirmed_witness :
    (mkE (s2c "id2") (s2c "Attack") (s2c "p2") (s2c "c")).original = some (.str (s2c "Attack")) ∧
    ({ mkE (s2c "id2") (s2c "Attack") (s2c "p2") (s2c "c") with
        translated := s2c "Serang", tmEngineMatch := some (engStr .rpgmaker) } : Entry).translated
      = s2c "Serang" := by
  constructor
  · decide
  · have h := C2_confirmed .rpgmaker
      [mkE (s2c "id1") (s2c "Attack") (s2c "p1") (s2c "c"),
       mkE (s2c "id2") (s2c "Attack") (s2c "p2") (s2c "c"),
       mkE (s2c "id3") (s2c "Other") (s2c "p3") (s2c "c")]
      [s2c "id1"] [[s2c "Serang"]]
      ({ mkE (s2c "id2") (s2c "Attack") (s2c "p2") (s2c "c") with
          translated := s2c "Serang", tmEngineMatch := some (engStr .rpgmaker) })
      (by decide) (some (.str (s2c "Attack"))) (s2c "Serang") (by decide) (by decide)
    exact h.1

theorem linePath_inj {i j : Nat} (h : s2c "line-" ++ decChars i = s2c "line-" ++ decChars j) :
    i = j := by
  have hd : decChars i = decChars j := by simpa using h
  exact decChars_inj hd

/-- The kirikiri per-line extraction function. -/
theorem kkFilter_none (fn : List Char) :
    ∀ (lines : List (List Char)) (k m : Nat), m < k →
    ((List.enumFrom k lines).filterMap (fun p =>
        if kkSkip p.2 then none
        else some (mkE (s2c "ks-" ++ fn ++ '-' :: decChars p.1) p.2
          (s2c "line-" ++ decChars p.1) (s2c "KiriKiri Dialogue")))).filter
      (fun e => e.path = s2c "line-" ++ decChars m) = []
  | [], _, _, _ => rfl
  | l :: lines, k, m, hmk => by
    rw [List.enumFrom_cons, List.filterMap_cons]
    have hrec := kkFilter_none fn lines (k + 1) m (by omega)
    cases hsk : kkSkip l with
    | true =>
      rw [if_pos rfl]
      exact hrec
    | false =>
      rw [if_neg (by decide)]
      rw [List.filter_cons]
      have hne : ¬(s2c "line-" ++ decChars k = s2c "line-" ++ decChars m) := by
        intro he
        exact absurd (linePath_inj he) (by omega)
      rw [if_neg (by simpa [mkE] using hne)]
      exact hrec

theorem kkFilter_aux (fn : List Char) :
    ∀ (lines : List (List Char)) (n i : Nat), i < lines.length →
    ((List.enumFrom n lines).filterMap (fun p =>
        if kkSkip p.2 then none
        else some (mkE (s2c "ks-" ++ fn ++ '-' :: decChars p.1) p.2
          (s2c "line-" ++ decChars p.1) (s2c "KiriKiri Dialogue")))).filter
      (fun e => e.path = s2c "line-" ++ decChars (n + i)) =
      (if kkSkip (lines.getD i []) then []
       else [mkE (s2c "ks-" ++ fn ++ '-' :: decChars (n + i)) (lines.getD i [])
          (s2c "line-" ++ decChars (n + i)) (s2c "KiriKiri Dialogue")])
  | [], n, i, hi => absurd hi (by simp)
  | l :: lines, n, 0, _ => by
    rw [List.enumFrom_cons, List.filterMap_cons]
    have h0 : (l :: lines).getD 0 [] = l := rfl
    rw [h0]
    cases hsk : kkSkip l with
    | true =>
      rw [if_pos rfl, if_pos rfl]
      have hzero : n + 0 = n := rfl
      rw [hzero]
      exact kkFilter_none fn lines (n + 1) n (by omega)
    | false =>
      rw [if_neg (by decide), if_neg (by decide)]
      rw [List.filter_cons]
      have hzero : n + 0 = n := rfl
      rw [hzero]
      rw [if_pos (by simp [mkE])]
      rw [kkFilter_none fn lines (n + 1) n (by omega)]
  | l :: lines, n, i + 1, hi => by
    rw [List.enumFrom_cons, List.filterMap_cons]
    have hg : (l :: lines).getD (i + 1) [] = lines.getD i [] := rfl
    rw [hg]
    have hrearr : n + (i + 1) = (n + 1) + i := by omega
    have hrec := kkFilter_aux fn lines (n + 1) i (by simpa using Nat.lt_of_succ_lt_succ hi)
    rw [hrearr]
    cases hsk : kkSkip l with
    | true =>
      rw [if_pos rfl]
      exact hrec
    | false =>
      rw [if_neg (by decide)]
      rw [List.filter_cons]
      have hne : ¬(s2c "line-" ++ decChars n = s2c "line-" ++ decChars ((n + 1) + i)) := by
        intro he
        exact absurd (linePath_inj he) (by omega)
      rw [if_neg (by simpa [mkE] using hne)]
      exact hrec

/-- Claim C8: a line classified blank, comment, label, command, or tag-only
never produces an entry with its line path; every other line produces exactly
one entry whose original is the whole line byte-for-byte, inline tags
included. -/
theorem C8_confirmed (fn content : List Char) (i : Nat)
    (hi : i < (splitRN content).length) :
    (kkSkip ((splitRN content).getD i []) = true →
      ∀ e ∈ parseKiriKiri fn content, e.path ≠ s2c "line-" ++ decChars i)
    ∧ (kkSkip ((splitRN content).getD i []) = false →
      (parseKiriKiri fn content).filter (fun e => e.path = s2c "line-" ++ decChars i) =
        [mkE (s2c "ks-" ++ fn ++ '-' :: decChars i) ((splitRN content).getD i [])
          (s2c "line-" ++ decChars i) (s2c "KiriKiri Dialogue")]) := by
  have hch : parseKiriKiri fn content =
      (List.enumFrom 0 (splitRN content)).filterMap (fun p =>
        if kkSkip p.2 then none
        else some (mkE (s2c "ks-" ++ fn ++ '-' :: decChars p.1) p.2
          (s2c "line-" ++ decChars p.1) (s2c "KiriKiri Dialogue"))) := rfl
  have haux := kkFilter_aux fn (splitRN content) 0 i hi
  rw [show (0 : Nat) + i = i from by omega] at haux
  constructor
  · intro hsk e he hpath
    rw [if_pos hsk] at haux
    have hmem : e ∈ (parseKiriKiri fn content).filter
        (fun e => e.path = s2c "line-" ++ decChars i) :=
      List.mem_filter.mpr ⟨he, by simpa using hpath⟩
    rw [hch] at hmem
    rw [haux] at hmem
    exact absurd hmem (List.not_mem_nil e)
  · intro hsk
    rw [if_neg (by simp only [hsk]; decide)] at haux
    rw [hch]
    exact haux

/-- Claim C8, witness: the ruby-tagged dialogue line is kept verbatim as
exactly one entry, and the tag-only line `[wait time=100]` is never
extracted. -/
theorem C8_confirmed_witness :
    (parseKiriKiri (s2c "f.ks") (s2c "Hello [ruby text=world]w[/ruby]!\n[wait time=100]")).filter
      (fun e => e.path = s2c "line-" ++ decChars 0) =
      [mkE (s2c "ks-" ++ s2c "f.ks" ++ '-' :: decChars 0)
        (s2c "Hello [ruby text=world]w[/ruby]!") (s2c "line-" ++ decChars 0)
        (s2c "KiriKiri Dialogue")] ∧
    (mkE (s2c "ks-f.ks-0") (s2c "Hello [ruby text=world]w[/ruby]!") (s2c "line-0")
        (s2c "KiriKiri Dialogue")).path ≠ s2c "line-" ++ decChars 1 :=
  ⟨(C8_confirmed (s2c "f.ks") (s2c "Hello [ruby text=world]w[/ruby]!\n[wait time=100]")
      0 (by decide)).2 (by decide),
   (C8_confirmed (s2c "f.ks") (s2c "Hello [ruby text=world]w[/ruby]!\n[wait time=100]")
      1 (by decide)).1 (by decide)
      (mkE (s2c "ks-f.ks-0") (s2c "Hello [ruby text=world]w[/ruby]!") (s2c "line-0")
        (s2c "KiriKiri Dialogue")) (by decide)⟩

/-- Claim C7, counterexample: an array whose second element carries `list`,
`nickname` and `name` matches the common-events, actors and entity-table
probes at once, and extraction emits the entries of all three shapes, not
only the highest-priority one. -/
theorem C7_counterexample :
    parseRPGMaker (s2c "F")
        (s2c "[null,\x7b\"list\":[\x7b\"code\":401,\"parameters\":[\"A\"]\x7d],\"nickname\":\"nick\",\"name\":\"nm\"\x7d]") =
      [mkR (s2c "common-F-1-0") (some (.str (s2c "A"))) (s2c "[1].list[0].parameters[0]")
        (s2c "Common Event: nm"),
       mkR (s2c "actor-F-1-name") (some (.str (s2c "nm"))) (s2c "[1].name") (s2c "Actor Name"),
       mkR (s2c "actor-F-1-nick") (some (.str (s2c "nick"))) (s2c "[1].nickname")
        (s2c "Actor Nickname"),
       mkR (s2c "data-F-1-name") (some (.str (s2c "nm"))) (s2c "[1].name") (s2c "F Name")] ∧
    (parseRPGMaker (s2c "F")
        (s2c "[null,\x7b\"list\":[\x7b\"code\":401,\"parameters\":[\"A\"]\x7d],\"nickname\":\"nick\",\"name\":\"nm\"\x7d]")).any
      (fun e => leadsWith (s2c "common-") e.id) = true ∧
    (parseRPGMaker (s2c "F")
        (s2c "[null,\x7b\"list\":[\x7b\"code\":401,\"parameters\":[\"A\"]\x7d],\"nickname\":\"nick\",\"name\":\"nm\"\x7d]")).any
      (fun e => leadsWith (s2c "actor-") e.id) = true := by
  refine ⟨by decide, by decide, by decide⟩

/-- Claim C7, amended: the probes run as independent ifs in a fixed order,
so a value matching several sub-shapes emits the entries of every matching
probe, concatenated in probe order; here the common-events entries come
first, then the actor entries, then the entity-table entry. -/
theorem C7_amended (fn nick nm s : List Char) (hnm : nm ≠ []) (hnick : nick ≠ [])
    (hs : s ≠ []) :
    rpgExtract fn
      (Json.arr [.null,
        .obj [(s2c "list", .arr [.obj [(s2c "code", .num 401),
                (s2c "parameters", .arr [.str s])]]),
              (s2c "nickname", .str nick), (s2c "name", .str nm)]]) =
      .ok [mkR (s2c "common-" ++ fn ++ '-' :: decChars 1 ++ '-' :: decChars 0)
          (some (.str s))
          ('[' :: decChars 1 ++ s2c "].list[" ++ decChars 0 ++ s2c "].parameters[0]")
          (s2c "Common Event: " ++ nm),
        mkR (s2c "actor-" ++ fn ++ '-' :: decChars 1 ++ s2c "-name") (some (.str nm))
          ('[' :: decChars 1 ++ s2c "].name") (s2c "Actor Name"),
        mkR (s2c "actor-" ++ fn ++ '-' :: decChars 1 ++ s2c "-nick") (some (.str nick))
          ('[' :: decChars 1 ++ s2c "].nickname") (s2c "Actor Nickname"),
        mkR (s2c "data-" ++ fn ++ '-' :: decChars 1 ++ s2c "-name") (some (.str nm))
          ('[' :: decChars 1 ++ s2c "].name") (fn ++ s2c " Name")] := by
  have hnm2 : nm.isEmpty = false := by simpa using hnm
  have hnick2 : nick.isEmpty = false := by simpa using hnick
  have hs2 : s.isEmpty = false := by simpa using hs
  simp [rpgExtract, rpgB1, rpgB2, rpgB3, rpgB4, rpgB5, rpgB6, rpgB2Guard, rpgSibGuard,
    memberE, mustArr, idx0E, exFold, Json.look, lookupField, keyIdx, optTruthy,
    Json.truthy, pushIfTruthy, rpgB1Cmd, jsDisplay, jsDispV, dispOr, hnm2, hnick2, hs2,
    mkR, valDigits, digitVal, isDigitCh, s2c, decChars, decDigits, digitCh]

/-- Claim C7, witness for the amended theorem at concrete strings. -/
theorem C7_amended_witness :
    rpgExtract (s2c "F")
      (Json.arr [.null,
        .obj [(s2c "list", .arr [.obj [(s2c "code", .num 401),
                (s2c "parameters", .arr [.str (s2c "A")])]]),
              (s2c "nickname", .str (s2c "nick")), (s2c "name", .str (s2c "nm"))]]) =
      .ok [mkR (s2c "common-" ++ s2c "F" ++ '-' :: decChars 1 ++ '-' :: decChars 0)
          (some (.str (s2c "A")))
          ('[' :: decChars 1 ++ s2c "].list[" ++ decChars 0 ++ s2c "].parameters[0]")
          (s2c "Common Event: " ++ s2c "nm"),
        mkR (s2c "actor-" ++ s2c "F" ++ '-' :: decChars 1 ++ s2c "-name")
          (some (.str (s2c "nm"))) ('[' :: decChars 1 ++ s2c "].name") (s2c "Actor Name"),
        mkR (s2c "actor-" ++ s2c "F" ++ '-' :: decChars 1 ++ s2c "-nick")
          (some (.str (s2c "nick"))) ('[' :: decChars 1 ++ s2c "].nickname")
          (s2c "Actor Nickname"),
        mkR (s2c "data-" ++ s2c "F" ++ '-' :: decChars 1 ++ s2c "-name")
          (some (.str (s2c "nm"))) ('[' :: decChars 1 ++ s2c "].name")
          (s2c "F" ++ s2c " Name")] :=
  C7_amended (s2c "F") (s2c "nick") (s2c "nm") (s2c "A") (by decide) (by decide) (by decide)

theorem isDigitCh_toNat {c : Char} (h : isDigitCh c = true) :
    48 ≤ c.toNat ∧ c.toNat ≤ 57 := by
  simp only [isDigitCh, Bool.and_eq_true, decide_eq_true_eq] at h
  obtain ⟨h1, h2⟩ := h
  rw [Char.le_def] at h1 h2
  exact ⟨h1, h2⟩

theorem digitCh_digitVal (c : Char) (h : isDigitCh c = true) : digitCh (digitVal c) = c := by
  obtain ⟨hb1, hb2⟩ := isDigitCh_toNat h
  have hofn : Char.ofNat c.toNat = c := Char.ofNat_toNat c
  unfold digitVal
  set n := c.toNat with hn
  interval_cases n <;> rw [← hofn] <;> decide

theorem decDigits_ne_nil (f n : Nat) : decDigits (f + 1) n ≠ [] := by
  rw [decDigits]
  by_cases h : n < 10 <;> simp [h]

theorem decDigits_fuel_irrel : ∀ f g n, n < f → n < g → decDigits f n = decDigits g n
  | 0, _, n, h, _ => absurd h (Nat.not_lt_zero n)
  | _ + 1, 0, n, _, h2 => absurd h2 (Nat.not_lt_zero n)
  | f + 1, g + 1, n, h, h2 => by
    rw [decDigits, decDigits]
    by_cases h10 : n < 10
    · rw [if_pos h10, if_pos h10]
    · have hdiv : n / 10 < n := Nat.div_lt_self (by omega) (by omega)
      rw [if_neg h10, if_neg h10,
        decDigits_fuel_irrel f g (n / 10) (by omega) (by omega)]

theorem valDigits_cons (d : Char) (rest : List Char) :
    valDigits (d :: rest) = rest.foldl (fun a c => a * 10 + digitVal c) (digitVal d) := by
  simp [valDigits]

theorem foldl_digits_ge : ∀ (rest : List Char) (a : Nat),
    a ≤ rest.foldl (fun x c => x * 10 + digitVal c) a
  | [], a => le_refl a
  | c :: rest, a => by
    rw [List.foldl_cons]
    have h1 : a ≤ a * 10 + digitVal c := by omega
    exact le_trans h1 (foldl_digits_ge rest (a * 10 + digitVal c))

theorem valDigits_head_pos (d : Char) (rest : List Char) (hd : isDigitCh d = true)
    (h0 : d ≠ '0') : 1 ≤ valDigits (d :: rest) := by
  rw [valDigits_cons]
  have hv : 1 ≤ digitVal d := by
    obtain ⟨hb1, hb2⟩ := isDigitCh_toNat hd
    have h48 : d.toNat ≠ 48 := by
      intro he
      apply h0
      have hofn := Char.ofNat_toNat d
      rw [he] at hofn
      rw [← hofn]
    unfold digitVal
    omega
  exact le_trans hv (foldl_digits_ge rest (digitVal d))

theorem canonRound : ∀ (k : List Char), k ≠ [] → k.all isDigitCh = true →
    (k = ['0'] ∨ k.head? ≠ some '0') → decChars (valDigits k) = k := by
  intro k
  induction k using List.reverseRecOn with
  | nil => intro h; exact absurd rfl h
  | append_singleton ds c ih =>
    intro _ hdig hlead
    have hc : isDigitCh c = true := by
      rw [List.all_append] at hdig
      simpa using (Bool.and_elim_right hdig)
    have hdval : digitVal c < 10 := by
      obtain ⟨hb1, hb2⟩ := isDigitCh_toNat hc
      unfold digitVal
      omega
    cases hds : ds with
    | nil =>
      subst hds
      rw [valDigits_append_one, valDigits]
      simp only [List.foldl_nil, Nat.zero_mul, Nat.zero_add]
      unfold decChars
      rw [decDigits, if_pos hdval, digitCh_digitVal c hc]
      rfl
    | cons d0 rest =>
      rw [← hds]
      have hdsne : ds ≠ [] := by rw [hds]; simp
      have hdsdig : ds.all isDigitCh = true := by
        rw [List.all_append] at hdig
        exact Bool.and_elim_left hdig
      have hd0 : d0 ≠ '0' := by
        intro he
        rcases hlead with h1 | h2
        · have hlen : (ds ++ [c]).length = 1 := by rw [h1]; rfl
          rw [hds] at hlen
          simp at hlen
        · apply h2
          rw [hds, he]
          rfl
      have hd0digit : isDigitCh d0 = true := by
        rw [hds] at hdsdig
        simp [List.all_cons] at hdsdig
        exact hdsdig.1
      have hpos : 1 ≤ valDigits ds := by
        rw [hds]
        exact valDigits_head_pos d0 rest hd0digit hd0
      rw [valDigits_append_one]
      have hge : ¬(valDigits ds * 10 + digitVal c < 10) := by omega
      unfold decChars
      rw [decDigits, if_neg hge]
      have hdiveq : (valDigits ds * 10 + digitVal c) / 10 = valDigits ds := by omega
      have hmodeq : (valDigits ds * 10 + digitVal c) % 10 = digitVal c := by omega
      rw [hdiveq, hmodeq, digitCh_digitVal c hc]
      have hfuel : decDigits (valDigits ds * 10 + digitVal c) (valDigits ds) =
          decDigits (valDigits ds + 1) (valDigits ds) :=
        decDigits_fuel_irrel _ _ _ (by omega) (by omega)
      rw [hfuel]
      have hih : decChars (valDigits ds) = ds := by
        apply ih hdsne hdsdig
        right
        rw [hds]
        intro he
        exact hd0 (by simpa using he)
      unfold decChars at hih
      rw [hih]

theorem decDigits_ne_nil2 (f n : Nat) (hf : 0 < f) : decDigits f n ≠ [] := by
  cases f with
  | zero => omega
  | succ f2 => exact decDigits_ne_nil f2 n

theorem decDigits_head_ne0 : ∀ f n, n < f → 1 ≤ n → ∀ rest, decDigits f n ≠ '0' :: rest
  | 0, n, h, _, _ => absurd h (Nat.not_lt_zero n)
  | f + 1, n, h, h1, rest => by
    rw [decDigits]
    by_cases h10 : n < 10
    · rw [if_pos h10]
      intro heq
      have hch : digitCh n = '0' := (List.cons.inj heq).1
      interval_cases n <;> simp_all <;> exact absurd hch (by decide)
    · rw [if_neg h10]
      intro heq
      have hne : decDigits f (n / 10) ≠ [] := by
        apply decDigits_ne_nil2
        omega
      cases hd : decDigits f (n / 10) with
      | nil => exact hne hd
      | cons hh tt =>
        rw [hd] at heq
        have hh0 : hh = '0' := by simpa using (List.cons.inj heq).1
        have hdl : n / 10 < f := by
          have := Nat.div_lt_self (show 0 < n by omega) (show 1 < 10 by omega)
          omega
        exact decDigits_head_ne0 f (n / 10) hdl (by omega) tt (by rw [hd, hh0])

theorem keyIdx_cons2_ne0 (c0 c1 : Char) (rest : List Char) (h0 : c0 ≠ '0') :
    keyIdx (c0 :: c1 :: rest) =
      (if (c0 :: c1 :: rest).all isDigitCh then some (valDigits (c0 :: c1 :: rest))
       else none) := by
  rw [keyIdx.eq_def]
  split <;> simp_all

theorem keyIdx_decChars (n : Nat) : keyIdx (decChars n) = some n := by
  by_cases h10 : n < 10
  · interval_cases n <;> decide
  · have hsh : decChars n = decDigits n (n / 10) ++ [digitCh (n % 10)] := by
      unfold decChars
      rw [decDigits, if_neg h10]
    cases hd : decDigits n (n / 10) with
    | nil => exact absurd hd (decDigits_ne_nil2 n (n / 10) (by omega))
    | cons hh tt =>
      have hh0 : hh ≠ '0' := by
        intro he
        exact decDigits_head_ne0 n (n / 10)
          (by
            have := Nat.div_lt_self (show 0 < n by omega) (show 1 < 10 by omega)
            omega)
          (by omega) tt (by rw [hd, he])
      rw [hsh, hd]
      have hshape : hh :: tt ++ [digitCh (n % 10)] = hh :: (tt ++ [digitCh (n % 10)]) := rfl
      cases htt : tt ++ [digitCh (n % 10)] with
      | nil => simp at htt
      | cons c1 rest2 =>
        have hall : (decChars n).all isDigitCh = true := by
          unfold decChars
          exact decDigits_all_digits (n + 1) n
        rw [hshape, htt, keyIdx_cons2_ne0 hh c1 rest2 hh0, ← htt, ← hshape, ← hd, ← hsh,
          if_pos hall, decChars_val]

theorem keyIdx_some_canon : ∀ {k : List Char} {n : Nat}, keyIdx k = some n → k = decChars n := by
  intro k n h
  rw [keyIdx.eq_def] at h
  split at h
  · exact absurd h (by simp)
  · have hn : n = 0 := by simpa using h.symm
    subst hn
    decide
  · exact absurd h (by simp)
  · rename_i k2 hne1 hne2 hne3
    split at h
    · rename_i hall
      have hx : valDigits k = n := by simpa using h
      have hknil : k ≠ [] := by
        intro he
        exact hne1 (by rw [he])
      have hhead : k = ['0'] ∨ k.head? ≠ some '0' := by
        right
        intro hh
        cases k with
        | nil => simp at hh
        | cons c0 krest =>
          have hc0 : c0 = '0' := by simpa using hh
          cases krest with
          | nil => exact hne2 (by rw [hc0])
          | cons c1 krest2 => exact hne3 c1 krest2 (by rw [hc0])
      rw [← hx]
      exact (canonRound k hknil hall hhead).symm
    · exact absurd h (by simp)

theorem keyIdx_inj {k1 k2 : List Char} {n : Nat} (h1 : keyIdx k1 = some n)
    (h2 : keyIdx k2 = some n) : k1 = k2 := by
  rw [keyIdx_some_canon h1, keyIdx_some_canon h2]

theorem lookupField_setField_same : ∀ (fs : List (List Char × Json)) (k : List Char) (c : Json),
    lookupField (setField fs k c) k = some c
  | [], k, c => by simp [setField, lookupField]
  | (k1, v1) :: fs, k, c => by
    rw [setField]
    by_cases hk : k1 = k
    · rw [if_pos hk, lookupField, if_pos hk]
    · rw [if_neg hk, lookupField, if_neg hk, lookupField_setField_same fs k c]

theorem lookupField_setField_other (k2 : List Char) :
    ∀ (fs : List (List Char × Json)) (k : List Char) (c : Json), k2 ≠ k →
    lookupField (setField fs k c) k2 = lookupField fs k2
  | [], k, c, hne => by
    simp [setField, lookupField]
    intro he
    exact absurd he.symm hne
  | (k1, v1) :: fs, k, c, hne => by
    rw [setField]
    by_cases hk : k1 = k
    · rw [if_pos hk, lookupField, lookupField]
      rw [if_neg (by rw [hk]; exact fun he => hne he.symm),
        if_neg (by rw [hk]; exact fun he => hne he.symm)]
    · rw [if_neg hk, lookupField, lookupField]
      by_cases hk2 : k1 = k2
      · rw [if_pos hk2, if_pos hk2]
      · rw [if_neg hk2, if_neg hk2, lookupField_setField_other k2 fs k c hne]

theorem Json.truthy_of_look_some {v : Json} {k : List Char} {c : Json}
    (h : v.look k = some c) : v.truthy = true := by
  cases v <;> simp_all [Json.look, Json.truthy]

theorem look_arr_keyIdx {xs : List Json} {k : List Char} {c : Json}
    (h : (Json.arr xs).look k = some c) :
    ∃ i, keyIdx k = some i ∧ xs.get? i = some c := by
  rw [Json.look] at h
  cases hk : keyIdx k with
  | none => rw [hk] at h; simp at h
  | some i =>
    rw [hk] at h
    exact ⟨i, rfl, h⟩

theorem look_replaceAt_same {v : Json} {k : List Char} {c0 : Json} (c : Json)
    (h : v.look k = some c0) : (v.replaceAt k c).look k = some c := by
  cases v with
  | obj fs =>
    rw [Json.replaceAt, Json.look]
    exact lookupField_setField_same fs k c
  | arr xs =>
    obtain ⟨i, hk, hg⟩ := look_arr_keyIdx h
    rw [Json.replaceAt, hk, Json.look, hk]
    have hlen : i < xs.length := by
      rw [List.get?_eq_getElem?] at hg
      exact (List.getElem?_eq_some_iff.mp hg).1
    dsimp only
    rw [List.get?_eq_getElem?, List.getElem?_set_self hlen]
  | null => simp [Json.look] at h
  | bool b => simp [Json.look] at h
  | num n => simp [Json.look] at h
  | str s => simp [Json.look] at h

theorem look_replaceAt_other {v : Json} (k : List Char) (c : Json) (k2 : List Char)
    (hne : k2 ≠ k) : (v.replaceAt k c).look k2 = v.look k2 := by
  cases v with
  | obj fs =>
    rw [Json.replaceAt, Json.look, Json.look]
    exact lookupField_setField_other k2 fs k c hne
  | arr xs =>
    rw [Json.replaceAt]
    cases hk : keyIdx k with
    | none => rfl
    | some i =>
      rw [Json.look, Json.look]
      cases hk2 : keyIdx k2 with
      | none => rfl
      | some i2 =>
        have hii : i ≠ i2 := by
          intro he
          subst he
          exact hne (keyIdx_inj hk2 hk)
        dsimp only
        rw [List.get?_eq_getElem?, List.get?_eq_getElem?, List.getElem?_set_ne hii]
  | null => rfl
  | bool b => rfl
  | num n => rfl
  | str s => rfl

theorem getPath_setAtE_same : ∀ (v : Json) (p : List (List Char)) (w old : Json),
    getPath v p = some old → getPath (setAtE v p w) p = some w
  | v, [], w, old, _ => rfl
  | v, k :: ks, w, old, h => by
    rw [getPath] at h
    cases hl : v.look k with
    | none => rw [hl] at h; simp at h
    | some child =>
      rw [hl] at h
      rw [setAtE, hl]
      dsimp only
      rw [getPath, look_replaceAt_same (setAtE child ks w) hl]
      exact getPath_setAtE_same child ks w old h

theorem getPath_setAtE_frame : ∀ (v : Json) (p : List (List Char)) (w : Json)
    (q : List (List Char)), (∀ r, q ≠ p ++ r) → (∀ r, p ≠ q ++ r) →
    getPath (setAtE v p w) q = getPath v q
  | v, [], w, q, h1, _ => absurd rfl (h1 q)
  | v, k :: ks, w, [], _, h2 => absurd rfl (h2 (k :: ks))
  | v, k :: ks, w, k2 :: qs, h1, h2 => by
    rw [setAtE]
    cases hl : v.look k with
    | none => rfl
    | some child =>
      dsimp only
      by_cases hkk : k2 = k
      · subst hkk
        rw [getPath, getPath, look_replaceAt_same (setAtE child ks w) hl, hl]
        exact getPath_setAtE_frame child ks w qs
          (fun r hr => h1 r (by rw [hr]; rfl))
          (fun r hr => h2 r (by rw [hr]; rfl))
      · rw [getPath, getPath, look_replaceAt_other k (setAtE child ks w) k2 hkk]

theorem padSet_lt : ∀ (xs : List Json) (i : Nat) (c : Json), i < xs.length →
    padSet xs i c = xs.set i c
  | [], i, c, h => by simp at h
  | x :: xs, 0, c, _ => rfl
  | x :: xs, i + 1, c, h => by
    rw [padSet, List.set, padSet_lt xs i c (by simpa using Nat.lt_of_succ_lt_succ h)]

theorem canWrite_one_eq (v : Json) (k : List Char) :
    canWrite v [k] =
      (match v with
       | .obj _ => (v.look k).isSome
       | .arr _ => (v.look k).isSome
       | _ => false) := rfl

theorem canWrite_cons2_eq (v : Json) (k k2 : List Char) (ks : List (List Char)) :
    canWrite v (k :: k2 :: ks) =
      (match v.look k with
       | some c => canWrite c (k2 :: ks)
       | none => false) := rfl

theorem canWrite_setPath : ∀ (v : Json) (p : List (List Char)) (t : List Char),
    canWrite v p = true → setPath v p t = some (setAtE v p (.str t))
  | v, [], t, h => by simp [canWrite] at h
  | v, [k], t, h => by
    rw [canWrite_one_eq] at h
    cases v with
    | obj fs =>
      have hs : (lookupField fs k).isSome = true := by simpa [Json.look] using h
      cases hl : lookupField fs k with
      | none => rw [hl] at hs; simp at hs
      | some c0 =>
        rw [setPath_one, if_neg (by simp [Json.truthy])]
        dsimp only
        rw [setAtE, show (Json.obj fs).look k = some c0 from hl]
        dsimp only
        rw [Json.replaceAt]
        rfl
    | arr xs =>
      have hs : ((Json.arr xs).look k).isSome = true := by simpa using h
      cases hl : (Json.arr xs).look k with
      | none => rw [hl] at hs; simp at hs
      | some c0 =>
        obtain ⟨i, hk, hg⟩ := look_arr_keyIdx hl
        have hlen : i < xs.length := by
          rw [List.get?_eq_getElem?] at hg
          exact (List.getElem?_eq_some_iff.mp hg).1
        rw [setPath_one, if_neg (by simp [Json.truthy]), hk]
        dsimp only
        rw [setAtE, hl]
        dsimp only
        rw [Json.replaceAt, hk]
        dsimp only
        rw [padSet_lt xs i _ hlen]
        rfl
    | null => simp at h
    | bool b => simp at h
    | num n => simp at h
    | str s => simp at h
  | v, k :: k2 :: ks, t, h => by
    rw [canWrite_cons2_eq] at h
    cases hl : v.look k with
    | none => rw [hl] at h; simp at h
    | some child =>
      rw [hl] at h
      dsimp only at h
      have htr : v.truthy = true := Json.truthy_of_look_some hl
      rw [setPath_cons2, if_neg (by simp [htr]), hl]
      dsimp only
      rw [canWrite_setPath child (k2 :: ks) t h]
      dsimp only
      conv_rhs => rw [setAtE, hl]

theorem flatMap_one {α β : Type} (l : List α) (f : α → β) :
    l.flatMap (fun x => [f x]) = l.map f := by
  induction l with
  | nil => rfl
  | cons x xs ih => simp [List.flatMap_cons, ih]

theorem exFold_map_pure {α : Type} (f : Nat → Json → List Entry → RpgRes) (m : α → Json)
    (g : Nat → α → List Entry) :
    ∀ (xs : List α) (i : Nat) (acc : List Entry),
    (∀ j x a, x ∈ xs → f j (m x) a = .ok (a ++ g j x)) →
    exFold f i (xs.map m) acc =
      .ok (acc ++ (List.enumFrom i xs).flatMap (fun p => g p.1 p.2))
  | [], i, acc, _ => by simp [exFold]
  | x :: xs, i, acc, h => by
    rw [List.map_cons, exFold, h i x acc (List.mem_cons_self x xs)]
    dsimp only
    rw [exFold_map_pure f m g xs (i + 1) (acc ++ g i x)
      (fun j y a hy => h j y a (List.mem_cons_of_mem x hy))]
    simp [List.enumFrom_cons, List.flatMap_cons, List.append_assoc]

theorem rpgB1Cmd_spec (fn nm : List Char) (i j k : Nat) (c : CmdSpec) (acc : List Entry)
    (hw : c.wf = true) :
    rpgB1Cmd fn (some (.str nm)) i j k (cmdJson c) acc =
      .ok (acc ++ specCmdEntries fn nm i j k c) := by
  cases c with
  | say t => rfl
  | choice cs =>
    refine Eq.trans (exFold_map_pure _ Json.str
      (fun cIdx c => [mkR (s2c "choice-" ++ fn ++ '-' :: decChars i ++ '-' :: decChars j ++
          '-' :: decChars k ++ '-' :: decChars cIdx) (some (.str c))
        (s2c "events[" ++ decChars i ++ s2c "].pages[" ++ decChars j ++
          s2c "].list[" ++ decChars k ++ s2c "].parameters[0][" ++ decChars cIdx ++ [']'])
        (s2c "Choice in Event: " ++ dispOr (some (.str nm)) (s2c "Unnamed"))])
      cs 0 acc (fun cIdx c a _ => rfl)) ?_
    have hbr : ∀ X : List Char,
        s2c "].parameters[0][" ++ X = s2c "].parameters[0]" ++ ('[' :: X) :=
      fun X => rfl
    rw [specCmdEntries, flatMap_one]
    simp only [mapPath, List.append_assoc, hbr]
  | other n =>
    obtain ⟨h1, h2⟩ : n ≠ 401 ∧ n ≠ 102 := by
      rw [CmdSpec.wf] at hw
      simpa using hw
    rw [rpgB1Cmd]
    rw [show memberE (cmdJson (.other n)) (s2c "code") acc = .ok (some (.num n)) from rfl]
    dsimp only
    rw [if_neg (show ¬(some (Json.num n) = some (Json.num 401)) by simp [h1])]
    dsimp only
    rw [if_neg (show ¬(some (Json.num n) = some (Json.num 102)) by simp [h2])]
    simp [specCmdEntries]

theorem rpgB1Page_spec (fn nm : List Char) (i j : Nat) (cmds : List CmdSpec)
    (acc : List Entry) (hw : cmds.all CmdSpec.wf = true) :
    exFold (rpgB1Cmd fn (some (.str nm)) i j) 0 (cmds.map cmdJson) acc =
      .ok (acc ++ specPageEntries fn nm i j cmds) :=
  exFold_map_pure (rpgB1Cmd fn (some (.str nm)) i j) cmdJson
    (fun k c => specCmdEntries fn nm i j k c) cmds 0 acc
    (fun k c a hc => rpgB1Cmd_spec fn nm i j k c a (List.all_eq_true.mp hw c hc))

theorem rpgB1_spec (fn : List Char) (evs : List EventSpec) (acc : List Entry)
    (hw : evs.all EventSpec.wf = true) :
    rpgB1 fn (mapJson evs) acc = .ok (acc ++ specMapEntries fn evs) := by
  refine Eq.trans (exFold_map_pure _ evJson (fun i ev => specEventEntries fn i ev)
    evs 0 acc ?_) rfl
  intro i ev a hev
  have hwev : ev.pages.all (fun pg => pg.all CmdSpec.wf) = true :=
    List.all_eq_true.mp hw ev hev
  refine Eq.trans (exFold_map_pure _ pageJson
    (fun j cmds => specPageEntries fn ev.name i j cmds) ev.pages 0 a ?_) rfl
  intro j cmds a2 hcm
  exact rpgB1Page_spec fn ev.name i j cmds a2 (List.all_eq_true.mp hwev cmds hcm)

theorem rpgExtract_map (fn : List Char) (evs : List EventSpec)
    (hw : evs.all EventSpec.wf = true) :
    rpgExtract fn (mapJson evs) = .ok (specMapEntries fn evs) := by
  rw [rpgExtract, rpgB1_spec fn evs [] hw]
  rfl

theorem parseRPGMaker_map (fn content : List Char) (evs : List EventSpec)
    (hp : Json.parseC content = some (mapJson evs))
    (hw : evs.all EventSpec.wf = true) :
    parseRPGMaker fn content = specMapEntries fn evs := by
  rw [parseRPGMaker, hp]
  dsimp only
  rw [rpgExtract_map fn evs hw]


theorem brDotF_nil (f : Nat) : brDotF f [] = [] := by
  cases f <;> rfl

theorem brDotF_cons_ne (f : Nat) (c : Char) (rest : List Char) (hne : c ≠ '[') :
    brDotF (f + 1) (c :: rest) = c :: brDotF f rest := by
  rw [brDotF.eq_def]
  split <;> simp_all

theorem takeWhile_digits_br : ∀ (ds r : List Char), ds.all isDigitCh = true →
    (ds ++ ']' :: r).takeWhile isDigitCh = ds
  | [], r, _ => by
    have hb : isDigitCh ']' = false := rfl
    simp [List.takeWhile_cons, hb]
  | d :: ds, r, h => by
    obtain ⟨hd, hds⟩ : isDigitCh d = true ∧ ds.all isDigitCh = true := by simpa using h
    simp [List.takeWhile_cons, hd, takeWhile_digits_br ds r hds]

theorem dropWhile_digits_br : ∀ (ds r : List Char), ds.all isDigitCh = true →
    (ds ++ ']' :: r).dropWhile isDigitCh = ']' :: r
  | [], r, _ => by
    have hb : isDigitCh ']' = false := rfl
    simp [List.dropWhile_cons, hb]
  | d :: ds, r, h => by
    obtain ⟨hd, hds⟩ : isDigitCh d = true ∧ ds.all isDigitCh = true := by simpa using h
    simp [List.dropWhile_cons, hd, dropWhile_digits_br ds r hds]

theorem brDotF_bracket (f : Nat) (d : Char) (ds tail : List Char)
    (hd : (d :: ds).all isDigitCh = true) :
    brDotF (f + 1) ('[' :: ((d :: ds) ++ (']' :: tail))) =
      '.' :: ((d :: ds) ++ brDotF f tail) := by
  have h1 : ((d :: ds) ++ ']' :: tail).takeWhile isDigitCh = d :: ds :=
    takeWhile_digits_br (d :: ds) tail hd
  have h2 : ((d :: ds) ++ ']' :: tail).dropWhile isDigitCh = ']' :: tail :=
    dropWhile_digits_br (d :: ds) tail hd
  calc brDotF (f + 1) ('[' :: ((d :: ds) ++ (']' :: tail)))
      = (match ((d :: ds) ++ ']' :: tail).takeWhile isDigitCh,
              ((d :: ds) ++ ']' :: tail).dropWhile isDigitCh with
         | [], _ => '[' :: brDotF f ((d :: ds) ++ ']' :: tail)
         | _ :: _, ']' :: r3 =>
           '.' :: ((d :: ds) ++ ']' :: tail).takeWhile isDigitCh ++ brDotF f r3
         | _ :: _, _ => '[' :: brDotF f ((d :: ds) ++ ']' :: tail)) := rfl
    _ = '.' :: ((d :: ds) ++ brDotF f tail) := by
        rw [h1, h2]
        rfl

theorem brDotF_plain : ∀ (pre rest : List Char) (f : Nat), '[' ∉ pre →
    brDotF (pre.length + f) (pre ++ rest) = pre ++ brDotF f rest
  | [], rest, f, _ => by simp
  | c :: pre, rest, f, h => by
    obtain ⟨h1, h2⟩ : '[' ≠ c ∧ '[' ∉ pre := by
      simpa [List.mem_cons, not_or] using h
    have hlen : (c :: pre).length + f = (pre.length + f) + 1 := by
      simp [List.length_cons]
      omega
    rw [List.cons_append, hlen,
      brDotF_cons_ne (pre.length + f) c (pre ++ rest) (fun he => h1 he.symm),
      brDotF_plain pre rest f h2]
    rfl

theorem brDotF_plain_sub (pre rest : List Char) (g : Nat) (h : '[' ∉ pre)
    (hg : pre.length ≤ g) :
    brDotF g (pre ++ rest) = pre ++ brDotF (g - pre.length) rest := by
  have he : g = pre.length + (g - pre.length) := by omega
  conv_lhs => rw [he]
  exact brDotF_plain pre rest (g - pre.length) h

theorem brDotF_bracket_sub (g : Nat) (d : Char) (ds tail : List Char) (hg : 1 ≤ g)
    (hd : (d :: ds).all isDigitCh = true) :
    brDotF g ('[' :: ((d :: ds) ++ (']' :: tail))) =
      '.' :: ((d :: ds) ++ brDotF (g - 1) tail) := by
  obtain ⟨f, rfl⟩ : ∃ f, g = f + 1 := ⟨g - 1, by omega⟩
  rw [Nat.add_sub_cancel]
  exact brDotF_bracket f d ds tail hd

theorem decChars_no_dot (n : Nat) : '.' ∉ decChars n := by
  intro hm
  have hall := List.all_eq_true.mp (decDigits_all_digits (n + 1) n) '.' hm
  exact absurd hall (by decide)

theorem brDot_mapPath (i j k : Nat) :
    brDot (mapPath i j k) = s2c "events" ++ ('.' :: (decChars i ++ ('.' :: (s2c "pages" ++ ('.' :: (decChars j ++ ('.' :: (s2c "list" ++ ('.' :: (decChars k ++ ('.' :: (s2c "parameters" ++ ('.' :: (['0'] : List Char)))))))))))))) := by
  cases hI : decChars i with
  | nil => exact absurd hI (decChars_ne_nil i)
  | cons d1 I1 =>
  cases hJ : decChars j with
  | nil => exact absurd hJ (decChars_ne_nil j)
  | cons d2 J1 =>
  cases hK : decChars k with
  | nil => exact absurd hK (decChars_ne_nil k)
  | cons d3 K1 =>
  have hIa : (d1 :: I1).all isDigitCh = true := by
    rw [← hI]
    exact decDigits_all_digits (i + 1) i
  have hJa : (d2 :: J1).all isDigitCh = true := by
    rw [← hJ]
    exact decDigits_all_digits (j + 1) j
  have hKa : (d3 :: K1).all isDigitCh = true := by
    rw [← hK]
    exact decDigits_all_digits (k + 1) k
  have len1 : (s2c "events").length = 6 := rfl
  have len2 : (s2c ".pages").length = 6 := rfl
  have len3 : (s2c ".list").length = 5 := rfl
  have len4 : (s2c ".parameters").length = 11 := rfl
  rw [brDot]
  rw [show mapPath i j k =
    s2c "events[" ++ (decChars i ++ (s2c "].pages[" ++ (decChars j ++
      (s2c "].list[" ++ (decChars k ++ s2c "].parameters[0]"))))) from by
        simp [mapPath, List.append_assoc]]
  rw [show ∀ X : List Char, s2c "events[" ++ X = s2c "events" ++ ('[' :: X) from
    fun _ => rfl]
  rw [show ∀ X : List Char,
    s2c "].pages[" ++ X = ']' :: (s2c ".pages" ++ ('[' :: X)) from fun _ => rfl]
  rw [show ∀ X : List Char,
    s2c "].list[" ++ X = ']' :: (s2c ".list" ++ ('[' :: X)) from fun _ => rfl]
  rw [show s2c "].parameters[0]" =
    ']' :: (s2c ".parameters" ++ ('[' :: (('0' :: ([] : List Char)) ++
      (']' :: ([] : List Char))))) from rfl]
  rw [hI, hJ, hK]
  rw [brDotF_plain_sub (s2c "events")]
  rw [brDotF_bracket_sub]
  rw [brDotF_plain_sub (s2c ".pages")]
  rw [brDotF_bracket_sub]
  rw [brDotF_plain_sub (s2c ".list")]
  rw [brDotF_bracket_sub]
  rw [brDotF_plain_sub (s2c ".parameters")]
  rw [brDotF_bracket_sub]
  rw [brDotF_nil]
  · rfl
  all_goals first
    | exact hIa
    | exact hJa
    | exact hKa
    | decide
    | (simp only [List.length_append, List.length_cons, len1, len2, len3, len4]
       omega)

theorem splitDot_dot (rest : List Char) : splitDot ('.' :: rest) = [] :: splitDot rest :=
  rfl

theorem splitDot_cons_ne (c : Char) (rest : List Char) (hne : c ≠ '.') :
    splitDot (c :: rest) = consHead c (splitDot rest) := by
  rw [splitDot.eq_def]
  split <;> simp_all

theorem splitDot_nodot_append :
    ∀ (pre rest hd : List Char) (tl : List (List Char)), '.' ∉ pre →
    splitDot rest = hd :: tl → splitDot (pre ++ rest) = (pre ++ hd) :: tl
  | [], rest, hd, tl, _, h => by simpa using h
  | c :: pre, rest, hd, tl, hp, h => by
    obtain ⟨h1, h2⟩ : '.' ≠ c ∧ '.' ∉ pre := by
      simpa [List.mem_cons, not_or] using hp
    rw [List.cons_append, splitDot_cons_ne c (pre ++ rest) (fun he => h1 he.symm),
      splitDot_nodot_append pre rest hd tl h2 h]
    rfl

theorem segs_mapPath (i j k : Nat) : segs (mapPath i j k) = segsMap i j k := by
  have g7 : splitDot (s2c "parameters" ++ ('.' :: (['0'] : List Char))) = (s2c "parameters" ++ []) :: [['0']] :=
    splitDot_nodot_append (s2c "parameters") ('.' :: (['0'] : List Char)) [] [['0']]
      (by decide) rfl
  have g6 : splitDot (decChars k ++ ('.' :: (s2c "parameters" ++ ('.' :: (['0'] : List Char))))) =
      (decChars k ++ []) :: ((s2c "parameters" ++ []) :: [['0']]) :=
    splitDot_nodot_append (decChars k) ('.' :: (s2c "parameters" ++ ('.' :: (['0'] : List Char)))) [] _ (decChars_no_dot k)
      (by rw [splitDot_dot, g7])
  have g5 : splitDot (s2c "list" ++ ('.' :: (decChars k ++ ('.' :: (s2c "parameters" ++ ('.' :: (['0'] : List Char))))))) =
      (s2c "list" ++ []) :: ((decChars k ++ []) :: ((s2c "parameters" ++ []) :: [['0']])) :=
    splitDot_nodot_append (s2c "list") ('.' :: (decChars k ++ ('.' :: (s2c "parameters" ++ ('.' :: (['0'] : List Char)))))) [] _ (by decide)
      (by rw [splitDot_dot, g6])
  have g4 : splitDot (decChars j ++ ('.' :: (s2c "list" ++ ('.' :: (decChars k ++ ('.' :: (s2c "parameters" ++ ('.' :: (['0'] : List Char))))))))) =
      (decChars j ++ []) :: ((s2c "list" ++ []) :: ((decChars k ++ []) ::
        ((s2c "parameters" ++ []) :: [['0']]))) :=
    splitDot_nodot_append (decChars j) ('.' :: (s2c "list" ++ ('.' :: (decChars k ++ ('.' :: (s2c "parameters" ++ ('.' :: (['0'] : List Char)))))))) [] _ (decChars_no_dot j)
      (by rw [splitDot_dot, g5])
  have g3 : splitDot (s2c "pages" ++ ('.' :: (decChars j ++ ('.' :: (s2c "list" ++ ('.' :: (decChars k ++ ('.' :: (s2c "parameters" ++ ('.' :: (['0'] : List Char))))))))))) =
      (s2c "pages" ++ []) :: ((decChars j ++ []) :: ((s2c "list" ++ []) ::
        ((decChars k ++ []) :: ((s2c "parameters" ++ []) :: [['0']])))) :=
    splitDot_nodot_append (s2c "pages") ('.' :: (decChars j ++ ('.' :: (s2c "list" ++ ('.' :: (decChars k ++ ('.' :: (s2c "parameters" ++ ('.' :: (['0'] : List Char)))))))))) [] _ (by decide)
      (by rw [splitDot_dot, g4])
  have g2 : splitDot (decChars i ++ ('.' :: (s2c "pages" ++ ('.' :: (decChars j ++ ('.' :: (s2c "list" ++ ('.' :: (decChars k ++ ('.' :: (s2c "parameters" ++ ('.' :: (['0'] : List Char))))))))))))) =
      (decChars i ++ []) :: ((s2c "pages" ++ []) :: ((decChars j ++ []) ::
        ((s2c "list" ++ []) :: ((decChars k ++ []) ::
          ((s2c "parameters" ++ []) :: [['0']]))))) :=
    splitDot_nodot_append (decChars i) ('.' :: (s2c "pages" ++ ('.' :: (decChars j ++ ('.' :: (s2c "list" ++ ('.' :: (decChars k ++ ('.' :: (s2c "parameters" ++ ('.' :: (['0'] : List Char)))))))))))) [] _ (decChars_no_dot i)
      (by rw [splitDot_dot, g3])
  have g1 : splitDot (s2c "events" ++ ('.' :: (decChars i ++ ('.' :: (s2c "pages" ++ ('.' :: (decChars j ++ ('.' :: (s2c "list" ++ ('.' :: (decChars k ++ ('.' :: (s2c "parameters" ++ ('.' :: (['0'] : List Char))))))))))))))) =
      (s2c "events" ++ []) :: ((decChars i ++ []) :: ((s2c "pages" ++ []) ::
        ((decChars j ++ []) :: ((s2c "list" ++ []) :: ((decChars k ++ []) ::
          ((s2c "parameters" ++ []) :: [['0']])))))) :=
    splitDot_nodot_append (s2c "events") ('.' :: (decChars i ++ ('.' :: (s2c "pages" ++ ('.' :: (decChars j ++ ('.' :: (s2c "list" ++ ('.' :: (decChars k ++ ('.' :: (s2c "parameters" ++ ('.' :: (['0'] : List Char)))))))))))))) [] _ (by decide)
      (by rw [splitDot_dot, g2])
  rw [segs, brDot_mapPath, g1, segsMap]
  simp [List.append_nil]

theorem getPath_cons (v : Json) (k : List Char) (ks : List (List Char)) :
    getPath v (k :: ks) =
      (match v.look k with
       | some c => getPath c ks
       | none => none) := rfl

theorem get?_map_some {α β : Type} (f : α → β) : ∀ (l : List α) (i : Nat) (x : α),
    l.get? i = some x → (l.map f).get? i = some (f x)
  | [], i, x, h => by simp at h
  | a :: l, 0, x, h => by
    simp at h
    simp [h]
  | a :: l, i + 1, x, h => by
    rw [List.map_cons]
    exact get?_map_some f l i x h

theorem look_arr_dec (xs : List Json) (n : Nat) :
    (Json.arr xs).look (decChars n) = xs.get? n := by
  rw [show (Json.arr xs).look (decChars n) =
      (match keyIdx (decChars n) with
       | some i => xs.get? i
       | none => none) from rfl,
    keyIdx_decChars]

theorem getPath_mapJson (evs : List EventSpec) (i j k : Nat) (ev : EventSpec)
    (cmds : List CmdSpec) (txt : List Char)
    (hi : evs.get? i = some ev) (hj : ev.pages.get? j = some cmds)
    (hk : cmds.get? k = some (.say txt)) :
    getPath (mapJson evs) (segsMap i j k) = some (.str txt) := by
  rw [segsMap]
  rw [getPath_cons, show (mapJson evs).look (s2c "events") =
    some (.arr (evs.map evJson)) from rfl]
  dsimp only
  rw [getPath_cons, look_arr_dec, get?_map_some evJson evs i ev hi]
  dsimp only
  rw [getPath_cons, show (evJson ev).look (s2c "pages") =
    some (.arr (ev.pages.map pageJson)) from rfl]
  dsimp only
  rw [getPath_cons, look_arr_dec, get?_map_some pageJson ev.pages j cmds hj]
  dsimp only
  rw [getPath_cons, show (pageJson cmds).look (s2c "list") =
    some (.arr (cmds.map cmdJson)) from rfl]
  dsimp only
  rw [getPath_cons, look_arr_dec, get?_map_some cmdJson cmds k (.say txt) hk]
  dsimp only
  rw [getPath_cons, show (cmdJson (.say txt)).look (s2c "parameters") =
    some (.arr [.str txt]) from rfl]
  dsimp only
  rw [getPath_cons, show (Json.arr [Json.str txt]).look ['0'] =
    some (.str txt) from rfl]
  rfl

theorem canWrite_mapJson (evs : List EventSpec) (i j k : Nat) (ev : EventSpec)
    (cmds : List CmdSpec) (txt : List Char)
    (hi : evs.get? i = some ev) (hj : ev.pages.get? j = some cmds)
    (hk : cmds.get? k = some (.say txt)) :
    canWrite (mapJson evs) (segsMap i j k) = true := by
  rw [segsMap]
  rw [canWrite_cons2_eq, show (mapJson evs).look (s2c "events") =
    some (.arr (evs.map evJson)) from rfl]
  dsimp only
  rw [canWrite_cons2_eq, look_arr_dec, get?_map_some evJson evs i ev hi]
  dsimp only
  rw [canWrite_cons2_eq, show (evJson ev).look (s2c "pages") =
    some (.arr (ev.pages.map pageJson)) from rfl]
  dsimp only
  rw [canWrite_cons2_eq, look_arr_dec, get?_map_some pageJson ev.pages j cmds hj]
  dsimp only
  rw [canWrite_cons2_eq, show (pageJson cmds).look (s2c "list") =
    some (.arr (cmds.map cmdJson)) from rfl]
  dsimp only
  rw [canWrite_cons2_eq, look_arr_dec, get?_map_some cmdJson cmds k (.say txt) hk]
  dsimp only
  rw [canWrite_cons2_eq, show (cmdJson (.say txt)).look (s2c "parameters") =
    some (.arr [.str txt]) from rfl]
  dsimp only
  rw [canWrite_one_eq]
  rfl

/-- Claim C5: for a map JSON with an `events` array (any list of events,
each a name plus pages of command lists), extraction yields exactly the
promised entries: one entry per code-401 command whose original is the first
parameter string and whose path addresses
`events[i].pages[j].list[k].parameters[0]`, one entry per option string of a
code-102 command, nothing for other codes; and filling in `translated` on a
code-401 entry and reinjecting rewrites exactly that addressed parameter to
the translation (every path that is neither a prefix nor an extension of the
addressed one reads unchanged). -/
theorem C5_confirmed (fn content : List Char) (evs : List EventSpec)
    (hp : Json.parseC content = some (mapJson evs))
    (hw : evs.all EventSpec.wf = true) :
    parseRPGMaker fn content = specMapEntries fn evs ∧
    (∀ (i j k : Nat) (ev : EventSpec) (cmds : List CmdSpec) (txt : List Char),
      evs.get? i = some ev → ev.pages.get? j = some cmds →
      cmds.get? k = some (.say txt) →
      getPath (mapJson evs) (segsMap i j k) = some (.str txt) ∧
      (∀ (e : Entry) (tr : List Char), e.path = mapPath i j k →
        e.translated = tr → tr ≠ [] →
        applyTranslations content [e] .rpgmaker =
          Json.stringifyC (setAtE (mapJson evs) (segsMap i j k) (.str tr)) ∧
        getPath (setAtE (mapJson evs) (segsMap i j k) (.str tr))
          (segsMap i j k) = some (.str tr) ∧
        (∀ q : List (List Char), (∀ r, q ≠ segsMap i j k ++ r) →
          (∀ r, segsMap i j k ≠ q ++ r) →
          getPath (setAtE (mapJson evs) (segsMap i j k) (.str tr)) q =
            getPath (mapJson evs) q))) := by
  refine ⟨parseRPGMaker_map fn content evs hp hw, ?_⟩
  intro i j k ev cmds txt hi hj hk
  have hget := getPath_mapJson evs i j k ev cmds txt hi hj hk
  refine ⟨hget, ?_⟩
  intro e tr hpath htr htrne
  have hcw := canWrite_mapJson evs i j k ev cmds txt hi hj hk
  have hset : setPath (mapJson evs) (segsMap i j k) tr =
      some (setAtE (mapJson evs) (segsMap i j k) (.str tr)) :=
    canWrite_setPath _ _ _ hcw
  refine ⟨?_, getPath_setAtE_same (mapJson evs) (segsMap i j k) (.str tr) (.str txt) hget,
    fun q h1 h2 => getPath_setAtE_frame (mapJson evs) (segsMap i j k) (.str tr) q h1 h2⟩
  rw [applyTranslations_json_red content [e] .rpgmaker (Or.inl rfl), hp]
  dsimp only
  rw [show goEntries [e] (mapJson evs) =
      (match stepEntry e (mapJson evs) with
       | none => none
       | some v2 => goEntries [] v2) from rfl]
  rw [stepEntry, htr,
    if_neg (show ¬(tr.isEmpty = true) from fun hh => htrne (by simpa using hh)),
    hpath, segs_mapPath, hset]
  rfl

set_option maxRecDepth 100000 in
theorem C5_confirmed_witness :
    parseRPGMaker (s2c "Map1") c5mapContent = specMapEntries (s2c "Map1") c5mapEvs ∧
    applyTranslations c5mapContent [c5mapEntry] .rpgmaker =
      Json.stringifyC (setAtE (mapJson c5mapEvs) (segsMap 0 0 0)
        (.str (s2c "Bonjour"))) := by
  have h := C5_confirmed (s2c "Map1") c5mapContent c5mapEvs rfl rfl
  refine ⟨h.1, ?_⟩
  have h3 := h.2 0 0 0
    (⟨s2c "Hero", [[CmdSpec.say (s2c "Hello"), CmdSpec.other 0],
      [CmdSpec.choice [s2c "Yes", s2c "No"]]]⟩ : EventSpec)
    [CmdSpec.say (s2c "Hello"), CmdSpec.other 0] (s2c "Hello") rfl rfl rfl
  exact (h3.2 c5mapEntry (s2c "Bonjour") rfl rfl (by decide)).1

theorem skipWs_cons_nonws (c : Char) (cs : List Char) (h : isJsonWS c = false) :
    skipWs (c :: cs) = c :: cs := by
  rw [skipWs, List.dropWhile_cons, h]
  simp

theorem skipWs_sp (ind cs : List Char) (h : allSp ind = true) :
    skipWs (ind ++ cs) = skipWs cs := by
  induction ind with
  | nil => rfl
  | cons c ind ih =>
    obtain ⟨hc, hind⟩ : c = ' ' ∧ allSp ind = true := by simpa [allSp] using h
    subst hc
    rw [List.cons_append, show skipWs (' ' :: (ind ++ cs)) = skipWs (ind ++ cs) from rfl]
    exact ih hind

theorem skipWs_nl (cs : List Char) : skipWs ('\n' :: cs) = skipWs cs := rfl

theorem char_beq_false (d e : Char) (hne : d.toNat ≠ e.toNat) : (d == e) = false := by
  rw [beq_eq_false_iff_ne]
  intro he
  exact hne (he ▸ rfl)

theorem nonws_of_digit (d : Char) (h : isDigitCh d = true) : isJsonWS d = false := by
  obtain ⟨h1, h2⟩ := isDigitCh_toNat h
  have e1 : (' ').toNat = 32 := rfl
  have e2 : ('\t').toNat = 9 := rfl
  have e3 : ('\n').toNat = 10 := rfl
  have e4 : ('\r').toNat = 13 := rfl
  rw [isJsonWS,
    char_beq_false d ' ' (by rw [e1]; omega),
    char_beq_false d '\t' (by rw [e2]; omega),
    char_beq_false d '\n' (by rw [e3]; omega),
    char_beq_false d '\r' (by rw [e4]; omega)]
  rfl

theorem skipWs_render (v : Json) (ind X : List Char) :
    skipWs (render v ind ++ X) = render v ind ++ X := by
  cases v with
  | null => rfl
  | bool b => cases b <;> rfl
  | str s => rfl
  | arr xs => cases xs <;> rfl
  | obj fs => cases fs <;> rfl
  | num n =>
    cases n with
    | ofNat m =>
      rw [show render (Json.num (Int.ofNat m)) ind = decChars m from rfl]
      cases hdc : decChars m with
      | nil => exact absurd hdc (decChars_ne_nil m)
      | cons d ds =>
        have hdd : isDigitCh d = true := by
          have hall := decDigits_all_digits (m + 1) m
          rw [show decDigits (m + 1) m = decChars m from rfl, hdc] at hall
          simp at hall
          exact hall.1
        rw [List.cons_append]
        exact skipWs_cons_nonws d (ds ++ X) (nonws_of_digit d hdd)
    | negSucc m => rfl

theorem stopC_head (c : Char) (r : List Char) (h : stopC (c :: r) = true) :
    isDigitCh c = false ∧ c ≠ '.' ∧ c ≠ 'e' ∧ c ≠ 'E' ∧ c ≠ '-' := by
  have hc : ((c = ',' ∨ c = ']') ∨ c = '\x7d') ∨ c = '\n' := by simpa [stopC] using h
  rcases hc with ((h | h) | h) | h <;> subst h <;>
    exact ⟨by decide, by decide, by decide, by decide, by decide⟩

theorem takeWhile_digits_stop : ∀ (ds rest : List Char), ds.all isDigitCh = true →
    stopC rest = true →
    (ds ++ rest).takeWhile isDigitCh = ds ∧ (ds ++ rest).dropWhile isDigitCh = rest
  | [], rest, _, hr => by
    cases rest with
    | nil => exact ⟨rfl, rfl⟩
    | cons c r =>
      have hnd := (stopC_head c r hr).1
      constructor
      · simp [List.takeWhile_cons, hnd]
      · simp [List.dropWhile_cons, hnd]
  | d :: ds, rest, h, hr => by
    obtain ⟨hd, hds⟩ : isDigitCh d = true ∧ ds.all isDigitCh = true := by simpa using h
    obtain ⟨ih1, ih2⟩ := takeWhile_digits_stop ds rest hds hr
    constructor
    · simp [List.takeWhile_cons, hd, ih1]
    · simp [List.dropWhile_cons, hd, ih2]

theorem parseNumBody_dec (m : Nat) (rest : List Char) (h : stopC rest = true) :
    parseNumBody (decChars m ++ rest) = some (m, rest) := by
  have hall : (decChars m).all isDigitCh = true := decDigits_all_digits (m + 1) m
  obtain ⟨htw, hdw⟩ := takeWhile_digits_stop (decChars m) rest hall h
  rw [parseNumBody, htw, hdw]
  by_cases hm : m = 0
  · subst hm
    rw [show decChars 0 = ['0'] from rfl]
    rfl
  · cases hdc : decChars m with
    | nil => exact absurd hdc (decChars_ne_nil m)
    | cons d ds =>
      have hd0 : d ≠ '0' := by
        intro he
        subst he
        exact decDigits_head_ne0 (m + 1) m (by omega) (by omega) ds
          (by rw [← hdc]; rfl)
      have hval : valDigits (d :: ds) = m := by rw [← hdc]; exact decChars_val m
      split
      · simp_all
      · simp_all
      · simp_all
      · rename_i r6 a5 a4 f3 f2 f1
        cases r6 with
        | nil => simpa using hval
        | cons c r =>
          have hc2 : ((c = ',' ∨ c = ']') ∨ c = '\x7d') ∨ c = '\n' := by
            simpa [stopC] using h
          rcases hc2 with ((hc2 | hc2) | hc2) | hc2 <;> subst hc2 <;> simpa using hval

theorem parseNum_rt (n : Int) (rest : List Char) (h : stopC rest = true) :
    parseNum (intRepr n ++ rest) = some (n, rest) := by
  cases n with
  | ofNat m =>
    rw [show intRepr (Int.ofNat m) = decChars m from rfl]
    cases hdc : decChars m with
    | nil => exact absurd hdc (decChars_ne_nil m)
    | cons d ds =>
      have hdd : isDigitCh d = true := by
        have hall := decDigits_all_digits (m + 1) m
        rw [show decDigits (m + 1) m = decChars m from rfl, hdc] at hall
        simp at hall
        exact hall.1
      have hdne : d ≠ '-' := by
        intro he
        subst he
        exact absurd hdd (by decide)
      rw [List.cons_append, parseNum.eq_def]
      split
      · simp_all
      · rw [← List.cons_append, ← hdc, parseNumBody_dec m rest h]
        rfl
  | negSucc m =>
    rw [show intRepr (Int.negSucc m) ++ rest = '-' :: (decChars (m + 1) ++ rest) from by
      rw [intRepr]; rfl]
    rw [show parseNum ('-' :: (decChars (m + 1) ++ rest)) =
      (match parseNumBody (decChars (m + 1) ++ rest) with
       | some (n, r2) => some (-(n : Int), r2)
       | none => none) from rfl]
    rw [parseNumBody_dec (m + 1) rest h]
    simp only [Option.some.injEq, Prod.mk.injEq]
    refine ⟨?_, trivial⟩
    rw [Int.negSucc_eq]
    push_cast
    ring

theorem parseStr_plain (f : Nat) (c : Char) (cs : List Char) (h1 : c ≠ '"')
    (h2 : c ≠ '\\') :
    parseStr (f + 1) (c :: cs) =
      (if c.toNat < 32 then none
       else
         match parseStr f cs with
         | some (s, r2) => some (c :: s, r2)
         | none => none) := by
  rw [parseStr.eq_def]
  split <;> simp_all

theorem parseStr_rt : ∀ (s rest : List Char) (f : Nat), s.all okCh = true →
    ((s.map escCh).flatten).length < f →
    parseStr f ((s.map escCh).flatten ++ '"' :: rest) = some (s, rest)
  | [], rest, f, _, hf => by
    obtain ⟨g, rfl⟩ : ∃ g, f = g + 1 := ⟨f - 1, by omega⟩
    rfl
  | c :: s, rest, f, h, hf => by
    obtain ⟨hc, hs⟩ : okCh c = true ∧ s.all okCh = true := by simpa using h
    rw [List.map_cons, List.flatten_cons] at hf ⊢
    by_cases hq : c = '"'
    · subst hq
      rw [show escCh '"' = ['\\', '"'] from rfl] at hf ⊢
      rw [List.length_append, List.length_cons, List.length_cons, List.length_nil] at hf
      obtain ⟨g, rfl⟩ : ∃ g, f = g + 1 := ⟨f - 1, by omega⟩
      rw [List.append_assoc,
        show (['\\', '"'] : List Char) ++ ((s.map escCh).flatten ++ '"' :: rest) =
          '\\' :: '"' :: ((s.map escCh).flatten ++ '"' :: rest) from rfl,
        show parseStr (g + 1) ('\\' :: '"' :: ((s.map escCh).flatten ++ '"' :: rest)) =
          (match parseStr g ((s.map escCh).flatten ++ '"' :: rest) with
           | some (s2, r3) => some ('"' :: s2, r3)
           | none => none) from rfl,
        parseStr_rt s rest g hs (by omega)]
    · by_cases hbs : c = '\\'
      · subst hbs
        rw [show escCh '\\' = ['\\', '\\'] from rfl] at hf ⊢
        rw [List.length_append, List.length_cons, List.length_cons, List.length_nil] at hf
        obtain ⟨g, rfl⟩ : ∃ g, f = g + 1 := ⟨f - 1, by omega⟩
        rw [List.append_assoc,
          show (['\\', '\\'] : List Char) ++ ((s.map escCh).flatten ++ '"' :: rest) =
            '\\' :: '\\' :: ((s.map escCh).flatten ++ '"' :: rest) from rfl,
          show parseStr (g + 1) ('\\' :: '\\' :: ((s.map escCh).flatten ++ '"' :: rest)) =
            (match parseStr g ((s.map escCh).flatten ++ '"' :: rest) with
             | some (s2, r3) => some ('\\' :: s2, r3)
             | none => none) from rfl,
          parseStr_rt s rest g hs (by omega)]
      · by_cases hb : c = '\x08'
        · subst hb
          rw [show escCh '\x08' = ['\\', 'b'] from rfl] at hf ⊢
          rw [List.length_append, List.length_cons, List.length_cons, List.length_nil] at hf
          obtain ⟨g, rfl⟩ : ∃ g, f = g + 1 := ⟨f - 1, by omega⟩
          rw [List.append_assoc,
            show (['\\', 'b'] : List Char) ++ ((s.map escCh).flatten ++ '"' :: rest) =
              '\\' :: 'b' :: ((s.map escCh).flatten ++ '"' :: rest) from rfl,
            show parseStr (g + 1) ('\\' :: 'b' :: ((s.map escCh).flatten ++ '"' :: rest)) =
              (match parseStr g ((s.map escCh).flatten ++ '"' :: rest) with
               | some (s2, r3) => some ('\x08' :: s2, r3)
               | none => none) from rfl,
            parseStr_rt s rest g hs (by omega)]
        · by_cases hfc : c = '\x0c'
          · subst hfc
            rw [show escCh '\x0c' = ['\\', 'f'] from rfl] at hf ⊢
            rw [List.length_append, List.length_cons, List.length_cons,
              List.length_nil] at hf
            obtain ⟨g, rfl⟩ : ∃ g, f = g + 1 := ⟨f - 1, by omega⟩
            rw [List.append_assoc,
              show (['\\', 'f'] : List Char) ++ ((s.map escCh).flatten ++ '"' :: rest) =
                '\\' :: 'f' :: ((s.map escCh).flatten ++ '"' :: rest) from rfl,
              show parseStr (g + 1) ('\\' :: 'f' :: ((s.map escCh).flatten ++ '"' :: rest)) =
                (match parseStr g ((s.map escCh).flatten ++ '"' :: rest) with
                 | some (s2, r3) => some ('\x0c' :: s2, r3)
                 | none => none) from rfl,
              parseStr_rt s rest g hs (by omega)]
          · by_cases hn : c = '\n'
            · subst hn
              rw [show escCh '\n' = ['\\', 'n'] from rfl] at hf ⊢
              rw [List.length_append, List.length_cons, List.length_cons,
                List.length_nil] at hf
              obtain ⟨g, rfl⟩ : ∃ g, f = g + 1 := ⟨f - 1, by omega⟩
              rw [List.append_assoc,
                show (['\\', 'n'] : List Char) ++ ((s.map escCh).flatten ++ '"' :: rest) =
                  '\\' :: 'n' :: ((s.map escCh).flatten ++ '"' :: rest) from rfl,
                show parseStr (g + 1)
                    ('\\' :: 'n' :: ((s.map escCh).flatten ++ '"' :: rest)) =
                  (match parseStr g ((s.map escCh).flatten ++ '"' :: rest) with
                   | some (s2, r3) => some ('\n' :: s2, r3)
                   | none => none) from rfl,
                parseStr_rt s rest g hs (by omega)]
            · by_cases hr : c = '\r'
              · subst hr
                rw [show escCh '\r' = ['\\', 'r'] from rfl] at hf ⊢
                rw [List.length_append, List.length_cons, List.length_cons,
                  List.length_nil] at hf
                obtain ⟨g, rfl⟩ : ∃ g, f = g + 1 := ⟨f - 1, by omega⟩
                rw [List.append_assoc,
                  show (['\\', 'r'] : List Char) ++ ((s.map escCh).flatten ++ '"' :: rest) =
                    '\\' :: 'r' :: ((s.map escCh).flatten ++ '"' :: rest) from rfl,
                  show parseStr (g + 1)
                      ('\\' :: 'r' :: ((s.map escCh).flatten ++ '"' :: rest)) =
                    (match parseStr g ((s.map escCh).flatten ++ '"' :: rest) with
                     | some (s2, r3) => some ('\r' :: s2, r3)
                     | none => none) from rfl,
                  parseStr_rt s rest g hs (by omega)]
              · by_cases ht : c = '\t'
                · subst ht
                  rw [show escCh '\t' = ['\\', 't'] from rfl] at hf ⊢
                  rw [List.length_append, List.length_cons, List.length_cons,
                    List.length_nil] at hf
                  obtain ⟨g, rfl⟩ : ∃ g, f = g + 1 := ⟨f - 1, by omega⟩
                  rw [List.append_assoc,
                    show (['\\', 't'] : List Char) ++
                        ((s.map escCh).flatten ++ '"' :: rest) =
                      '\\' :: 't' :: ((s.map escCh).flatten ++ '"' :: rest) from rfl,
                    show parseStr (g + 1)
                        ('\\' :: 't' :: ((s.map escCh).flatten ++ '"' :: rest)) =
                      (match parseStr g ((s.map escCh).flatten ++ '"' :: rest) with
                       | some (s2, r3) => some ('\t' :: s2, r3)
                       | none => none) from rfl,
                    parseStr_rt s rest g hs (by omega)]
                · have h32 : 32 ≤ c.toNat := by
                    rw [okCh] at hc
                    simp only [Bool.or_eq_true, decide_eq_true_eq, or_assoc] at hc
                    tauto
                  have hesc : escCh c = [c] := by
                    rw [escCh, if_neg hq, if_neg hbs, if_neg hb, if_neg hfc,
                      if_neg hn, if_neg hr, if_neg ht, if_neg (by omega)]
                  rw [hesc] at hf ⊢
                  simp only [List.length_append, List.length_cons, List.length_nil] at hf
                  obtain ⟨g, rfl⟩ : ∃ g, f = g + 1 := ⟨f - 1, by omega⟩
                  rw [show ([c] : List Char) ++ (s.map escCh).flatten ++ '"' :: rest =
                    c :: ((s.map escCh).flatten ++ '"' :: rest) from by simp]
                  rw [parseStr_plain g c _ hq hbs, if_neg (by omega),
                    parseStr_rt s rest g hs (by omega)]

theorem stopC_itemsTail (xs : List Json) (ind ind0 rest : List Char) :
    stopC (itemsTail xs ind ind0 rest) = true := by
  cases xs <;> rfl

theorem stopC_fieldsTail (fs : List (List Char × Json)) (ind ind0 rest : List Char) :
    stopC (fieldsTail fs ind ind0 rest) = true := by
  cases fs with
  | nil => rfl
  | cons p gs => cases p; rfl

theorem renderItems_tail : ∀ (x : Json) (xs : List Json) (ind ind0 rest : List Char),
    renderItems (x :: xs) ind ++ ('\n' :: (ind0 ++ (']' :: rest))) =
      ind ++ (render x ind ++ itemsTail xs ind ind0 rest)
  | x, [], ind, ind0, rest => by
    simp only [renderItems, itemsTail, List.append_assoc]
  | x, y :: ys, ind, ind0, rest => by
    simp only [renderItems, itemsTail, List.append_assoc, List.cons_append]
    rw [renderItems_tail y ys ind ind0 rest]

theorem renderFields_tail : ∀ (k : List Char) (v : Json)
    (fs : List (List Char × Json)) (ind ind0 rest : List Char),
    renderFields ((k, v) :: fs) ind ++ ('\n' :: (ind0 ++ ('\x7d' :: rest))) =
      ind ++ (escStr k ++ ':' :: ' ' :: (render v ind ++ fieldsTail fs ind ind0 rest))
  | k, v, [], ind, ind0, rest => by
    simp only [renderFields, fieldsTail, List.append_assoc, List.cons_append]
  | k, v, (k2, v2) :: gs, ind, ind0, rest => by
    simp only [renderFields, fieldsTail, List.append_assoc, List.cons_append]
    rw [renderFields_tail k2 v2 gs ind ind0 rest]

theorem digit_ne_lit (d e : Char) (hd : isDigitCh d = true) (he : isDigitCh e = false) :
    d ≠ e := by
  intro h
  subst h
  rw [hd] at he
  exact Bool.noConfusion he

theorem render_head (v : Json) (ind : List Char) :
    ∃ c cs', render v ind = c :: cs' ∧ c ≠ ']' ∧ c ≠ '\x7d' := by
  cases v with
  | null => exact ⟨'n', _, rfl, by decide, by decide⟩
  | bool b => cases b
               <;> exact ⟨_, _, rfl, by decide, by decide⟩
  | str s => exact ⟨'"', _, rfl, by decide, by decide⟩
  | arr xs => cases xs <;> exact ⟨'[', _, rfl, by decide, by decide⟩
  | obj fs => cases fs <;> exact ⟨'\x7b', _, rfl, by decide, by decide⟩
  | num n =>
    cases n with
    | ofNat m =>
      cases hdc : decChars m with
      | nil => exact absurd hdc (decChars_ne_nil m)
      | cons d ds =>
        have hdd : isDigitCh d = true := by
          have hall := decDigits_all_digits (m + 1) m
          rw [show decDigits (m + 1) m = decChars m from rfl, hdc] at hall
          simp at hall
          exact hall.1
        refine ⟨d, ds, ?_, digit_ne_lit d ']' hdd (by decide),
          digit_ne_lit d '\x7d' hdd (by decide)⟩
        rw [show render (Json.num (Int.ofNat m)) ind = decChars m from rfl, hdc]
    | negSucc m => exact ⟨'-', _, rfl, by decide, by decide⟩

theorem szV_pos : ∀ v : Json, 1 ≤ szV v := by
  intro v
  cases v <;> simp [szV]

theorem szL_pos : ∀ xs : List Json, 1 ≤ szL xs := by
  intro xs
  cases xs <;> simp [szL] <;> omega

theorem szF_pos : ∀ fs : List (List Char × Json), 1 ≤ szF fs := by
  intro fs
  cases fs with
  | nil => simp [szF]
  | cons p gs =>
    cases p
    simp [szF]
    omega

mutual

theorem szV_le : ∀ (v : Json) (ind : List Char), szV v ≤ (render v ind).length
  | .null, ind => by simp [szV, render]
  | .bool true, ind => by simp [szV, render]
  | .bool false, ind => by simp [szV, render]
  | .num n, ind => by
    have : 1 ≤ (intRepr n).length := by
      cases n with
      | ofNat m =>
        cases hdc : decChars m with
        | nil => exact absurd hdc (decChars_ne_nil m)
        | cons d ds => simp [intRepr, hdc]
      | negSucc m => simp [intRepr]
    simpa [szV, render] using this
  | .str s, ind => by simp [szV, render, escStr]
  | .arr [], ind => by simp [szV, szL, render]
  | .arr (x :: xs), ind => by
    have h := szL_le (x :: xs) (' ' :: ' ' :: ind)
    simp only [szV, render, List.length_cons, List.length_append] at h ⊢
    omega
  | .obj [], ind => by simp [szV, szF, render]
  | .obj (p :: fs), ind => by
    have h := szF_le (p :: fs) (' ' :: ' ' :: ind)
    cases p
    simp only [szV, render, List.length_cons, List.length_append] at h ⊢
    omega

theorem szL_le : ∀ (xs : List Json) (ind : List Char),
    szL xs ≤ (renderItems xs ind).length + 2
  | [], ind => by simp [szL, renderItems]
  | [x], ind => by
    have h := szV_le x ind
    simp only [szL, renderItems, List.length_append] at h ⊢
    omega
  | x :: y :: ys, ind => by
    have h1 := szV_le x ind
    have h2 := szL_le (y :: ys) ind
    simp only [szL, renderItems, List.length_append, List.length_cons] at h1 h2 ⊢
    omega

theorem szF_le : ∀ (fs : List (List Char × Json)) (ind : List Char),
    szF fs ≤ (renderFields fs ind).length + 2
  | [], ind => by simp [szF, renderFields]
  | [(k, v)], ind => by
    have h := szV_le v ind
    simp only [szF, renderFields, List.length_append, List.length_cons] at h ⊢
    omega
  | (k, v) :: p :: fs, ind => by
    have h1 := szV_le v ind
    have h2 := szF_le (p :: fs) ind
    simp only [szF, renderFields, List.length_append, List.length_cons] at h1 h2 ⊢
    omega

end

theorem parseVal_default (f : Nat) (c : Char) (cs : List Char)
    (h1 : c ≠ 'n') (h2 : c ≠ 't') (h3 : c ≠ 'f') (h4 : c ≠ '"') (h5 : c ≠ '[')
    (h6 : c ≠ '\x7b') :
    parseVal (f + 1) (c :: cs) =
      (match parseNum (c :: cs) with
       | some (n, rest) => some (.num n, rest)
       | none => none) := by
  rw [parseVal.eq_def]
  split <;> simp_all

theorem szF_cons (k : List Char) (v : Json) (fs : List (List Char × Json)) :
    szF ((k, v) :: fs) = 1 + szV v + szF fs := rfl

theorem parse_render_all : ∀ f : Nat,
    (∀ (v : Json) (ind rest : List Char), wfJ v = true → allSp ind = true →
      stopC rest = true → szV v ≤ f →
      parseVal f (render v ind ++ rest) = some (v, rest)) ∧
    (∀ (x : Json) (xs : List Json) (ind ind0 rest : List Char), wfJ x = true →
      wfL xs = true → allSp ind = true → allSp ind0 = true → stopC rest = true →
      szL (x :: xs) ≤ f →
      parseElems f (render x ind ++ itemsTail xs ind ind0 rest) = some (x :: xs, rest)) ∧
    (∀ (k : List Char) (v : Json) (fs : List (List Char × Json))
      (ind ind0 rest : List Char), k.all okCh = true → wfJ v = true → wfF fs = true →
      (lookupField fs k).isNone = true → allSp ind = true → allSp ind0 = true →
      stopC rest = true → szF ((k, v) :: fs) ≤ f →
      parseFields f
          (escStr k ++ ':' :: ' ' :: (render v ind ++ fieldsTail fs ind ind0 rest)) =
        some ((k, v) :: fs, rest)) := by
  intro f
  induction f with
  | zero =>
    refine ⟨fun v _ _ _ _ _ hsz => ?_, fun x xs _ _ _ _ _ _ _ _ hsz => ?_,
      fun k v fs _ _ _ _ _ _ _ _ _ hsz => ?_⟩
    · have := szV_pos v
      omega
    · have h1 := szV_pos x
      have h2 := szL_pos xs
      rw [szL] at hsz
      omega
    · have h1 := szF_pos ((k, v) :: fs)
      omega
  | succ f ih =>
    obtain ⟨ihV, ihL, ihF⟩ := ih
    refine ⟨?_, ?_, ?_⟩
    · intro v ind rest hw hind hr hsz
      cases v with
      | null => rfl
      | bool b => cases b <;> rfl
      | num n =>
        cases n with
        | ofNat m =>
          rw [show render (Json.num (Int.ofNat m)) ind = decChars m from rfl]
          cases hdc : decChars m with
          | nil => exact absurd hdc (decChars_ne_nil m)
          | cons d ds =>
            have hdd : isDigitCh d = true := by
              have hall := decDigits_all_digits (m + 1) m
              rw [show decDigits (m + 1) m = decChars m from rfl, hdc] at hall
              simp at hall
              exact hall.1
            have hnum := parseNum_rt (Int.ofNat m) rest hr
            rw [show intRepr (Int.ofNat m) = decChars m from rfl, hdc,
              List.cons_append] at hnum
            rw [List.cons_append,
              parseVal_default f d (ds ++ rest)
                (digit_ne_lit d 'n' hdd (by decide)) (digit_ne_lit d 't' hdd (by decide))
                (digit_ne_lit d 'f' hdd (by decide)) (digit_ne_lit d '"' hdd (by decide))
                (digit_ne_lit d '[' hdd (by decide))
                (digit_ne_lit d '\x7b' hdd (by decide)),
              hnum]
        | negSucc m =>
          have hnum := parseNum_rt (Int.negSucc m) rest hr
          rw [show intRepr (Int.negSucc m) = '-' :: decChars (m + 1) from rfl,
            List.cons_append] at hnum
          rw [show render (Json.num (Int.negSucc m)) ind = '-' :: decChars (m + 1) from rfl,
            List.cons_append,
            parseVal_default f '-' (decChars (m + 1) ++ rest) (by decide) (by decide)
              (by decide) (by decide) (by decide) (by decide),
            hnum]
      | str s =>
        rw [show render (Json.str s) ind ++ rest =
          '"' :: ((s.map escCh).flatten ++ '"' :: rest) from by
            rw [show render (Json.str s) ind = escStr s from rfl, escStr]
            simp [List.append_assoc]]
        rw [show parseVal (f + 1) ('"' :: ((s.map escCh).flatten ++ '"' :: rest)) =
          (match parseStr (((s.map escCh).flatten ++ '"' :: rest).length + 1)
              ((s.map escCh).flatten ++ '"' :: rest) with
           | some (s2, r2) => some (.str s2, r2)
           | none => none) from rfl]
        rw [parseStr_rt s rest _ (by simpa [wfJ] using hw)
          (by simp [List.length_append]; omega)]
      | arr xs =>
        cases xs with
        | nil => rfl
        | cons x xs =>
          obtain ⟨hwx, hwxs⟩ : wfJ x = true ∧ wfL xs = true := by
            have h2 := hw
            rw [wfJ, wfL] at h2
            simpa using h2
          rw [show render (Json.arr (x :: xs)) ind ++ rest =
            '[' :: '\n' :: (renderItems (x :: xs) (' ' :: ' ' :: ind) ++
              ('\n' :: (ind ++ (']' :: rest)))) from by
              rw [show render (Json.arr (x :: xs)) ind =
                '[' :: '\n' :: renderItems (x :: xs) (' ' :: ' ' :: ind) ++
                  '\n' :: ind ++ [']'] from rfl]
              simp [List.append_assoc]]
          rw [renderItems_tail x xs (' ' :: ' ' :: ind) ind rest]
          rw [show parseVal (f + 1)
              ('[' :: '\n' :: ((' ' :: ' ' :: ind) ++ (render x (' ' :: ' ' :: ind) ++
                itemsTail xs (' ' :: ' ' :: ind) ind rest))) =
            (match skipWs ('\n' :: ((' ' :: ' ' :: ind) ++ (render x (' ' :: ' ' :: ind) ++
                itemsTail xs (' ' :: ' ' :: ind) ind rest))) with
             | ']' :: r3 => some (.arr [], r3)
             | r2 =>
               match parseElems f r2 with
               | some (xs2, r3) => some (.arr xs2, r3)
               | none => none) from rfl]
          rw [skipWs_nl, skipWs_sp (' ' :: ' ' :: ind) _ (by simpa [allSp] using hind),
            skipWs_render x (' ' :: ' ' :: ind) _]
          obtain ⟨c, cs', hh, hne1, hne2⟩ := render_head x (' ' :: ' ' :: ind)
          split
          · rename_i r3 heq
            rw [hh, List.cons_append] at heq
            injection heq with heq1 heq2
            exact absurd heq1 hne1
          · rw [ihL x xs (' ' :: ' ' :: ind) ind rest hwx hwxs
              (by simpa [allSp] using hind) hind hr (by
                rw [szV] at hsz
                omega)]
      | obj fs =>
        cases fs with
        | nil => rfl
        | cons p fs =>
          obtain ⟨k, v⟩ := p
          have hwf : wfF ((k, v) :: fs) = true := by
            have h2 := hw
            rw [wfJ] at h2
            exact h2
          obtain ⟨hkok, hlk, hwv, hwfs⟩ :
              k.all okCh = true ∧ (lookupField fs k).isNone = true ∧
                wfJ v = true ∧ wfF fs = true := by
            rw [wfF] at hwf
            simpa [and_assoc] using hwf
          rw [show render (Json.obj ((k, v) :: fs)) ind ++ rest =
            '\x7b' :: '\n' :: (renderFields ((k, v) :: fs) (' ' :: ' ' :: ind) ++
              ('\n' :: (ind ++ ('\x7d' :: rest)))) from by
              rw [show render (Json.obj ((k, v) :: fs)) ind =
                '\x7b' :: '\n' :: renderFields ((k, v) :: fs) (' ' :: ' ' :: ind) ++
                  '\n' :: ind ++ ['\x7d'] from rfl]
              simp [List.append_assoc]]
          rw [renderFields_tail k v fs (' ' :: ' ' :: ind) ind rest]
          rw [show parseVal (f + 1)
              ('\x7b' :: '\n' :: ((' ' :: ' ' :: ind) ++ (escStr k ++ ':' :: ' ' ::
                (render v (' ' :: ' ' :: ind) ++
                  fieldsTail fs (' ' :: ' ' :: ind) ind rest)))) =
            (match skipWs ('\n' :: ((' ' :: ' ' :: ind) ++ (escStr k ++ ':' :: ' ' ::
                (render v (' ' :: ' ' :: ind) ++
                  fieldsTail fs (' ' :: ' ' :: ind) ind rest)))) with
             | '\x7d' :: r3 => some (.obj [], r3)
             | r2 =>
               match parseFields f r2 with
               | some (fs2, r3) => some (.obj fs2, r3)
               | none => none) from rfl]
          rw [skipWs_nl, skipWs_sp (' ' :: ' ' :: ind) _ (by simpa [allSp] using hind)]
          rw [show skipWs (escStr k ++ ':' :: ' ' :: (render v (' ' :: ' ' :: ind) ++
            fieldsTail fs (' ' :: ' ' :: ind) ind rest)) =
            escStr k ++ ':' :: ' ' :: (render v (' ' :: ' ' :: ind) ++
              fieldsTail fs (' ' :: ' ' :: ind) ind rest) from rfl]
          split
          · rename_i r3 heq
            rw [show escStr k ++ ':' :: ' ' :: (render v (' ' :: ' ' :: ind) ++
              fieldsTail fs (' ' :: ' ' :: ind) ind rest) =
              '"' :: ((k.map escCh).flatten ++ ['"'] ++ (':' :: ' ' ::
                (render v (' ' :: ' ' :: ind) ++
                  fieldsTail fs (' ' :: ' ' :: ind) ind rest))) from by
                rw [escStr]
                simp [List.append_assoc]] at heq
            injection heq with heq1 heq2
            exact absurd heq1 (by decide)
          · rw [ihF k v fs (' ' :: ' ' :: ind) ind rest hkok hwv hwfs hlk
              (by simpa [allSp] using hind) hind hr (by
                rw [szV] at hsz
                omega)]
    · intro x xs ind ind0 rest hwx hwxs hind hind0 hr hsz
      rw [show parseElems (f + 1) (render x ind ++ itemsTail xs ind ind0 rest) =
        (match parseVal f (render x ind ++ itemsTail xs ind ind0 rest) with
         | none => none
         | some (v, rest2) =>
           match skipWs rest2 with
           | ',' :: r2 =>
             (match parseElems f (skipWs r2) with
              | some (xs2, r3) => some (v :: xs2, r3)
              | none => none)
           | ']' :: r2 => some ([v], r2)
           | _ => none) from rfl]
      rw [ihV x ind (itemsTail xs ind ind0 rest) hwx hind
        (stopC_itemsTail xs ind ind0 rest) (by
          have h2 := szL_pos xs
          rw [szL] at hsz
          omega)]
      cases xs with
      | nil =>
        rw [show itemsTail ([] : List Json) ind ind0 rest =
          '\n' :: (ind0 ++ (']' :: rest)) from rfl]
        show (match skipWs ('\n' :: (ind0 ++ (']' :: rest))) with
          | ',' :: r2 =>
            (match parseElems f (skipWs r2) with
             | some (xs2, r3) => some (x :: xs2, r3)
             | none => none)
          | ']' :: r2 => some ([x], r2)
          | _ => none) = some ([x], rest)
        rw [show skipWs ('\n' :: (ind0 ++ (']' :: rest))) =
          skipWs (ind0 ++ (']' :: rest)) from rfl, skipWs_sp ind0 _ hind0,
          show skipWs (']' :: rest) = ']' :: rest from rfl]
        rfl
      | cons y ys =>
        obtain ⟨hwy, hwys⟩ : wfJ y = true ∧ wfL ys = true := by
          rw [wfL] at hwxs
          simpa using hwxs
        rw [show itemsTail (y :: ys) ind ind0 rest =
          ',' :: '\n' :: (ind ++ (render y ind ++ itemsTail ys ind ind0 rest)) from rfl]
        show (match parseElems f
            (skipWs ('\n' :: (ind ++ (render y ind ++ itemsTail ys ind ind0 rest)))) with
          | some (xs2, r3) => some (x :: xs2, r3)
          | none => none) = some (x :: y :: ys, rest)
        rw [skipWs_nl, skipWs_sp ind _ hind, skipWs_render y ind _]
        rw [ihL y ys ind ind0 rest hwy hwys hind hind0 hr (by
          have h1 := szV_pos x
          rw [szL] at hsz
          omega)]
    · intro k v fs ind ind0 rest hkok hwv hwfs hlk hind hind0 hr hsz
      show (match parseStr ((((k.map escCh).flatten ++ ['"']) ++ (':' :: ' ' ::
            (render v ind ++ fieldsTail fs ind ind0 rest))).length + 1)
          (((k.map escCh).flatten ++ ['"']) ++ (':' :: ' ' ::
            (render v ind ++ fieldsTail fs ind ind0 rest))) with
        | none => none
        | some (k2, r2) =>
          match skipWs r2 with
          | ':' :: r3 =>
            (match parseVal f (skipWs r3) with
             | none => none
             | some (v2, r4) =>
               match skipWs r4 with
               | ',' :: r5 =>
                 (match parseFields f (skipWs r5) with
                  | some (fs2, r6) => some (insMember k2 v2 fs2, r6)
                  | none => none)
               | '\x7d' :: r5 => some ([(k2, v2)], r5)
               | _ => none)
          | _ => none) = some ((k, v) :: fs, rest)
      rw [show ((k.map escCh).flatten ++ ['"']) ++ (':' :: ' ' ::
          (render v ind ++ fieldsTail fs ind ind0 rest)) =
        (k.map escCh).flatten ++ '"' :: (':' :: ' ' ::
          (render v ind ++ fieldsTail fs ind ind0 rest)) from by
          simp [List.append_assoc]]
      rw [parseStr_rt k (':' :: ' ' :: (render v ind ++ fieldsTail fs ind ind0 rest)) _
        hkok (by simp [List.length_append]; omega)]
      show (match parseVal f (skipWs (' ' ::
            (render v ind ++ fieldsTail fs ind ind0 rest))) with
        | none => none
        | some (v2, r4) =>
          match skipWs r4 with
          | ',' :: r5 =>
            (match parseFields f (skipWs r5) with
             | some (fs2, r6) => some (insMember k v2 fs2, r6)
             | none => none)
          | '\x7d' :: r5 => some ([(k, v2)], r5)
          | _ => none) = some ((k, v) :: fs, rest)
      rw [show skipWs (' ' :: (render v ind ++ fieldsTail fs ind ind0 rest)) =
        skipWs (render v ind ++ fieldsTail fs ind ind0 rest) from rfl,
        skipWs_render v ind _]
      rw [ihV v ind (fieldsTail fs ind ind0 rest) hwv hind
        (stopC_fieldsTail fs ind ind0 rest) (by
          have h2 := szF_pos fs
          rw [szF_cons] at hsz
          omega)]
      cases fs with
      | nil =>
        rw [show fieldsTail ([] : List (List Char × Json)) ind ind0 rest =
          '\n' :: (ind0 ++ ('\x7d' :: rest)) from rfl]
        show (match skipWs ('\n' :: (ind0 ++ ('\x7d' :: rest))) with
          | ',' :: r5 =>
            (match parseFields f (skipWs r5) with
             | some (fs2, r6) => some (insMember k v fs2, r6)
             | none => none)
          | '\x7d' :: r5 => some ([(k, v)], r5)
          | _ => none) = some ([(k, v)], rest)
        rw [show skipWs ('\n' :: (ind0 ++ ('\x7d' :: rest))) =
          skipWs (ind0 ++ ('\x7d' :: rest)) from rfl, skipWs_sp ind0 _ hind0,
          show skipWs ('\x7d' :: rest) = '\x7d' :: rest from rfl]
        rfl
      | cons p gs =>
        obtain ⟨k2, v2⟩ := p
        obtain ⟨hk2ok, hlk2, hwv2, hwgs⟩ :
            k2.all okCh = true ∧ (lookupField gs k2).isNone = true ∧
              wfJ v2 = true ∧ wfF gs = true := by
          rw [wfF] at hwfs
          simpa [and_assoc] using hwfs
        rw [show fieldsTail ((k2, v2) :: gs) ind ind0 rest =
          ',' :: '\n' :: (ind ++ (escStr k2 ++ ':' :: ' ' ::
            (render v2 ind ++ fieldsTail gs ind ind0 rest))) from rfl]
        show (match parseFields f (skipWs ('\n' :: (ind ++ (escStr k2 ++ ':' :: ' ' ::
              (render v2 ind ++ fieldsTail gs ind ind0 rest))))) with
          | some (fs2, r6) => some (insMember k v fs2, r6)
          | none => none) = some ((k, v) :: (k2, v2) :: gs, rest)
        rw [skipWs_nl, skipWs_sp ind _ hind]
        rw [show skipWs (escStr k2 ++ ':' :: ' ' ::
          (render v2 ind ++ fieldsTail gs ind ind0 rest)) =
          escStr k2 ++ ':' :: ' ' ::
            (render v2 ind ++ fieldsTail gs ind ind0 rest) from rfl]
        rw [ihF k2 v2 gs ind ind0 rest hk2ok hwv2 hwgs hlk2 hind hind0 hr (by
          have h1 := szV_pos v
          have he := szF_cons k2 v2 gs
          rw [szF_cons] at hsz
          omega)]
        show some (insMember k v ((k2, v2) :: gs), rest) = some ((k, v) :: (k2, v2) :: gs, rest)
        rw [insMember, Option.isNone_iff_eq_none.mp hlk]

theorem parse_stringify (v : Json) (hw : wfJ v = true) :
    Json.parseC (Json.stringifyC v) = some v := by
  rw [Json.stringifyC,
    show Json.parseC (render v []) =
      (match parseVal (2 * (skipWs (render v [])).length + 2) (skipWs (render v [])) with
       | some (v2, rest) => if (skipWs rest).isEmpty then some v2 else none
       | none => none) from rfl]
  have hs : skipWs (render v []) = render v [] := by
    have h := skipWs_render v [] []
    simpa using h
  rw [hs]
  have hmain := (parse_render_all (2 * (render v []).length + 2)).1 v [] [] hw rfl rfl
    (by have := szV_le v ([] : List Char); omega)
  rw [List.append_nil] at hmain
  rw [hmain]
  rfl

theorem setField_idem : ∀ (fs : List (List Char × Json)) (k : List Char) (c : Json),
    setField (setField fs k c) k c = setField fs k c
  | [], k, c => by
    rw [setField, setField, if_pos rfl]
  | (k1, v1) :: fs, k, c => by
    rw [setField]
    by_cases hk : k1 = k
    · rw [if_pos hk, setField, if_pos hk]
    · rw [if_neg hk, setField, if_neg hk, setField_idem fs k c]

theorem padSet_idem : ∀ (xs : List Json) (i : Nat) (c : Json),
    padSet (padSet xs i c) i c = padSet xs i c
  | [], 0, c => rfl
  | [], n + 1, c => by rw [padSet, padSet, padSet_idem [] n c]
  | x :: xs, 0, c => rfl
  | x :: xs, n + 1, c => by rw [padSet, padSet, padSet_idem xs n c]

theorem replaceAt_idem (v : Json) (k : List Char) (c : Json) :
    (v.replaceAt k c).replaceAt k c = v.replaceAt k c := by
  cases v with
  | obj fs => rw [Json.replaceAt, Json.replaceAt, setField_idem]
  | arr xs =>
    rw [Json.replaceAt]
    cases hk : keyIdx k with
    | none =>
      dsimp only
      rw [Json.replaceAt, hk]
    | some i =>
      dsimp only
      rw [Json.replaceAt, hk]
      dsimp only
      rw [List.set_set]
  | null => rfl
  | bool b => rfl
  | num n => rfl
  | str s => rfl

theorem replaceAt_truthy (v : Json) (k : List Char) (c : Json) (h : v.truthy = true) :
    (v.replaceAt k c).truthy = true := by
  cases v with
  | obj fs => rfl
  | arr xs =>
    rw [Json.replaceAt]
    cases keyIdx k <;> rfl
  | null => exact h
  | bool b => exact h
  | num n => exact h
  | str s => exact h

theorem setPath_replay : ∀ (v : Json) (p : List (List Char)) (t : List Char) (w : Json),
    setPath v p t = some w → setPath w p t = some w
  | v, [], t, w, h => by
    rw [setPath] at h
    injection h with h1
    subst h1
    rfl
  | v, [k], t, w, h => by
    rw [setPath_one] at h
    by_cases htr : v.truthy = true
    · rw [if_neg (by simp [htr])] at h
      cases v with
      | obj fs =>
        injection h with h1
        subst h1
        rw [setPath_one, if_neg (by simp [Json.truthy])]
        dsimp only
        rw [setField_idem]
      | arr xs =>
        cases hk : keyIdx k with
        | none =>
          rw [hk] at h
          dsimp only at h
          injection h with h1
          subst h1
          rw [setPath_one, if_neg (by simp [Json.truthy]), hk]
        | some i =>
          rw [hk] at h
          dsimp only at h
          injection h with h1
          subst h1
          rw [setPath_one, if_neg (by simp [Json.truthy]), hk]
          dsimp only
          rw [padSet_idem]
      | null => simp [Json.truthy] at htr
      | bool b => exact Option.noConfusion h
      | num n => exact Option.noConfusion h
      | str s => exact Option.noConfusion h
    · rw [if_pos (by simpa using htr)] at h
      injection h with h1
      subst h1
      rw [setPath_one, if_pos (by simpa using htr)]
  | v, k :: k2 :: ks, t, w, h => by
    rw [setPath_cons2] at h
    by_cases htr : v.truthy = true
    · rw [if_neg (by simp [htr])] at h
      cases hl : v.look k with
      | none =>
        rw [hl] at h
        dsimp only at h
        injection h with h1
        subst h1
        rw [setPath_cons2, if_neg (by simp [htr]), hl]
      | some child =>
        rw [hl] at h
        dsimp only at h
        cases hsp : setPath child (k2 :: ks) t with
        | none =>
          rw [hsp] at h
          exact Option.noConfusion h
        | some c2 =>
          rw [hsp] at h
          dsimp only at h
          injection h with h1
          subst h1
          have htr2 : (v.replaceAt k c2).truthy = true := replaceAt_truthy v k c2 htr
          rw [setPath_cons2, if_neg (by simp [htr2]), look_replaceAt_same c2 hl]
          dsimp only
          rw [setPath_replay child (k2 :: ks) t c2 hsp]
          dsimp only
          rw [replaceAt_idem]
    · rw [if_pos (by simpa using htr)] at h
      injection h with h1
      subst h1
      rw [setPath_cons2, if_pos (by simpa using htr)]

theorem goEntries_single_replay (e : Entry) (v w : Json)
    (h : goEntries [e] v = some w) : goEntries [e] w = some w := by
  rw [show goEntries [e] v =
    (match stepEntry e v with
     | none => none
     | some v2 => some v2) from rfl] at h
  rw [show goEntries [e] w =
    (match stepEntry e w with
     | none => none
     | some v2 => some v2) from rfl]
  rw [stepEntry] at h ⊢
  by_cases he : e.translated.isEmpty = true
  · rw [if_pos he] at h
    dsimp only at h
    injection h with h1
    subst h1
    rw [if_pos he]
  · rw [if_neg he] at h ⊢
    cases hsp : setPath v (segs e.path) e.translated with
    | none =>
      rw [hsp] at h
      exact Option.noConfusion h
    | some v2 =>
      rw [hsp] at h
      dsimp only at h
      injection h with h1
      rw [← h1, setPath_replay v (segs e.path) e.translated v2 hsp]

theorem hasNN_single (c : Char) : hasNN [c] = false := by
  rw [hasNN.eq_def]
  split <;> simp_all [hasNN]

theorem hasNN_cons2_ne (c c2 : Char) (rest : List Char) (h : ¬(c = '\n' ∧ c2 = '\n')) :
    hasNN (c :: c2 :: rest) = hasNN (c2 :: rest) := by
  rw [hasNN.eq_def]
  split <;> simp_all

theorem hasNN_cons_ne (c : Char) (cs : List Char) (hc : c ≠ '\n') :
    hasNN (c :: cs) = hasNN cs := by
  cases cs with
  | nil => rw [hasNN_single]; rfl
  | cons c2 rest => rw [hasNN_cons2_ne c c2 rest (fun hp => hc hp.1)]

theorem lastNotNl_cons_cons (c d : Char) (rest : List Char) :
    lastNotNl (c :: d :: rest) = lastNotNl (d :: rest) := rfl

theorem lastNotNl_append : ∀ (X t : List Char), t ≠ [] →
    lastNotNl (X ++ t) = lastNotNl t
  | [], t, _ => by rw [List.nil_append]
  | c :: X, t, ht => by
    rw [List.cons_append]
    cases hXt : X ++ t with
    | nil =>
      rcases List.append_eq_nil.mp hXt with ⟨h1, h2⟩
      exact absurd h2 ht
    | cons d r =>
      rw [lastNotNl_cons_cons, ← hXt, lastNotNl_append X t ht]

theorem noCR_append (xs ys : List Char) :
    noCR (xs ++ ys) = (noCR xs && noCR ys) := by
  simp [noCR, List.all_append]

theorem noCR_join_all : ∀ (sep : List Char) (bs : List (List Char)),
    noCR (joinSep sep bs) = true → bs.all noCR = true
  | sep, [], _ => rfl
  | sep, [b], h => by simpa using h
  | sep, b :: b2 :: bs, h => by
    rw [joinSep, noCR_append, noCR_append] at h
    simp only [Bool.and_eq_true] at h
    obtain ⟨⟨h1, _⟩, h3⟩ := h
    have := noCR_join_all sep (b2 :: bs) h3
    simp only [List.all_cons, Bool.and_eq_true] at this ⊢
    exact ⟨h1, this⟩

theorem noCR_join_intro : ∀ (sep : List Char) (bs : List (List Char)),
    noCR sep = true → bs.all noCR = true → noCR (joinSep sep bs) = true
  | sep, [], _, _ => rfl
  | sep, [b], _, hb => by simpa using hb
  | sep, b :: b2 :: bs, hsep, hb => by
    simp only [List.all_cons, Bool.and_eq_true] at hb
    rw [joinSep, noCR_append, noCR_append]
    simp only [Bool.and_eq_true]
    exact ⟨⟨hb.1, hsep⟩, noCR_join_intro sep (b2 :: bs) hsep (by
      simp only [List.all_cons, Bool.and_eq_true]
      exact hb.2)⟩

theorem splitNl_noNl : ∀ cs : List Char,
    (splitNl cs).all (fun l => l.all (fun c => c != '\n')) = true := by
  intro cs
  induction cs with
  | nil => rfl
  | cons c rest ih =>
    by_cases hc : c = '\n'
    · subst hc
      rw [show splitNl ('\n' :: rest) = [] :: splitNl rest from rfl]
      simpa using ih
    · rw [splitNl_cons_ne c rest hc]
      cases hS : splitNl rest with
      | nil => exact absurd hS (splitNl_ne_nil rest)
      | cons s0 tl =>
        rw [hS] at ih
        rw [consHead]
        simp only [List.all_cons, Bool.and_eq_true] at ih ⊢
        exact ⟨⟨by simpa using hc, ih.1⟩, ih.2⟩

theorem splitNl_append_line : ∀ (l rest : List Char),
    l.all (fun c => c != '\n') = true →
    splitNl (l ++ '\n' :: rest) = l :: splitNl rest
  | [], rest, _ => by rw [List.nil_append]; rfl
  | c :: l, rest, h => by
    simp only [List.all_cons, Bool.and_eq_true] at h
    have hc : c ≠ '\n' := by simpa using h.1
    rw [List.cons_append, splitNl_cons_ne c _ hc,
      splitNl_append_line l rest h.2]
    rfl

theorem hasNN_line_sep : ∀ (l t : List Char), l.all (fun c => c != '\n') = true →
    headNotNl t = true → hasNN t = false → hasNN (l ++ '\n' :: t) = false
  | [], t, _, hh, ht => by
    rw [List.nil_append]
    cases t with
    | nil => rw [hasNN_single]
    | cons c t2 =>
      have hc : c ≠ '\n' := by simpa [headNotNl] using hh
      rw [hasNN_cons2_ne '\n' c t2 (fun hp => hc hp.2), ht]
  | c :: l, t, hl, hh, ht => by
    simp only [List.all_cons, Bool.and_eq_true] at hl
    have hc : c ≠ '\n' := by simpa using hl.1
    rw [List.cons_append, hasNN_cons_ne c _ hc, hasNN_line_sep l t hl.2 hh ht]

theorem splitB2_noNN : ∀ b : List Char, hasNN b = false → splitB2 b = [b]
  | [], _ => rfl
  | [c], _ => splitB2_singleton c
  | c :: c2 :: rest, h => by
    have hp : ¬(c = '\n' ∧ c2 = '\n') := by
      intro hpair
      rw [hasNN.eq_def] at h
      obtain ⟨h1, h2⟩ := hpair
      subst h1
      subst h2
      simp at h
    rw [splitB2_cons_two_ne c c2 rest hp,
      splitB2_noNN (c2 :: rest) (by rwa [hasNN_cons2_ne c c2 rest hp] at h)]
    rfl

theorem splitB2_block_sep : ∀ (b J : List Char), hasNN b = false →
    lastNotNl b = true → splitB2 (b ++ '\n' :: '\n' :: J) = b :: splitB2 J
  | [], J, _, _ => by rw [List.nil_append]; rfl
  | [c], J, _, hL => by
    have hc : c ≠ '\n' := by simpa [lastNotNl] using hL
    rw [List.cons_append, List.nil_append,
      splitB2_cons_two_ne c '\n' ('\n' :: J) (fun hp => hc hp.1)]
    rw [show splitB2 ('\n' :: '\n' :: J) = [] :: splitB2 J from rfl]
    rfl
  | c :: c2 :: rest, J, hNN, hL => by
    have hp : ¬(c = '\n' ∧ c2 = '\n') := by
      intro hpair
      rw [hasNN.eq_def] at hNN
      obtain ⟨h1, h2⟩ := hpair
      subst h1
      subst h2
      simp at hNN
    rw [List.cons_append, List.cons_append,
      splitB2_cons_two_ne c c2 _ hp]
    rw [show (rest ++ '\n' :: '\n' :: J : List Char) = rest ++ '\n' :: '\n' :: J from rfl]
    rw [show c2 :: (rest ++ '\n' :: '\n' :: J) = (c2 :: rest) ++ '\n' :: '\n' :: J from rfl]
    rw [splitB2_block_sep (c2 :: rest) J
      (by rwa [hasNN_cons2_ne c c2 rest hp] at hNN)
      (by rwa [lastNotNl_cons_cons] at hL)]
    rfl

theorem splitB2_join : ∀ bs : List (List Char), cleanBlocks bs = true → bs ≠ [] →
    splitB2 (joinSep ['\n', '\n'] bs) = bs
  | [], _, hne => absurd rfl hne
  | [b], hc, _ => by
    rw [joinSep, splitB2_noNN b (by simpa [cleanBlocks] using hc)]
  | b :: b2 :: bs, hc, _ => by
    obtain ⟨⟨h1, h2⟩, h3⟩ : (hasNN b = false ∧ lastNotNl b = true) ∧
        cleanBlocks (b2 :: bs) = true := by
      rw [cleanBlocks] at hc
      simpa using hc
    rw [joinSep]
    rw [show b ++ ['\n', '\n'] ++ joinSep ['\n', '\n'] (b2 :: bs) =
      b ++ '\n' :: '\n' :: joinSep ['\n', '\n'] (b2 :: bs) from by
        simp [List.append_assoc]]
    rw [splitB2_block_sep b _ h1 h2,
      splitB2_join (b2 :: bs) h3 (by simp)]

theorem splitB2_head_shape : ∀ (c2 : Char) (rest s0 : List Char)
    (tl : List (List Char)), splitB2 (c2 :: rest) = s0 :: tl →
    (s0 = [] ∧ c2 = '\n') ∨ (∃ s0', s0 = c2 :: s0') := by
  intro c2 rest s0 tl h
  cases rest with
  | nil =>
    rw [splitB2_singleton] at h
    injection h with h1 h2
    exact Or.inr ⟨[], h1.symm⟩
  | cons c3 rest2 =>
    by_cases hp : c2 = '\n' ∧ c3 = '\n'
    · obtain ⟨h1, h2⟩ := hp
      subst h1
      subst h2
      rw [show splitB2 ('\n' :: '\n' :: rest2) = [] :: splitB2 rest2 from rfl] at h
      injection h with h1 h2
      exact Or.inl ⟨h1.symm, rfl⟩
    · rw [splitB2_cons_two_ne c2 c3 rest2 hp] at h
      cases hS : splitB2 (c3 :: rest2) with
      | nil => exact absurd hS (splitB2_ne_nil _)
      | cons a b =>
        rw [hS, consHead] at h
        injection h with h1 h2
        exact Or.inr ⟨a, h1.symm⟩

theorem cleanBlocks_splitB2 : ∀ (n : Nat) (cs : List Char), cs.length ≤ n →
    cleanBlocks (splitB2 cs) = true
  | n, [], _ => rfl
  | n, [c], _ => by
    rw [splitB2_singleton]
    simp [cleanBlocks, hasNN_single]
  | 0, c :: c2 :: rest, hlen => by simp at hlen
  | n + 1, c :: c2 :: rest, hlen => by
    have hlen2 : (c2 :: rest).length ≤ n := by
      simp only [List.length_cons] at hlen ⊢
      omega
    by_cases hp : c = '\n' ∧ c2 = '\n'
    · obtain ⟨h1, h2⟩ := hp
      subst h1
      subst h2
      rw [show splitB2 ('\n' :: '\n' :: rest) = [] :: splitB2 rest from rfl]
      have hrec : cleanBlocks (splitB2 rest) = true :=
        cleanBlocks_splitB2 n rest (by simp only [List.length_cons] at hlen; omega)
      cases hS : splitB2 rest with
      | nil => exact absurd hS (splitB2_ne_nil rest)
      | cons s0 tl =>
        rw [hS] at hrec
        rw [cleanBlocks]
        simpa [hasNN, lastNotNl] using hrec
    · rw [splitB2_cons_two_ne c c2 rest hp]
      have hrec : cleanBlocks (splitB2 (c2 :: rest)) = true :=
        cleanBlocks_splitB2 n (c2 :: rest) hlen2
      cases hS : splitB2 (c2 :: rest) with
      | nil => exact absurd hS (splitB2_ne_nil _)
      | cons s0 tl =>
        rw [hS] at hrec
        rw [consHead]
        have hshape := splitB2_head_shape c2 rest s0 tl hS
        cases tl with
        | nil =>
          rw [cleanBlocks] at hrec ⊢
          simp only [Bool.not_eq_true'] at hrec ⊢
          rcases hshape with ⟨he, _⟩ | ⟨s0', he⟩
          · subst he
            exact hasNN_single c
          · subst he
            rw [hasNN_cons2_ne c c2 s0' (fun hq => hp hq)]
            exact hrec
        | cons t1 tl2 =>
          rw [cleanBlocks] at hrec ⊢
          simp only [Bool.and_eq_true] at hrec ⊢
          obtain ⟨⟨hn0, hl0⟩, hcl⟩ := hrec
          rcases hshape with ⟨he, hc2⟩ | ⟨s0', he⟩
          · subst he
            subst hc2
            have hc : c ≠ '\n' := fun hq => hp ⟨hq, rfl⟩
            refine ⟨⟨?_, ?_⟩, hcl⟩
            · simp only [Bool.not_eq_true']
              exact hasNN_single c
            · simpa [lastNotNl] using hc
          · subst he
            refine ⟨⟨?_, ?_⟩, hcl⟩
            · simp only [Bool.not_eq_true'] at hn0 ⊢
              rw [hasNN_cons2_ne c c2 s0' (fun hq => hp hq)]
              exact hn0
            · rw [lastNotNl_cons_cons]
              exact hl0

theorem cleanBlocks_getD : ∀ (bs : List (List Char)) (i : Nat),
    cleanBlocks bs = true → hasNN (bs.getD i []) = false
  | [], i, _ => by cases i <;> rfl
  | [b], 0, h => by simpa [cleanBlocks, List.getD] using h
  | [b], i + 1, _ => by simp [List.getD, hasNN]
  | b :: b2 :: bs, 0, h => by
    rw [cleanBlocks] at h
    simp only [Bool.and_eq_true] at h
    simpa [List.getD] using h.1.1
  | b :: b2 :: bs, i + 1, h => by
    rw [cleanBlocks] at h
    simp only [Bool.and_eq_true] at h
    have := cleanBlocks_getD (b2 :: bs) i h.2
    simpa [List.getD] using this

theorem cleanBlocks_set : ∀ (bs : List (List Char)) (i : Nat) (nb : List Char),
    cleanBlocks bs = true → hasNN nb = false → lastNotNl nb = true →
    cleanBlocks (bs.set i nb) = true
  | [], i, nb, h, _, _ => by
    rw [show ([] : List (List Char)).set i nb = [] from by cases i <;> rfl]
    exact h
  | [b], 0, nb, _, hn, _ => by
    simp only [List.set]
    simpa [cleanBlocks] using hn
  | [b], i + 1, nb, h, _, _ => by
    rw [show ([b] : List (List Char)).set (i + 1) nb = [b] from rfl]
    exact h
  | b :: b2 :: bs, 0, nb, h, hn, hl => by
    rw [cleanBlocks] at h
    simp only [Bool.and_eq_true] at h
    simp only [List.set]
    rw [cleanBlocks]
    simp only [Bool.and_eq_true]
    exact ⟨⟨by simpa using hn, hl⟩, h.2⟩
  | b :: b2 :: bs, i + 1, nb, h, hn, hl => by
    rw [cleanBlocks] at h
    simp only [Bool.and_eq_true] at h
    simp only [List.set]
    have hrec := cleanBlocks_set (b2 :: bs) i nb h.2 hn hl
    cases hS : (b2 :: bs).set i nb with
    | nil =>
      cases i <;> simp [List.set] at hS
    | cons u us =>
      rw [hS] at hrec
      rw [cleanBlocks]
      simp only [Bool.and_eq_true]
      exact ⟨h.1, hrec⟩

theorem all_getD {α : Type} (p : α → Bool) :
    ∀ (l : List α) (i : Nat) (d : α), l.all p = true → i < l.length →
    p (l.getD i d) = true
  | [], i, d, _, hi => by simp at hi
  | a :: l, 0, d, h, _ => by
    simp only [List.all_cons, Bool.and_eq_true] at h
    exact h.1
  | a :: l, i + 1, d, h, hi => by
    simp only [List.all_cons, Bool.and_eq_true] at h
    have := all_getD p l i d h.2 (by simpa using Nat.lt_of_succ_lt_succ hi)
    simpa [List.getD] using this

theorem all_set {α : Type} (p : α → Bool) :
    ∀ (l : List α) (i : Nat) (v : α), l.all p = true → p v = true →
    (l.set i v).all p = true
  | [], i, v, h, _ => by simpa using h
  | a :: l, 0, v, h, hv => by
    simp only [List.all_cons, Bool.and_eq_true] at h
    simp only [List.set, List.all_cons, Bool.and_eq_true]
    exact ⟨hv, h.2⟩
  | a :: l, i + 1, v, h, hv => by
    simp only [List.all_cons, Bool.and_eq_true] at h
    simp only [List.set, List.all_cons, Bool.and_eq_true]
    exact ⟨h.1, all_set p l i v h.2 hv⟩

theorem set_same {α : Type} : ∀ (l : List α) (i : Nat) (v : α),
    l.get? i = some v → l.set i v = l
  | [], i, v, h => by simp at h
  | a :: l, 0, v, h => by
    have h1 : a = v := by simpa using h
    rw [← h1]
    rfl
  | a :: l, i + 1, v, h => by
    rw [List.set, set_same l i v (by simpa using h)]

theorem getD_set_self {α : Type} : ∀ (l : List α) (i : Nat) (v d : α),
    i < l.length → (l.set i v).getD i d = v
  | [], i, v, d, h => by simp at h
  | a :: l, 0, v, d, _ => rfl
  | a :: l, i + 1, v, d, h => by
    rw [List.set]
    have := getD_set_self l i v d (by simpa using Nat.lt_of_succ_lt_succ h)
    simpa [List.getD] using this

theorem get?_getD {α : Type} : ∀ (l : List α) (i : Nat) (d : α), i < l.length →
    l.get? i = some (l.getD i d)
  | [], i, d, h => by simp at h
  | a :: l, 0, d, _ => rfl
  | a :: l, i + 1, d, h => by
    have := get?_getD l i d (by simpa using Nat.lt_of_succ_lt_succ h)
    simpa [List.getD] using this

theorem hasNN_cons_true (c : Char) (cs : List Char) (h : hasNN cs = true) :
    hasNN (c :: cs) = true := by
  cases cs with
  | nil => simp [hasNN] at h
  | cons c2 rest =>
    by_cases hp : c = '\n' ∧ c2 = '\n'
    · obtain ⟨h1, h2⟩ := hp
      subst h1
      subst h2
      rfl
    · rw [hasNN_cons2_ne c c2 rest hp]
      exact h

theorem hasNN_append_pair : ∀ (X Y : List Char), hasNN (X ++ '\n' :: '\n' :: Y) = true
  | [], Y => rfl
  | c :: X, Y => by
    rw [List.cons_append]
    exact hasNN_cons_true c _ (hasNN_append_pair X Y)

theorem headNotNl_of_all (l X : List Char) (h : l.all (fun c => c != '\n') = true)
    (hne : l ≠ []) : headNotNl (l ++ X) = true := by
  cases l with
  | nil => exact absurd rfl hne
  | cons d l2 =>
    simp only [List.all_cons, Bool.and_eq_true] at h
    rw [List.cons_append]
    exact h.1

theorem subs_apply_red (c : List Char) (es : List Entry) :
    applyTranslations c es .subtitles =
      joinSep ['\n', '\n'] (applySubFold es (splitBRN c)) := rfl

theorem applySubFold_single (e : Entry) (bs : List (List Char)) :
    applySubFold [e] bs =
      (if e.translated.isEmpty then bs
       else
         match findNumAfter (s2c "block-") e.path with
         | some idx =>
           if idx < bs.length then bs.set idx (subRebuild (bs.getD idx []) e.translated)
           else bs
         | none => bs) := rfl

theorem subtitles_single_idem (c : List Char) (e : Entry) (hc : noCR c = true)
    (ht : tClean e.translated = true) :
    applyTranslations (applyTranslations c [e] .subtitles) [e] .subtitles =
      applyTranslations c [e] .subtitles := by
  obtain ⟨⟨⟨htCR, htNN⟩, htH⟩, htL⟩ :
      ((noCR e.translated = true ∧ (!hasNN e.translated) = true) ∧
        headNotNl e.translated = true) ∧ lastNotNl e.translated = true := by
    rw [tClean] at ht
    simpa using ht
  have htNN2 : hasNN e.translated = false := by simpa using htNN
  have hsplit : splitBRN c = splitB2 c := splitBRN_eq_splitB2 c hc
  have hjoin : joinSep ['\n', '\n'] (splitB2 c) = c := joinB2_splitB2 c
  by_cases he : e.translated.isEmpty = true
  · have hout : applyTranslations c [e] .subtitles = c := by
      rw [subs_apply_red, hsplit, applySubFold_single, if_pos he, hjoin]
    rw [hout]
    exact hout
  · have htne : e.translated ≠ [] := by
      intro h0
      exact he (by rw [h0]; rfl)
    cases hfind : findNumAfter (s2c "block-") e.path with
    | none =>
      have hout : applyTranslations c [e] .subtitles = c := by
        rw [subs_apply_red, hsplit, applySubFold_single, if_neg he, hfind]
        exact hjoin
      rw [hout]
      exact hout
    | some idx =>
      by_cases hidx : idx < (splitB2 c).length
      · have hbsAll : (splitB2 c).all noCR = true :=
          noCR_join_all ['\n', '\n'] (splitB2 c) (by rw [hjoin]; exact hc)
        have hbCR : noCR ((splitB2 c).getD idx []) = true :=
          all_getD noCR (splitB2 c) idx [] hbsAll hidx
        have hclean : cleanBlocks (splitB2 c) = true :=
          cleanBlocks_splitB2 c.length c le_rfl
        have hbNN : hasNN ((splitB2 c).getD idx []) = false :=
          cleanBlocks_getD (splitB2 c) idx hclean
        have hlines : splitRN ((splitB2 c).getD idx []) =
            splitNl ((splitB2 c).getD idx []) :=
          splitRN_eq_splitNl _ hbCR
        by_cases hlen : 3 ≤ (splitNl ((splitB2 c).getD idx [])).length
        case neg =>
          have hreb : subRebuild ((splitB2 c).getD idx []) e.translated =
              (splitB2 c).getD idx [] := by
            simp only [subRebuild]
            rw [hlines, if_neg hlen]
          have hout : applyTranslations c [e] .subtitles = c := by
            rw [subs_apply_red, hsplit, applySubFold_single, if_neg he, hfind]
            dsimp only
            rw [if_pos hidx, hreb,
              set_same (splitB2 c) idx _ (get?_getD (splitB2 c) idx [] hidx)]
            exact hjoin
          rw [hout]
          exact hout
        case pos =>
          cases hsb : splitNl ((splitB2 c).getD idx []) with
          | nil => exact absurd hsb (splitNl_ne_nil _)
          | cons l0 rest1 =>
          cases rest1 with
          | nil =>
            rw [hsb] at hlen
            simp at hlen
          | cons l1 rest2 =>
          cases rest2 with
          | nil =>
            rw [hsb] at hlen
            simp at hlen
          | cons l2 ls =>
          have hlinesCR : (splitNl ((splitB2 c).getD idx [])).all noCR = true :=
            noCR_join_all ['\n'] _ (by rw [joinNl_splitNl]; exact hbCR)
          rw [hsb] at hlinesCR
          simp only [List.all_cons, Bool.and_eq_true] at hlinesCR
          obtain ⟨hl0CR, hl1CR, _⟩ := hlinesCR
          have hallNl := splitNl_noNl ((splitB2 c).getD idx [])
          rw [hsb] at hallNl
          simp only [List.all_cons, Bool.and_eq_true] at hallNl
          obtain ⟨hl0all, hl1all, _⟩ := hallNl
          have hl1ne : l1 ≠ [] := by
            intro h0
            subst h0
            have hbj : (splitB2 c).getD idx [] =
                l0 ++ '\n' :: '\n' :: joinSep ['\n'] (l2 :: ls) := by
              conv_lhs => rw [← joinNl_splitNl ((splitB2 c).getD idx []), hsb]
              rw [joinSep,
                show joinSep ['\n'] ([] :: l2 :: ls) =
                  '\n' :: joinSep ['\n'] (l2 :: ls) from by rw [joinSep]; rfl]
              simp [List.append_assoc]
            rw [hbj, hasNN_append_pair] at hbNN
            simp at hbNN
          have hreb : subRebuild ((splitB2 c).getD idx []) e.translated =
              l0 ++ '\n' :: (l1 ++ '\n' :: e.translated) := by
            simp only [subRebuild]
            rw [hlines, hsb, if_pos (by simp)]
            simp [joinSep, List.append_assoc]
          have hrebNN : hasNN (l0 ++ '\n' :: (l1 ++ '\n' :: e.translated)) = false :=
            hasNN_line_sep l0 _ hl0all (headNotNl_of_all l1 _ hl1all hl1ne)
              (hasNN_line_sep l1 _ hl1all htH htNN2)
          have hrebLast : lastNotNl (l0 ++ '\n' :: (l1 ++ '\n' :: e.translated)) = true := by
            rw [show l0 ++ '\n' :: (l1 ++ '\n' :: e.translated) =
              (l0 ++ '\n' :: (l1 ++ ['\n'])) ++ e.translated from by
                simp [List.append_assoc]]
            rw [lastNotNl_append _ _ htne]
            exact htL
          have hrebCR : noCR (l0 ++ '\n' :: (l1 ++ '\n' :: e.translated)) = true := by
            rw [show l0 ++ '\n' :: (l1 ++ '\n' :: e.translated) =
              l0 ++ ('\n' :: []) ++ (l1 ++ ('\n' :: []) ++ e.translated) from by
                simp [List.append_assoc]]
            rw [noCR_append, noCR_append, noCR_append, noCR_append]
            simp only [Bool.and_eq_true]
            exact ⟨⟨hl0CR, by decide⟩, ⟨hl1CR, by decide⟩, htCR⟩
          have hfold : applySubFold [e] (splitB2 c) =
              (splitB2 c).set idx (l0 ++ '\n' :: (l1 ++ '\n' :: e.translated)) := by
            rw [applySubFold_single, if_neg he, hfind]
            dsimp only
            rw [if_pos hidx, hreb]
          have hout : applyTranslations c [e] .subtitles =
              joinSep ['\n', '\n']
                ((splitB2 c).set idx (l0 ++ '\n' :: (l1 ++ '\n' :: e.translated))) := by
            rw [subs_apply_red, hsplit, hfold]
          have houtCR : noCR (joinSep ['\n', '\n']
              ((splitB2 c).set idx (l0 ++ '\n' :: (l1 ++ '\n' :: e.translated)))) = true :=
            noCR_join_intro _ _ (by decide)
              (all_set noCR (splitB2 c) idx _ hbsAll hrebCR)
          have hclean2 : cleanBlocks
              ((splitB2 c).set idx (l0 ++ '\n' :: (l1 ++ '\n' :: e.translated))) = true :=
            cleanBlocks_set (splitB2 c) idx _ hclean hrebNN hrebLast
          have hne2 : (splitB2 c).set idx (l0 ++ '\n' :: (l1 ++ '\n' :: e.translated)) ≠ [] := by
            cases hbs : splitB2 c with
            | nil => exact absurd hbs (splitB2_ne_nil c)
            | cons bb tt => cases idx <;> simp [List.set]
          have hresplit : splitB2 (joinSep ['\n', '\n']
              ((splitB2 c).set idx (l0 ++ '\n' :: (l1 ++ '\n' :: e.translated)))) =
              (splitB2 c).set idx (l0 ++ '\n' :: (l1 ++ '\n' :: e.translated)) :=
            splitB2_join _ hclean2 hne2
          have hlen2 : idx < ((splitB2 c).set idx
              (l0 ++ '\n' :: (l1 ++ '\n' :: e.translated))).length := by
            rw [List.length_set]
            exact hidx
          have hgetD2 : ((splitB2 c).set idx
              (l0 ++ '\n' :: (l1 ++ '\n' :: e.translated))).getD idx [] =
              l0 ++ '\n' :: (l1 ++ '\n' :: e.translated) :=
            getD_set_self (splitB2 c) idx _ [] hidx
          have hreb2 : subRebuild (l0 ++ '\n' :: (l1 ++ '\n' :: e.translated)) e.translated =
              l0 ++ '\n' :: (l1 ++ '\n' :: e.translated) := by
            simp only [subRebuild]
            rw [splitRN_eq_splitNl _ hrebCR,
              splitNl_append_line l0 _ hl0all, splitNl_append_line l1 _ hl1all,
              if_pos (by
                have h1 : 0 < (splitNl e.translated).length :=
                  List.length_pos.mpr (splitNl_ne_nil e.translated)
                simp only [List.length_cons]
                omega)]
            simp [joinSep, List.append_assoc]
          have hfold2 : applySubFold [e] ((splitB2 c).set idx
              (l0 ++ '\n' :: (l1 ++ '\n' :: e.translated))) =
              (splitB2 c).set idx (l0 ++ '\n' :: (l1 ++ '\n' :: e.translated)) := by
            rw [applySubFold_single, if_neg he, hfind]
            dsimp only
            rw [if_pos hlen2, hgetD2, hreb2, List.set_set]
          rw [hout, subs_apply_red, splitBRN_eq_splitB2 _ houtCR, hresplit, hfold2]
      · have hout : applyTranslations c [e] .subtitles = c := by
          rw [subs_apply_red, hsplit, applySubFold_single, if_neg he, hfind]
          dsimp only
          rw [if_neg hidx]
          exact hjoin
        rw [hout]
        exact hout

/-- Claim C4, counterexample: for the subtitle engine the Applier is not
idempotent; a translation containing a blank line is split into two blocks by
the second application, so applying the Applier again to its own output
changes it. -/
theorem C4_counterexample :
    applyTranslations (applyTranslations c4srtContent [c4subEntry] .subtitles)
        [c4subEntry] .subtitles ≠
      applyTranslations c4srtContent [c4subEntry] .subtitles := by
  decide

/-- Claim C4, amended: for the JSON-family engines the Applier is idempotent
whenever the walk leaves the content unchanged (parse failure or a thrown
TypeError), and on a successful walk whenever the written value reparses
cleanly (no duplicate keys, no exotic control characters) and the replayed
walk either rewrites the output to itself or throws; for a single entry the
replayed walk always rewrites the output to itself, so single-entry
JSON-family application is idempotent outright. For the subtitle engine
idempotence holds for a single entry only when the content has no carriage
return and the translation has no carriage return, no blank line and no
leading or trailing newline; the counterexample shows it fails otherwise. -/
theorem C4_amended :
    (∀ (c : List Char) (es : List Entry) (eng : Engine),
      (eng = .rpgmaker ∨ eng = .unity ∨ eng = .generic) →
      Json.parseC c = none →
      applyTranslations c es eng = c ∧
      applyTranslations (applyTranslations c es eng) es eng =
        applyTranslations c es eng) ∧
    (∀ (c : List Char) (es : List Entry) (eng : Engine) (v : Json),
      (eng = .rpgmaker ∨ eng = .unity ∨ eng = .generic) →
      Json.parseC c = some v → goEntries es v = none →
      applyTranslations c es eng = c ∧
      applyTranslations (applyTranslations c es eng) es eng =
        applyTranslations c es eng) ∧
    (∀ (c : List Char) (es : List Entry) (eng : Engine) (v w : Json),
      (eng = .rpgmaker ∨ eng = .unity ∨ eng = .generic) →
      Json.parseC c = some v → goEntries es v = some w → wfJ w = true →
      (goEntries es w = some w ∨ goEntries es w = none) →
      applyTranslations (applyTranslations c es eng) es eng =
        applyTranslations c es eng) ∧
    (∀ (c : List Char) (e : Entry) (eng : Engine) (v w : Json),
      (eng = .rpgmaker ∨ eng = .unity ∨ eng = .generic) →
      Json.parseC c = some v → goEntries [e] v = some w → wfJ w = true →
      applyTranslations (applyTranslations c [e] eng) [e] eng =
        applyTranslations c [e] eng) ∧
    (∀ (c : List Char) (e : Entry), noCR c = true → tClean e.translated = true →
      applyTranslations (applyTranslations c [e] .subtitles) [e] .subtitles =
        applyTranslations c [e] .subtitles) := by
  have hcase3 : ∀ (c : List Char) (es : List Entry) (eng : Engine) (v w : Json),
      (eng = .rpgmaker ∨ eng = .unity ∨ eng = .generic) →
      Json.parseC c = some v → goEntries es v = some w → wfJ w = true →
      (goEntries es w = some w ∨ goEntries es w = none) →
      applyTranslations (applyTranslations c es eng) es eng =
        applyTranslations c es eng := by
    intro c es eng v w hj hp hgo hwf hrep
    have hout : applyTranslations c es eng = Json.stringifyC w := by
      rw [applyTranslations_json_red c es eng hj, hp]
      dsimp only
      rw [hgo]
    have hparse2 : Json.parseC (Json.stringifyC w) = some w := parse_stringify w hwf
    rcases hrep with hrep | hrep
    · rw [hout, applyTranslations_json_red _ es eng hj, hparse2]
      dsimp only
      rw [hrep]
    · rw [hout, applyTranslations_json_red _ es eng hj, hparse2]
      dsimp only
      rw [hrep]
  refine ⟨?_, ?_, hcase3, ?_, ?_⟩
  · intro c es eng hj hp
    have h1 : applyTranslations c es eng = c := by
      rw [applyTranslations_json_red c es eng hj, hp]
    refine ⟨h1, ?_⟩
    rw [h1]
    exact h1
  · intro c es eng v hj hp hgo
    have h1 : applyTranslations c es eng = c := by
      rw [applyTranslations_json_red c es eng hj, hp]
      dsimp only
      rw [hgo]
    refine ⟨h1, ?_⟩
    rw [h1]
    exact h1
  · intro c e eng v w hj hp hgo hwf
    exact hcase3 c [e] eng v w hj hp hgo hwf
      (Or.inl (goEntries_single_replay e v w hgo))
  · intro c e hc ht
    exact subtitles_single_idem c e hc ht

theorem C4_amended_witness :
    (Json.parseC (s2c "nope") = none ∧
      applyTranslations (applyTranslations (s2c "nope") [] .generic) [] .generic =
        applyTranslations (s2c "nope") [] .generic) ∧
    (Json.parseC (s2c "\x7b\"a\":\"x\"\x7d") =
        some (Json.obj [(s2c "a", Json.str (s2c "x"))]) ∧
      goEntries [c4jsonEntry] (Json.obj [(s2c "a", Json.str (s2c "x"))]) =
        some (Json.obj [(s2c "a", Json.str (s2c "y"))]) ∧
      wfJ (Json.obj [(s2c "a", Json.str (s2c "y"))]) = true ∧
      applyTranslations
          (applyTranslations (s2c "\x7b\"a\":\"x\"\x7d") [c4jsonEntry] .rpgmaker)
          [c4jsonEntry] .rpgmaker =
        applyTranslations (s2c "\x7b\"a\":\"x\"\x7d") [c4jsonEntry] .rpgmaker) ∧
    (noCR c4srtContent = true ∧ tClean c4subClean.translated = true ∧
      applyTranslations (applyTranslations c4srtContent [c4subClean] .subtitles)
          [c4subClean] .subtitles =
        applyTranslations c4srtContent [c4subClean] .subtitles) := by
  refine ⟨⟨by decide, ?_⟩, ⟨by decide, by decide, by decide, ?_⟩,
    ⟨by decide, by decide, ?_⟩⟩
  · exact ((C4_amended.1 (s2c "nope") [] .generic (Or.inr (Or.inr rfl))
      (by decide))).2
  · exact C4_amended.2.2.2.1 (s2c "\x7b\"a\":\"x\"\x7d") c4jsonEntry .rpgmaker
      (Json.obj [(s2c "a", Json.str (s2c "x"))])
      (Json.obj [(s2c "a", Json.str (s2c "y"))]) (Or.inl rfl) (by decide) (by decide)
      (by decide)
  · exact C4_amended.2.2.2.2 c4srtContent c4subClean (by decide) (by decide)

end TE
